import Mathlib

/-!
Verification of the Bluetooth HCI offload proxy (Rust sources under
`src/offload/`): shallow embedding of the byte reader/writer
(`src/offload/hci/reader.rs`, `writer.rs`), the HCI codec
(`command.rs`, `event.rs`, `data.rs`, `status.rs`), the LE-audio
arbiter (`src/offload/leaudio/hci/arbiter.rs`) and the proxy state
machine (`src/offload/leaudio/hci/proxy.rs`), together with proofs of
the round-trip, invariant and functional-correctness properties stated
in the specification.

Bytes are modelled as `Nat` (a Rust `u8` value is a `Nat < 256`;
serializers only ever emit masked values). Rust functions that can
panic are modelled as `Option`-valued functions returning `none` at
the panic.
-/

namespace Hci

/-! ## Byte reader (src/offload/hci/reader.rs)

A `Read` implementation `fn read(r: &mut Reader) -> Option<Self>` is
embedded as a function `Reader → Option α × Reader`: the returned
reader is the state of the mutable reference after the call (also on
failure, where Rust leaves the partially-advanced cursor in place). -/

structure Reader where
  data : List Nat
  pos : Nat
deriving DecidableEq

def Reader.new (data : List Nat) : Reader := ⟨data, 0⟩

/-- Embedding of `Reader::get`: take `n` bytes at the cursor, or fail
leaving the cursor unchanged. -/
def Reader.get (r : Reader) (n : Nat) : Option (List Nat) × Reader :=
  if r.pos + n > r.data.length then (none, r)
  else (some ((r.data.drop r.pos).take n), { r with pos := r.pos + n })

/-- Little-endian accumulation of `Reader::read_u32`:
`data_it.fold(0, |v, (i, byte)| v | byte << (i * 8))`. -/
def decodeLE (bs : List Nat) : Nat :=
  bs.enum.foldl (fun v p => v ||| (p.2 <<< (p.1 * 8))) 0

def Reader.read_u32 (N : Nat) (r : Reader) : Option Nat × Reader :=
  match r.get N with
  | (none, r) => (none, r)
  | (some bs, r) => (some (decodeLE bs), r)

/-- Embedding of `read_u8` (`read_u32::<1>()? as u8`). -/
def Reader.read_u8 (r : Reader) : Option Nat × Reader :=
  match r.read_u32 1 with
  | (none, r) => (none, r)
  | (some v, r) => (some (v % 2 ^ 8), r)

/-- Embedding of `read_u16` (`read_u32::<2>()? as u16`). -/
def Reader.read_u16 (r : Reader) : Option Nat × Reader :=
  match r.read_u32 2 with
  | (none, r) => (none, r)
  | (some v, r) => (some (v % 2 ^ 16), r)

/-- Embedding of `read_bytes::<N>` (the value keeps its list form; the
length is recorded in the well-formedness predicates). -/
def Reader.read_bytes (N : Nat) (r : Reader) : Option (List Nat) × Reader :=
  r.get N

/-- Sequencing of two reads through the `?` operator: on failure the
cursor state of the failed read is kept. -/
def rbind {α β : Type} (m : Reader → Option α × Reader)
    (f : α → Reader → Option β × Reader) : Reader → Option β × Reader :=
  fun r =>
    match m r with
    | (none, r) => (none, r)
    | (some a, r) => f a r

def rpure {α : Type} (a : α) : Reader → Option α × Reader :=
  fun r => (some a, r)

/-- Embedding of `impl Read for Vec<u8>`. -/
def readVecU8 : Reader → Option (List Nat) × Reader :=
  rbind Reader.read_u8 fun len => fun r => r.get len

/-- Reading of `len` successive elements, as performed by
`(0..len).map_while(|_| r.read()).collect()` followed by the
`take_if(|v| v.len() == len)` length check: the first element failure
makes the whole sequence fail, with the cursor kept where the failed
element read left it. -/
def readN {α : Type} (F : Reader → Option α × Reader) : Nat → Reader → Option (List α) × Reader
  | 0, r => (some [], r)
  | (n + 1), r =>
    match F r with
    | (none, r) => (none, r)
    | (some a, r) =>
      match readN F n r with
      | (none, r) => (none, r)
      | (some as, r) => (some (a :: as), r)

/-- Embedding of `impl Read for Vec<u16>`. -/
def readVecU16 : Reader → Option (List Nat) × Reader :=
  rbind Reader.read_u8 fun len => readN Reader.read_u16 len

/-- Embedding of `impl<T: Read> Read for Vec<T>`. -/
def readVec {α : Type} (F : Reader → Option α × Reader) : Reader → Option (List α) × Reader :=
  rbind Reader.read_u8 fun len => readN F len

/-! ## Byte writer (src/offload/hci/writer.rs)

`Writer` is its byte vector; `write` methods append. Writes that can
panic (length prefixes over 255, `pack!` assertion failures) are
`Option`-valued. -/

def put (w : List Nat) (slice : List Nat) : List Nat := w ++ slice

def write_u32 : Nat → List Nat → Nat → List Nat
  | 0, w, _ => w
  | (n + 1), w, v => write_u32 n (w ++ [v &&& 0xff]) (v >>> 8)

def write_u8 (w : List Nat) (v : Nat) : List Nat := write_u32 1 w v

def write_u16 (w : List Nat) (v : Nat) : List Nat := write_u32 2 w v

def write_bytes (w : List Nat) (bytes : List Nat) : List Nat := put w bytes

/-- Embedding of `impl Write for Vec<u8>`: the length prefix must fit
one byte (`self.len().try_into().unwrap()`). -/
def writeVecU8 (w : List Nat) (v : List Nat) : Option (List Nat) :=
  if v.length ≤ 255 then some (put (write_u8 w v.length) v) else none

/-- Embedding of `impl Write for Vec<u16>`. -/
def writeVecU16 (w : List Nat) (v : List Nat) : Option (List Nat) :=
  if v.length ≤ 255 then some (v.foldl write_u16 (write_u8 w v.length)) else none

/-- Embedding of `impl<T: Write> Write for Vec<T>` for a total element
writer. -/
def writeVec {α : Type} (F : List Nat → α → List Nat) (w : List Nat) (v : List α) :
    Option (List Nat) :=
  if v.length ≤ 255 then some (v.foldl F (write_u8 w v.length)) else none

/-! ### Primitive reader / writer lemmas -/

/-- Value of a little-endian byte string. -/
def bytesVal : List Nat → Nat
  | [] => 0
  | b :: t => b + 256 * bytesVal t

theorem write_u32_append (n : Nat) (w : List Nat) (v : Nat) :
    write_u32 n w v = w ++ write_u32 n [] v := by
  induction n generalizing w v with
  | zero => simp [write_u32]
  | succ n ih =>
    rw [write_u32, write_u32, ih (w ++ _), ih ([] ++ _)]
    simp

@[simp] theorem write_u32_length (n : Nat) (w : List Nat) (v : Nat) :
    (write_u32 n w v).length = w.length + n := by
  induction n generalizing w v with
  | zero => simp [write_u32]
  | succ n ih => rw [write_u32, ih]; simp; omega

theorem write_u32_bytes_lt (n : Nat) (v : Nat) :
    ∀ b ∈ write_u32 n [] v, b < 256 := by
  induction n generalizing v with
  | zero => simp [write_u32]
  | succ n ih =>
    intro b hb
    rw [write_u32, write_u32_append] at hb
    simp at hb
    rcases hb with h | h
    · subst h
      have : v &&& 0xff = v % 2 ^ 8 := by
        have := Nat.and_pow_two_sub_one_eq_mod v 8
        norm_num at this ⊢
        omega
      omega
    · exact ih _ _ h

theorem and_255_eq (v : Nat) : v &&& 0xff = v % 2 ^ 8 := by
  have h := Nat.and_pow_two_sub_one_eq_mod v 8
  norm_num at h ⊢
  omega

theorem bytesVal_write_u32 (n : Nat) (v : Nat) :
    bytesVal (write_u32 n [] v) = v % 2 ^ (8 * n) := by
  induction n generalizing v with
  | zero => simp [write_u32, bytesVal, Nat.mod_one]
  | succ n ih =>
    rw [write_u32, write_u32_append]
    simp only [List.append_eq, List.nil_append, List.singleton_append, bytesVal]
    rw [and_255_eq, Nat.shiftRight_eq_div_pow, ih]
    have hmul : 2 ^ (8 * (n + 1)) = 2 ^ 8 * 2 ^ (8 * n) := by ring
    rw [hmul, Nat.mod_mul]
    norm_num

theorem decodeLE_enumFrom (bs : List Nat) (h : ∀ b ∈ bs, b < 256) :
    ∀ k acc, acc < 2 ^ (8 * k) →
      List.foldl (fun v p => v ||| (p.2 <<< (p.1 * 8))) acc (List.enumFrom k bs)
        = acc + bytesVal bs * 2 ^ (8 * k) := by
  induction bs with
  | nil => intro k acc _; simp [bytesVal, List.enumFrom]
  | cons b t ih =>
    intro k acc hacc
    have hb : b < 256 := h b (by simp)
    have ht : ∀ x ∈ t, x < 256 := fun x hx => h x (by simp [hx])
    have step : acc ||| (b <<< (k * 8)) = acc + b * 2 ^ (8 * k) := by
      rw [Nat.shiftLeft_eq, Nat.lor_comm]
      rw [show k * 8 = 8 * k by ring, show b * 2 ^ (8 * k) = 2 ^ (8 * k) * b by ring]
      exact (Nat.mul_add_lt_is_or hacc b).symm.trans (Nat.add_comm _ _)
    have hacc' : acc + b * 2 ^ (8 * k) < 2 ^ (8 * (k + 1)) := by
      have hpow : 2 ^ (8 * (k + 1)) = 2 ^ (8 * k) * 256 := by
        rw [show 8 * (k + 1) = 8 * k + 8 by ring, pow_add]; norm_num
      rw [hpow]
      calc acc + b * 2 ^ (8 * k) < 2 ^ (8 * k) + b * 2 ^ (8 * k) := by omega
        _ = (1 + b) * 2 ^ (8 * k) := by ring
        _ ≤ 256 * 2 ^ (8 * k) := Nat.mul_le_mul_right _ (by omega)
        _ = 2 ^ (8 * k) * 256 := by ring
    show List.foldl _ _ ((k, b) :: List.enumFrom (k + 1) t) = _
    rw [List.foldl_cons]
    show List.foldl _ (acc ||| (b <<< (k * 8))) _ = _
    rw [step, ih ht (k + 1) _ hacc']
    simp only [bytesVal]
    ring

theorem decodeLE_eq (bs : List Nat) (h : ∀ b ∈ bs, b < 256) :
    decodeLE bs = bytesVal bs := by
  have hres := decodeLE_enumFrom bs h 0 0 (by norm_num)
  simpa [decodeLE, List.enum] using hres

/-- Canonical reading relation for the cursor embedding: `F` consumes
exactly the byte string `bs` wherever it appears at the cursor,
producing the value `x`. -/
def ReadsExact {α : Type} (F : Reader → Option α × Reader) (x : α) (bs : List Nat) : Prop :=
  ∀ d p rest, p ≤ d.length → d.drop p = bs ++ rest →
    F ⟨d, p⟩ = (some x, ⟨d, p + bs.length⟩)

theorem drop_shift {d bs rest : List Nat} {p : Nat} (h : d.drop p = bs ++ rest) :
    d.drop (p + bs.length) = rest := by
  rw [← List.drop_drop, h, List.drop_left]

theorem drop_len_le {d bs rest : List Nat} {p : Nat} (hp : p ≤ d.length)
    (h : d.drop p = bs ++ rest) : p + bs.length ≤ d.length := by
  have hc := congrArg List.length h
  simp at hc
  omega

theorem ReadsExact.bind {α β : Type} {F : Reader → Option α × Reader}
    {g : α → Reader → Option β × Reader} {x : α} {y : β} {bs cs : List Nat}
    (hF : ReadsExact F x bs) (hg : ReadsExact (g x) y cs) :
    ReadsExact (rbind F g) y (bs ++ cs) := by
  intro d p rest hp h
  have h1 : d.drop p = bs ++ (cs ++ rest) := by rw [h, List.append_assoc]
  have h2 : d.drop (p + bs.length) = cs ++ rest := drop_shift h1
  have hp2 : p + bs.length ≤ d.length := drop_len_le hp h1
  simp only [rbind, hF d p _ hp h1, hg d (p + bs.length) rest hp2 h2]
  simp [List.length_append]
  omega

theorem ReadsExact.pure {α : Type} (a : α) : ReadsExact (rpure a) a [] := by
  intro d p rest _ _
  simp [rpure]

theorem get_reads (bs : List Nat) :
    ReadsExact (fun r => r.get bs.length) bs bs := by
  intro d p rest hp h
  have hple : p + bs.length ≤ d.length := drop_len_le hp h
  show Reader.get ⟨d, p⟩ bs.length = _
  simp only [Reader.get]
  rw [if_neg (by simp only [gt_iff_lt, not_lt]; exact hple)]
  rw [h, List.take_left]

theorem read_u32_reads (N v : Nat) (hv : v < 2 ^ (8 * N)) :
    ReadsExact (Reader.read_u32 N) v (write_u32 N [] v) := by
  intro d p rest hp h
  have hlen : (write_u32 N [] v).length = N := by simp
  have hget : Reader.get ⟨d, p⟩ ((write_u32 N [] v).length)
      = (some (write_u32 N [] v), ⟨d, p + (write_u32 N [] v).length⟩) :=
    get_reads (write_u32 N [] v) d p rest hp h
  rw [hlen] at hget
  simp only [Reader.read_u32, hget]
  rw [decodeLE_eq _ (write_u32_bytes_lt N v), bytesVal_write_u32, Nat.mod_eq_of_lt hv, hlen]

theorem read_u8_reads (v : Nat) (hv : v < 2 ^ 8) :
    ReadsExact Reader.read_u8 v (write_u8 [] v) := by
  intro d p rest hp h
  have h32 := read_u32_reads 1 v (by simpa using hv) d p rest hp h
  simp only [Reader.read_u8, write_u8, h32]
  rw [Nat.mod_eq_of_lt hv]

theorem read_u16_reads (v : Nat) (hv : v < 2 ^ 16) :
    ReadsExact Reader.read_u16 v (write_u16 [] v) := by
  intro d p rest hp h
  have h32 := read_u32_reads 2 v (by simpa using hv) d p rest hp h
  simp only [Reader.read_u16, write_u16, h32]
  rw [Nat.mod_eq_of_lt hv]

theorem read_bytes_reads (bs : List Nat) (N : Nat) (hN : bs.length = N) :
    ReadsExact (Reader.read_bytes N) bs (write_bytes [] bs) := by
  subst hN
  intro d p rest hp h
  exact get_reads bs d p rest hp (by simpa [write_bytes, put] using h)

theorem ReadsExact.congr {α : Type} {F : Reader → Option α × Reader} {x : α}
    {bs bs' : List Nat} (h : ReadsExact F x bs) (he : bs = bs') : ReadsExact F x bs' :=
  he ▸ h

theorem readVecU8_reads (v : List Nat) (hv : v.length ≤ 255) :
    ReadsExact readVecU8 v (write_u8 [] v.length ++ v) :=
  ReadsExact.bind (read_u8_reads v.length (by norm_num; omega)) (get_reads v)

theorem readN_reads {α : Type} (F : Reader → Option α × Reader) (encF : α → List Nat)
    (v : List α) (h : ∀ a ∈ v, ReadsExact F a (encF a)) :
    ReadsExact (readN F v.length) v ((v.map encF).flatten) := by
  induction v with
  | nil =>
    intro d p rest _ _
    simp [readN]
  | cons a t ih =>
    intro d p rest hp hdrop
    have h1 : d.drop p = encF a ++ ((t.map encF).flatten ++ rest) := by
      simpa [List.append_assoc] using hdrop
    have hF := h a (by simp) d p _ hp h1
    have hp2 : p + (encF a).length ≤ d.length := drop_len_le hp h1
    have h2 : d.drop (p + (encF a).length) = (t.map encF).flatten ++ rest := drop_shift h1
    have hT := ih (fun x hx => h x (by simp [hx])) d (p + (encF a).length) rest hp2 h2
    show readN F (t.length + 1) ⟨d, p⟩ = _
    simp only [readN, hF, hT]
    simp [List.length_append]
    omega

theorem readVec_reads {α : Type} (F : Reader → Option α × Reader) (encF : α → List Nat)
    (v : List α) (hv : v.length ≤ 255) (h : ∀ a ∈ v, ReadsExact F a (encF a)) :
    ReadsExact (readVec F) v (write_u8 [] v.length ++ (v.map encF).flatten) :=
  ReadsExact.bind (read_u8_reads v.length (by norm_num; omega)) (readN_reads F encF v h)

theorem readVecU16_reads (v : List Nat) (hv : v.length ≤ 255)
    (h : ∀ a ∈ v, a < 2 ^ 16) :
    ReadsExact readVecU16 v (write_u8 [] v.length ++ (v.map (fun a => write_u16 [] a)).flatten) :=
  ReadsExact.bind (read_u8_reads v.length (by norm_num; omega))
    (readN_reads Reader.read_u16 (write_u16 []) v (fun a ha => read_u16_reads a (h a ha)))

theorem foldl_write_append {α : Type} (Fw : List Nat → α → List Nat)
    (hFw : ∀ w a, Fw w a = w ++ Fw [] a) (start : List Nat) (v : List α) :
    v.foldl Fw start = start ++ (v.map (fun a => Fw [] a)).flatten := by
  induction v generalizing start with
  | nil => simp
  | cons a t ih =>
    rw [List.foldl_cons, ih, hFw start a]
    simp

theorem writeVecU8_append (w v : List Nat) :
    writeVecU8 w v = (writeVecU8 [] v).map (w ++ ·) := by
  unfold writeVecU8
  split
  · simp [put, write_u8, write_u32, List.append_assoc]
  · rfl

theorem writeVecU16_append (w v : List Nat) :
    writeVecU16 w v = (writeVecU16 [] v).map (w ++ ·) := by
  unfold writeVecU16
  split
  · rw [foldl_write_append write_u16 (fun w a => write_u32_append 2 w a),
      foldl_write_append write_u16 (fun w a => write_u32_append 2 w a)]
    simp [write_u8, write_u32, List.append_assoc]
  · rfl

theorem writeVec_append {α : Type} (F : List Nat → α → List Nat)
    (hF : ∀ w a, F w a = w ++ F [] a) (w : List Nat) (v : List α) :
    writeVec F w v = (writeVec F [] v).map (w ++ ·) := by
  unfold writeVec
  split
  · rw [foldl_write_append F hF, foldl_write_append F hF]
    simp [write_u8, write_u32, List.append_assoc]
  · rfl

/-! ## Status codes (src/offload/hci/status.rs) -/

inductive Status
  | Success
  | UnknownHciCommand
  | UnknownConnectionIdentifier
  | HardwareFailure
  | PageTimeout
  | AuthenticationFailure
  | PinorKeyMissing
  | MemoryCapacityExceeded
  | ConnectionTimeout
  | ConnectionLimitExceeded
  | SynchronousConnectionLimitExceeded
  | ConnectionAlreadyExists
  | CommandDisallowed
  | ConnectionRejectedLimitedResources
  | ConnectionRejectedSecurityReasons
  | ConnectionRejectedUnacceptableBdAddr
  | ConnectionAcceptTimeoutExceeded
  | UnsupportedFeatureOrParameterValue
  | InvalidHciCommandParameters
  | RemoteUserTerminatedConnection
  | RemoteDeviceTerminatedConnectionLowResources
  | RemoteDeviceTerminatedConnectionPowerOff
  | ConnectionTerminatedByLocalHost
  | RepeatedAttempts
  | PairingNotAllowed
  | UnknownLmpPdu
  | UnsupportedRemoteFeature
  | ScoOffsetRejected
  | ScoIntervalRejected
  | ScoAirModeRejected
  | InvalidLmpParameters
  | UnspecifiedError
  | UnsupportedLmpParameterValue
  | RoleChangeNotAllowed
  | LmpResponseTimeout
  | LmpErrorTransactionCollision
  | LmpPduNotAllowed
  | EncryptionModeNotAcceptable
  | LinkKeyCannotBeChanged
  | RequestedQosNotSupported
  | InstantPassed
  | PairingWithUnitKeyNotSupported
  | DifferentTransactionCollision
  | ReservedForUse2B
  | QosUnacceptableParameter
  | QosRejected
  | ChannelClassificationNotSupported
  | InsufficientSecurity
  | ParameterOutOfMandatoryRange
  | ReservedForUse31
  | RoleSwitchPending
  | ReservedForUse33
  | ReservedSlotViolation
  | RoleSwitchFailed
  | ExtendedInquiryResponseTooLarge
  | SecureSimplePairingNotSupportedByHost
  | HostBusy
  | ConnectionRejectedNoSuitableChannelFound
  | ControllerBusy
  | UnacceptableConnectionParameters
  | AdvertisingTimeout
  | ConnectionTerminatedMicFailure
  | ConnectionFailedEstablished
  | PreviouslyUsed3F
  | CoarseClockAdjustmentRejected
  | Type0SubmapNotDefined
  | UnknownAdvertisingIdentifier
  | LimitReached
  | OperationCancelledByHost
  | PacketTooLong
  | TooLate
  | TooEarly
deriving DecidableEq

/-- Discriminant of each `Status` variant (`0x00` .. `0x47`, written by
the derived `Write` impl). -/
def Status.toByte : Status → Nat
  | .Success => 0x00
  | .UnknownHciCommand => 0x01
  | .UnknownConnectionIdentifier => 0x02
  | .HardwareFailure => 0x03
  | .PageTimeout => 0x04
  | .AuthenticationFailure => 0x05
  | .PinorKeyMissing => 0x06
  | .MemoryCapacityExceeded => 0x07
  | .ConnectionTimeout => 0x08
  | .ConnectionLimitExceeded => 0x09
  | .SynchronousConnectionLimitExceeded => 0x0A
  | .ConnectionAlreadyExists => 0x0B
  | .CommandDisallowed => 0x0C
  | .ConnectionRejectedLimitedResources => 0x0D
  | .ConnectionRejectedSecurityReasons => 0x0E
  | .ConnectionRejectedUnacceptableBdAddr => 0x0F
  | .ConnectionAcceptTimeoutExceeded => 0x10
  | .UnsupportedFeatureOrParameterValue => 0x11
  | .InvalidHciCommandParameters => 0x12
  | .RemoteUserTerminatedConnection => 0x13
  | .RemoteDeviceTerminatedConnectionLowResources => 0x14
  | .RemoteDeviceTerminatedConnectionPowerOff => 0x15
  | .ConnectionTerminatedByLocalHost => 0x16
  | .RepeatedAttempts => 0x17
  | .PairingNotAllowed => 0x18
  | .UnknownLmpPdu => 0x19
  | .UnsupportedRemoteFeature => 0x1A
  | .ScoOffsetRejected => 0x1B
  | .ScoIntervalRejected => 0x1C
  | .ScoAirModeRejected => 0x1D
  | .InvalidLmpParameters => 0x1E
  | .UnspecifiedError => 0x1F
  | .UnsupportedLmpParameterValue => 0x20
  | .RoleChangeNotAllowed => 0x21
  | .LmpResponseTimeout => 0x22
  | .LmpErrorTransactionCollision => 0x23
  | .LmpPduNotAllowed => 0x24
  | .EncryptionModeNotAcceptable => 0x25
  | .LinkKeyCannotBeChanged => 0x26
  | .RequestedQosNotSupported => 0x27
  | .InstantPassed => 0x28
  | .PairingWithUnitKeyNotSupported => 0x29
  | .DifferentTransactionCollision => 0x2A
  | .ReservedForUse2B => 0x2B
  | .QosUnacceptableParameter => 0x2C
  | .QosRejected => 0x2D
  | .ChannelClassificationNotSupported => 0x2E
  | .InsufficientSecurity => 0x2F
  | .ParameterOutOfMandatoryRange => 0x30
  | .ReservedForUse31 => 0x31
  | .RoleSwitchPending => 0x32
  | .ReservedForUse33 => 0x33
  | .ReservedSlotViolation => 0x34
  | .RoleSwitchFailed => 0x35
  | .ExtendedInquiryResponseTooLarge => 0x36
  | .SecureSimplePairingNotSupportedByHost => 0x37
  | .HostBusy => 0x38
  | .ConnectionRejectedNoSuitableChannelFound => 0x39
  | .ControllerBusy => 0x3A
  | .UnacceptableConnectionParameters => 0x3B
  | .AdvertisingTimeout => 0x3C
  | .ConnectionTerminatedMicFailure => 0x3D
  | .ConnectionFailedEstablished => 0x3E
  | .PreviouslyUsed3F => 0x3F
  | .CoarseClockAdjustmentRejected => 0x40
  | .Type0SubmapNotDefined => 0x41
  | .UnknownAdvertisingIdentifier => 0x42
  | .LimitReached => 0x43
  | .OperationCancelledByHost => 0x44
  | .PacketTooLong => 0x45
  | .TooLate => 0x46
  | .TooEarly => 0x47

/-- Inverse discriminant match of the derived `Read` impl
(`_ => None` on any other byte). -/
def Status.ofByte (b : Nat) : Option Status :=
  statusList.get? b
where
  statusList : List Status :=
    [.Success, .UnknownHciCommand, .UnknownConnectionIdentifier, .HardwareFailure,
     .PageTimeout, .AuthenticationFailure, .PinorKeyMissing, .MemoryCapacityExceeded,
     .ConnectionTimeout, .ConnectionLimitExceeded, .SynchronousConnectionLimitExceeded,
     .ConnectionAlreadyExists, .CommandDisallowed, .ConnectionRejectedLimitedResources,
     .ConnectionRejectedSecurityReasons, .ConnectionRejectedUnacceptableBdAddr,
     .ConnectionAcceptTimeoutExceeded, .UnsupportedFeatureOrParameterValue,
     .InvalidHciCommandParameters, .RemoteUserTerminatedConnection,
     .RemoteDeviceTerminatedConnectionLowResources,
     .RemoteDeviceTerminatedConnectionPowerOff, .ConnectionTerminatedByLocalHost,
     .RepeatedAttempts, .PairingNotAllowed, .UnknownLmpPdu, .UnsupportedRemoteFeature,
     .ScoOffsetRejected, .ScoIntervalRejected, .ScoAirModeRejected, .InvalidLmpParameters,
     .UnspecifiedError, .UnsupportedLmpParameterValue, .RoleChangeNotAllowed,
     .LmpResponseTimeout, .LmpErrorTransactionCollision, .LmpPduNotAllowed,
     .EncryptionModeNotAcceptable, .LinkKeyCannotBeChanged, .RequestedQosNotSupported,
     .InstantPassed, .PairingWithUnitKeyNotSupported, .DifferentTransactionCollision,
     .ReservedForUse2B, .QosUnacceptableParameter, .QosRejected,
     .ChannelClassificationNotSupported, .InsufficientSecurity,
     .ParameterOutOfMandatoryRange, .ReservedForUse31, .RoleSwitchPending,
     .ReservedForUse33, .ReservedSlotViolation, .RoleSwitchFailed,
     .ExtendedInquiryResponseTooLarge, .SecureSimplePairingNotSupportedByHost, .HostBusy,
     .ConnectionRejectedNoSuitableChannelFound, .ControllerBusy,
     .UnacceptableConnectionParameters, .AdvertisingTimeout,
     .ConnectionTerminatedMicFailure, .ConnectionFailedEstablished, .PreviouslyUsed3F,
     .CoarseClockAdjustmentRejected, .Type0SubmapNotDefined, .UnknownAdvertisingIdentifier,
     .LimitReached, .OperationCancelledByHost, .PacketTooLong, .TooLate, .TooEarly]

def Status.read : Reader → Option Status × Reader :=
  rbind Reader.read_u8 fun b => fun r =>
    match Status.ofByte b with
    | some s => (some s, r)
    | none => (none, r)

def Status.write (w : List Nat) (s : Status) : List Nat :=
  write_u8 w s.toByte

theorem Status.ofByte_toByte (s : Status) : Status.ofByte s.toByte = some s := by
  cases s <;> rfl

theorem Status.toByte_lt (s : Status) : s.toByte < 2 ^ 8 := by
  cases s <;> norm_num [Status.toByte]

theorem Status_read_reads (s : Status) :
    ReadsExact Status.read s (Status.write [] s) := by
  have hres : ReadsExact Status.read s (write_u8 [] s.toByte ++ []) :=
    ReadsExact.bind (read_u8_reads s.toByte s.toByte_lt)
      (by
        intro d p rest hp h
        rw [Status.ofByte_toByte]
        exact ReadsExact.pure s d p rest hp h)
  exact hres.congr (by simp [Status.write])

/-! ## OpCode and small enums (src/offload/hci/command.rs) -/

structure OpCode where
  val : Nat
deriving DecidableEq

/-- Embedding of `OpCode::from(ogf, ocf)`, packing
`pack!((ocf, 10), (ogf, 6))`. -/
def OpCode.make (ogf ocf : Nat) : OpCode := ⟨ocf ||| (ogf <<< 10)⟩

def OpCode.read : Reader → Option OpCode × Reader :=
  rbind Reader.read_u16 fun v => rpure ⟨v⟩

def OpCode.write (w : List Nat) (o : OpCode) : List Nat := write_u16 w o.val

theorem OpCode_read_reads (o : OpCode) (h : o.val < 2 ^ 16) :
    ReadsExact OpCode.read o (OpCode.write [] o) := by
  have hchain : ReadsExact OpCode.read o (write_u16 [] o.val ++ []) :=
    (read_u16_reads o.val h).bind (ReadsExact.pure o)
  exact hchain.congr (by simp [OpCode.write])

inductive LeDataPathDirection
  | Input
  | Output
deriving DecidableEq

def LeDataPathDirection.toByte : LeDataPathDirection → Nat
  | .Input => 0x00
  | .Output => 0x01

def LeDataPathDirection.ofByte : Nat → Option LeDataPathDirection
  | 0x00 => some .Input
  | 0x01 => some .Output
  | _ => none

def LeDataPathDirection.read : Reader → Option LeDataPathDirection × Reader :=
  rbind Reader.read_u8 fun b => fun r =>
    match LeDataPathDirection.ofByte b with
    | some s => (some s, r)
    | none => (none, r)

def LeDataPathDirection.write (w : List Nat) (s : LeDataPathDirection) : List Nat :=
  write_u8 w s.toByte

theorem LeDataPathDirection_read_reads (s : LeDataPathDirection) :
    ReadsExact LeDataPathDirection.read s (LeDataPathDirection.write [] s) := by
  have hres : ReadsExact LeDataPathDirection.read s (write_u8 [] s.toByte ++ []) :=
    ReadsExact.bind (read_u8_reads s.toByte (by cases s <;> norm_num [LeDataPathDirection.toByte]))
      (by
        intro d p rest hp h
        rw [show LeDataPathDirection.ofByte s.toByte = some s by cases s <;> rfl]
        exact ReadsExact.pure s d p rest hp h)
  exact hres.congr (by simp [LeDataPathDirection.write])

inductive CodingFormat
  | ULawLog
  | ALawLog
  | Cvsd
  | Transparent
  | LinearPcm
  | MSbc
  | Lc3
  | G729A
  | VendorSpecific
deriving DecidableEq

def CodingFormat.toByte : CodingFormat → Nat
  | .ULawLog => 0x00
  | .ALawLog => 0x01
  | .Cvsd => 0x02
  | .Transparent => 0x03
  | .LinearPcm => 0x04
  | .MSbc => 0x05
  | .Lc3 => 0x06
  | .G729A => 0x07
  | .VendorSpecific => 0xff

def CodingFormat.ofByte : Nat → Option CodingFormat
  | 0x00 => some .ULawLog
  | 0x01 => some .ALawLog
  | 0x02 => some .Cvsd
  | 0x03 => some .Transparent
  | 0x04 => some .LinearPcm
  | 0x05 => some .MSbc
  | 0x06 => some .Lc3
  | 0x07 => some .G729A
  | 0xff => some .VendorSpecific
  | _ => none

def CodingFormat.read : Reader → Option CodingFormat × Reader :=
  rbind Reader.read_u8 fun b => fun r =>
    match CodingFormat.ofByte b with
    | some s => (some s, r)
    | none => (none, r)

def CodingFormat.write (w : List Nat) (s : CodingFormat) : List Nat :=
  write_u8 w s.toByte

theorem CodingFormat_read_reads (s : CodingFormat) :
    ReadsExact CodingFormat.read s (CodingFormat.write [] s) := by
  have hres : ReadsExact CodingFormat.read s (write_u8 [] s.toByte ++ []) :=
    ReadsExact.bind (read_u8_reads s.toByte (by cases s <;> norm_num [CodingFormat.toByte]))
      (by
        intro d p rest hp h
        rw [show CodingFormat.ofByte s.toByte = some s by cases s <;> rfl]
        exact ReadsExact.pure s d p rest hp h)
  exact hres.congr (by simp [CodingFormat.write])

/-! ## Return parameter structures (src/offload/hci/command.rs, mod defs) -/

structure ResetComplete where
  status : Status
deriving DecidableEq

def ResetComplete.read : Reader → Option ResetComplete × Reader :=
  rbind Status.read fun status => rpure { status }

def ResetComplete.write (w : List Nat) (x : ResetComplete) : List Nat :=
  Status.write w x.status

theorem ResetComplete_read_reads (x : ResetComplete) :
    ReadsExact ResetComplete.read x (ResetComplete.write [] x) := by
  have hchain : ReadsExact ResetComplete.read x (Status.write [] x.status ++ []) :=
    (Status_read_reads x.status).bind (ReadsExact.pure x)
  exact hchain.congr (by simp [ResetComplete.write])

structure LeReadBufferSizeV1Complete where
  status : Status
  le_acl_data_packet_length : Nat
  total_num_le_acl_data_packets : Nat
deriving DecidableEq

def LeReadBufferSizeV1Complete.wf (x : LeReadBufferSizeV1Complete) : Prop :=
  x.le_acl_data_packet_length < 2 ^ 16 ∧ x.total_num_le_acl_data_packets < 2 ^ 8

instance : ∀ x : LeReadBufferSizeV1Complete, Decidable x.wf :=
  fun _ => instDecidableAnd

def LeReadBufferSizeV1Complete.read : Reader → Option LeReadBufferSizeV1Complete × Reader :=
  rbind Status.read fun status =>
  rbind Reader.read_u16 fun le_acl_data_packet_length =>
  rbind Reader.read_u8 fun total_num_le_acl_data_packets =>
  rpure { status, le_acl_data_packet_length, total_num_le_acl_data_packets }

def LeReadBufferSizeV1Complete.write (w : List Nat) (x : LeReadBufferSizeV1Complete) : List Nat :=
  let w := Status.write w x.status
  let w := write_u16 w x.le_acl_data_packet_length
  let w := write_u8 w x.total_num_le_acl_data_packets
  w

theorem LeReadBufferSizeV1Complete_read_reads (x : LeReadBufferSizeV1Complete) (h : x.wf) :
    ReadsExact LeReadBufferSizeV1Complete.read x (LeReadBufferSizeV1Complete.write [] x) := by
  obtain ⟨h1, h2⟩ := h
  have hchain : ReadsExact LeReadBufferSizeV1Complete.read x
      (Status.write [] x.status ++ (write_u16 [] x.le_acl_data_packet_length ++
        (write_u8 [] x.total_num_le_acl_data_packets ++ []))) :=
    (Status_read_reads x.status).bind
      ((read_u16_reads _ h1).bind
        ((read_u8_reads _ h2).bind
          (ReadsExact.pure x)))
  exact hchain.congr (by
    simp [LeReadBufferSizeV1Complete.write, Status.write, write_u8, write_u16, write_u32, put,
      List.append_assoc])

structure LeReadBufferSizeV2Complete where
  status : Status
  le_acl_data_packet_length : Nat
  total_num_le_acl_data_packets : Nat
  iso_data_packet_length : Nat
  total_num_iso_data_packets : Nat
deriving DecidableEq

def LeReadBufferSizeV2Complete.wf (x : LeReadBufferSizeV2Complete) : Prop :=
  x.le_acl_data_packet_length < 2 ^ 16 ∧ x.total_num_le_acl_data_packets < 2 ^ 8 ∧
  x.iso_data_packet_length < 2 ^ 16 ∧ x.total_num_iso_data_packets < 2 ^ 8

instance : ∀ x : LeReadBufferSizeV2Complete, Decidable x.wf :=
  fun _ => instDecidableAnd

def LeReadBufferSizeV2Complete.read : Reader → Option LeReadBufferSizeV2Complete × Reader :=
  rbind Status.read fun status =>
  rbind Reader.read_u16 fun le_acl_data_packet_length =>
  rbind Reader.read_u8 fun total_num_le_acl_data_packets =>
  rbind Reader.read_u16 fun iso_data_packet_length =>
  rbind Reader.read_u8 fun total_num_iso_data_packets =>
  rpure { status, le_acl_data_packet_length, total_num_le_acl_data_packets,
          iso_data_packet_length, total_num_iso_data_packets }

def LeReadBufferSizeV2Complete.write (w : List Nat) (x : LeReadBufferSizeV2Complete) : List Nat :=
  let w := Status.write w x.status
  let w := write_u16 w x.le_acl_data_packet_length
  let w := write_u8 w x.total_num_le_acl_data_packets
  let w := write_u16 w x.iso_data_packet_length
  let w := write_u8 w x.total_num_iso_data_packets
  w

theorem LeReadBufferSizeV2Complete_read_reads (x : LeReadBufferSizeV2Complete) (h : x.wf) :
    ReadsExact LeReadBufferSizeV2Complete.read x (LeReadBufferSizeV2Complete.write [] x) := by
  obtain ⟨h1, h2, h3, h4⟩ := h
  have hchain : ReadsExact LeReadBufferSizeV2Complete.read x
      (Status.write [] x.status ++ (write_u16 [] x.le_acl_data_packet_length ++
        (write_u8 [] x.total_num_le_acl_data_packets ++
          (write_u16 [] x.iso_data_packet_length ++
            (write_u8 [] x.total_num_iso_data_packets ++ []))))) :=
    (Status_read_reads x.status).bind
      ((read_u16_reads _ h1).bind
        ((read_u8_reads _ h2).bind
          ((read_u16_reads _ h3).bind
            ((read_u8_reads _ h4).bind
              (ReadsExact.pure x)))))
  exact hchain.congr (by
    simp [LeReadBufferSizeV2Complete.write, Status.write, write_u8, write_u16, write_u32, put,
      List.append_assoc])

structure LeSetCigParametersComplete where
  status : Status
  cig_id : Nat
  connection_handles : List Nat
deriving DecidableEq

def LeSetCigParametersComplete.wf (x : LeSetCigParametersComplete) : Prop :=
  x.cig_id < 2 ^ 8 ∧ x.connection_handles.length ≤ 255 ∧
  ∀ a ∈ x.connection_handles, a < 2 ^ 16

instance : ∀ x : LeSetCigParametersComplete, Decidable x.wf :=
  fun x => by unfold LeSetCigParametersComplete.wf; infer_instance

def LeSetCigParametersComplete.read : Reader → Option LeSetCigParametersComplete × Reader :=
  rbind Status.read fun status =>
  rbind Reader.read_u8 fun cig_id =>
  rbind readVecU16 fun connection_handles =>
  rpure { status, cig_id, connection_handles }

def LeSetCigParametersComplete.write (w : List Nat) (x : LeSetCigParametersComplete) :
    Option (List Nat) :=
  let w := Status.write w x.status
  let w := write_u8 w x.cig_id
  writeVecU16 w x.connection_handles

theorem LeSetCigParametersComplete_read_reads (x : LeSetCigParametersComplete) (h : x.wf)
    (bs : List Nat) (hw : LeSetCigParametersComplete.write [] x = some bs) :
    ReadsExact LeSetCigParametersComplete.read x bs := by
  obtain ⟨h1, h2, h3⟩ := h
  have hchain : ReadsExact LeSetCigParametersComplete.read x
      (Status.write [] x.status ++ (write_u8 [] x.cig_id ++
        ((write_u8 [] x.connection_handles.length ++
          (x.connection_handles.map (fun a => write_u16 [] a)).flatten) ++ []))) :=
    (Status_read_reads x.status).bind
      ((read_u8_reads _ h1).bind
        ((readVecU16_reads _ h2 h3).bind
          (ReadsExact.pure x)))
  refine hchain.congr ?_
  have himg : bs = x.connection_handles.foldl write_u16
      (write_u8 (write_u8 (Status.write [] x.status) x.cig_id)
        x.connection_handles.length) := by
    simp [LeSetCigParametersComplete.write, writeVecU16, h2] at hw
    exact hw.symm
  rw [himg, foldl_write_append write_u16 (fun w a => write_u32_append 2 w a)]
  simp [Status.write, write_u8, write_u16, write_u32, put, List.append_assoc]

structure LeRemoveCigComplete where
  status : Status
  cig_id : Nat
deriving DecidableEq

def LeRemoveCigComplete.wf (x : LeRemoveCigComplete) : Prop := x.cig_id < 2 ^ 8

instance : ∀ x : LeRemoveCigComplete, Decidable x.wf :=
  fun _ => Nat.decLt _ _

def LeRemoveCigComplete.read : Reader → Option LeRemoveCigComplete × Reader :=
  rbind Status.read fun status =>
  rbind Reader.read_u8 fun cig_id =>
  rpure { status, cig_id }

def LeRemoveCigComplete.write (w : List Nat) (x : LeRemoveCigComplete) : List Nat :=
  let w := Status.write w x.status
  let w := write_u8 w x.cig_id
  w

theorem LeRemoveCigComplete_read_reads (x : LeRemoveCigComplete) (h : x.wf) :
    ReadsExact LeRemoveCigComplete.read x (LeRemoveCigComplete.write [] x) := by
  have hchain : ReadsExact LeRemoveCigComplete.read x
      (Status.write [] x.status ++ (write_u8 [] x.cig_id ++ [])) :=
    (Status_read_reads x.status).bind
      ((read_u8_reads _ h).bind (ReadsExact.pure x))
  exact hchain.congr (by
    simp [LeRemoveCigComplete.write, Status.write, write_u8, write_u16, write_u32, put,
      List.append_assoc])

structure LeIsoDataPathComplete where
  status : Status
  connection_handle : Nat
deriving DecidableEq

def LeIsoDataPathComplete.wf (x : LeIsoDataPathComplete) : Prop := x.connection_handle < 2 ^ 16

instance : ∀ x : LeIsoDataPathComplete, Decidable x.wf :=
  fun _ => Nat.decLt _ _

def LeIsoDataPathComplete.read : Reader → Option LeIsoDataPathComplete × Reader :=
  rbind Status.read fun status =>
  rbind Reader.read_u16 fun connection_handle =>
  rpure { status, connection_handle }

def LeIsoDataPathComplete.write (w : List Nat) (x : LeIsoDataPathComplete) : List Nat :=
  let w := Status.write w x.status
  let w := write_u16 w x.connection_handle
  w

theorem LeIsoDataPathComplete_read_reads (x : LeIsoDataPathComplete) (h : x.wf) :
    ReadsExact LeIsoDataPathComplete.read x (LeIsoDataPathComplete.write [] x) := by
  have hchain : ReadsExact LeIsoDataPathComplete.read x
      (Status.write [] x.status ++ (write_u16 [] x.connection_handle ++ [])) :=
    (Status_read_reads x.status).bind
      ((read_u16_reads _ h).bind (ReadsExact.pure x))
  exact hchain.congr (by
    simp [LeIsoDataPathComplete.write, Status.write, write_u8, write_u16, write_u32, put,
      List.append_assoc])

/-! ## Command parameter structures (src/offload/hci/command.rs, mod defs) -/

structure Reset where
deriving DecidableEq

def Reset.read : Reader → Option Reset × Reader := rpure {}

def Reset.write (w : List Nat) (_x : Reset) : List Nat := w

theorem Reset_read_reads (x : Reset) : ReadsExact Reset.read x (Reset.write [] x) :=
  ReadsExact.pure x

structure LeCisInCigParameters where
  cis_id : Nat
  max_sdu_c_to_p : Nat
  max_sdu_p_to_c : Nat
  phy_c_to_p : Nat
  phy_p_to_c : Nat
  rtn_c_to_p : Nat
  rtn_p_to_c : Nat
deriving DecidableEq

def LeCisInCigParameters.wf (x : LeCisInCigParameters) : Prop :=
  x.cis_id < 2 ^ 8 ∧ x.max_sdu_c_to_p < 2 ^ 16 ∧ x.max_sdu_p_to_c < 2 ^ 16 ∧
  x.phy_c_to_p < 2 ^ 8 ∧ x.phy_p_to_c < 2 ^ 8 ∧ x.rtn_c_to_p < 2 ^ 8 ∧ x.rtn_p_to_c < 2 ^ 8

instance : ∀ x : LeCisInCigParameters, Decidable x.wf :=
  fun x => by unfold LeCisInCigParameters.wf; infer_instance

def LeCisInCigParameters.read : Reader → Option LeCisInCigParameters × Reader :=
  rbind Reader.read_u8 fun cis_id =>
  rbind Reader.read_u16 fun max_sdu_c_to_p =>
  rbind Reader.read_u16 fun max_sdu_p_to_c =>
  rbind Reader.read_u8 fun phy_c_to_p =>
  rbind Reader.read_u8 fun phy_p_to_c =>
  rbind Reader.read_u8 fun rtn_c_to_p =>
  rbind Reader.read_u8 fun rtn_p_to_c =>
  rpure { cis_id, max_sdu_c_to_p, max_sdu_p_to_c, phy_c_to_p, phy_p_to_c,
          rtn_c_to_p, rtn_p_to_c }

def LeCisInCigParameters.write (w : List Nat) (x : LeCisInCigParameters) : List Nat :=
  let w := write_u8 w x.cis_id
  let w := write_u16 w x.max_sdu_c_to_p
  let w := write_u16 w x.max_sdu_p_to_c
  let w := write_u8 w x.phy_c_to_p
  let w := write_u8 w x.phy_p_to_c
  let w := write_u8 w x.rtn_c_to_p
  let w := write_u8 w x.rtn_p_to_c
  w

theorem LeCisInCigParameters_write_append (w : List Nat) (x : LeCisInCigParameters) :
    LeCisInCigParameters.write w x = w ++ LeCisInCigParameters.write [] x := by
  simp [LeCisInCigParameters.write, write_u8, write_u16, write_u32, List.append_assoc]

theorem LeCisInCigParameters_read_reads (x : LeCisInCigParameters) (h : x.wf) :
    ReadsExact LeCisInCigParameters.read x (LeCisInCigParameters.write [] x) := by
  obtain ⟨h1, h2, h3, h4, h5, h6, h7⟩ := h
  have hchain : ReadsExact LeCisInCigParameters.read x
      (write_u8 [] x.cis_id ++ (write_u16 [] x.max_sdu_c_to_p ++
        (write_u16 [] x.max_sdu_p_to_c ++ (write_u8 [] x.phy_c_to_p ++
          (write_u8 [] x.phy_p_to_c ++ (write_u8 [] x.rtn_c_to_p ++
            (write_u8 [] x.rtn_p_to_c ++ []))))))) :=
    (read_u8_reads _ h1).bind
      ((read_u16_reads _ h2).bind
        ((read_u16_reads _ h3).bind
          ((read_u8_reads _ h4).bind
            ((read_u8_reads _ h5).bind
              ((read_u8_reads _ h6).bind
                ((read_u8_reads _ h7).bind
                  (ReadsExact.pure x)))))))
  exact hchain.congr (by
    simp [LeCisInCigParameters.write, write_u8, write_u16, write_u32, put, List.append_assoc])

structure LeSetCigParameters where
  cig_id : Nat
  sdu_interval_c_to_p : Nat
  sdu_interval_p_to_c : Nat
  worst_case_sca : Nat
  packing : Nat
  framing : Nat
  max_transport_latency_c_to_p : Nat
  max_transport_latency_p_to_c : Nat
  cis : List LeCisInCigParameters
deriving DecidableEq

def LeSetCigParameters.wf (x : LeSetCigParameters) : Prop :=
  x.cig_id < 2 ^ 8 ∧ x.sdu_interval_c_to_p < 2 ^ 24 ∧ x.sdu_interval_p_to_c < 2 ^ 24 ∧
  x.worst_case_sca < 2 ^ 8 ∧ x.packing < 2 ^ 8 ∧ x.framing < 2 ^ 8 ∧
  x.max_transport_latency_c_to_p < 2 ^ 16 ∧ x.max_transport_latency_p_to_c < 2 ^ 16 ∧
  x.cis.length ≤ 255 ∧ ∀ a ∈ x.cis, a.wf

instance : ∀ x : LeSetCigParameters, Decidable x.wf :=
  fun x => by unfold LeSetCigParameters.wf; infer_instance

def LeSetCigParameters.read : Reader → Option LeSetCigParameters × Reader :=
  rbind Reader.read_u8 fun cig_id =>
  rbind (Reader.read_u32 3) fun sdu_interval_c_to_p =>
  rbind (Reader.read_u32 3) fun sdu_interval_p_to_c =>
  rbind Reader.read_u8 fun worst_case_sca =>
  rbind Reader.read_u8 fun packing =>
  rbind Reader.read_u8 fun framing =>
  rbind Reader.read_u16 fun max_transport_latency_c_to_p =>
  rbind Reader.read_u16 fun max_transport_latency_p_to_c =>
  rbind (readVec LeCisInCigParameters.read) fun cis =>
  rpure { cig_id, sdu_interval_c_to_p, sdu_interval_p_to_c, worst_case_sca, packing,
          framing, max_transport_latency_c_to_p, max_transport_latency_p_to_c, cis }

def LeSetCigParameters.write (w : List Nat) (x : LeSetCigParameters) : Option (List Nat) :=
  let w := write_u8 w x.cig_id
  let w := write_u32 3 w x.sdu_interval_c_to_p
  let w := write_u32 3 w x.sdu_interval_p_to_c
  let w := write_u8 w x.worst_case_sca
  let w := write_u8 w x.packing
  let w := write_u8 w x.framing
  let w := write_u16 w x.max_transport_latency_c_to_p
  let w := write_u16 w x.max_transport_latency_p_to_c
  writeVec LeCisInCigParameters.write w x.cis

theorem LeSetCigParameters_read_reads (x : LeSetCigParameters) (h : x.wf)
    (bs : List Nat) (hw : LeSetCigParameters.write [] x = some bs) :
    ReadsExact LeSetCigParameters.read x bs := by
  obtain ⟨h1, h2, h3, h4, h5, h6, h7, h8, h9, h10⟩ := h
  have hchain : ReadsExact LeSetCigParameters.read x
      (write_u8 [] x.cig_id ++ (write_u32 3 [] x.sdu_interval_c_to_p ++
        (write_u32 3 [] x.sdu_interval_p_to_c ++ (write_u8 [] x.worst_case_sca ++
          (write_u8 [] x.packing ++ (write_u8 [] x.framing ++
            (write_u16 [] x.max_transport_latency_c_to_p ++
              (write_u16 [] x.max_transport_latency_p_to_c ++
                ((write_u8 [] x.cis.length ++
                  (x.cis.map (fun a => LeCisInCigParameters.write [] a)).flatten) ++
                    []))))))))) :=
    (read_u8_reads _ h1).bind
      ((read_u32_reads 3 _ (by simpa using h2)).bind
        ((read_u32_reads 3 _ (by simpa using h3)).bind
          ((read_u8_reads _ h4).bind
            ((read_u8_reads _ h5).bind
              ((read_u8_reads _ h6).bind
                ((read_u16_reads _ h7).bind
                  ((read_u16_reads _ h8).bind
                    ((readVec_reads LeCisInCigParameters.read
                        (fun a => LeCisInCigParameters.write [] a) x.cis h9
                        (fun a ha => LeCisInCigParameters_read_reads a (h10 a ha))).bind
                      (ReadsExact.pure x)))))))))
  refine hchain.congr ?_
  have himg : bs = x.cis.foldl LeCisInCigParameters.write
      (write_u8 (write_u16 (write_u16 (write_u8 (write_u8 (write_u8 (write_u32 3
        (write_u32 3 (write_u8 [] x.cig_id) x.sdu_interval_c_to_p) x.sdu_interval_p_to_c)
          x.worst_case_sca) x.packing) x.framing) x.max_transport_latency_c_to_p)
            x.max_transport_latency_p_to_c) x.cis.length) := by
    simp [LeSetCigParameters.write, writeVec, h9] at hw
    exact hw.symm
  rw [himg, foldl_write_append LeCisInCigParameters.write LeCisInCigParameters_write_append]
  simp [write_u8, write_u16, write_u32, put, List.append_assoc]

structure CisAclConnectionHandle where
  cis : Nat
  acl : Nat
deriving DecidableEq

def CisAclConnectionHandle.wf (x : CisAclConnectionHandle) : Prop :=
  x.cis < 2 ^ 16 ∧ x.acl < 2 ^ 16

instance : ∀ x : CisAclConnectionHandle, Decidable x.wf :=
  fun _ => instDecidableAnd

def CisAclConnectionHandle.read : Reader → Option CisAclConnectionHandle × Reader :=
  rbind Reader.read_u16 fun cis =>
  rbind Reader.read_u16 fun acl =>
  rpure { cis, acl }

def CisAclConnectionHandle.write (w : List Nat) (x : CisAclConnectionHandle) : List Nat :=
  let w := write_u16 w x.cis
  let w := write_u16 w x.acl
  w

theorem CisAclConnectionHandle_write_append (w : List Nat) (x : CisAclConnectionHandle) :
    CisAclConnectionHandle.write w x = w ++ CisAclConnectionHandle.write [] x := by
  simp [CisAclConnectionHandle.write, write_u16, write_u32, List.append_assoc]

theorem CisAclConnectionHandle_read_reads (x : CisAclConnectionHandle) (h : x.wf) :
    ReadsExact CisAclConnectionHandle.read x (CisAclConnectionHandle.write [] x) := by
  obtain ⟨h1, h2⟩ := h
  have hchain : ReadsExact CisAclConnectionHandle.read x
      (write_u16 [] x.cis ++ (write_u16 [] x.acl ++ [])) :=
    (read_u16_reads _ h1).bind ((read_u16_reads _ h2).bind (ReadsExact.pure x))
  exact hchain.congr (by
    simp [CisAclConnectionHandle.write, write_u16, write_u32, put, List.append_assoc])

structure LeCreateCis where
  connection_handles : List CisAclConnectionHandle
deriving DecidableEq

def LeCreateCis.wf (x : LeCreateCis) : Prop :=
  x.connection_handles.length ≤ 255 ∧ ∀ a ∈ x.connection_handles, a.wf

instance : ∀ x : LeCreateCis, Decidable x.wf :=
  fun x => by unfold LeCreateCis.wf; infer_instance

def LeCreateCis.read : Reader → Option LeCreateCis × Reader :=
  rbind (readVec CisAclConnectionHandle.read) fun connection_handles =>
  rpure { connection_handles }

def LeCreateCis.write (w : List Nat) (x : LeCreateCis) : Option (List Nat) :=
  writeVec CisAclConnectionHandle.write w x.connection_handles

theorem LeCreateCis_read_reads (x : LeCreateCis) (h : x.wf)
    (bs : List Nat) (hw : LeCreateCis.write [] x = some bs) :
    ReadsExact LeCreateCis.read x bs := by
  obtain ⟨h1, h2⟩ := h
  have hchain : ReadsExact LeCreateCis.read x
      ((write_u8 [] x.connection_handles.length ++
        (x.connection_handles.map (fun a => CisAclConnectionHandle.write [] a)).flatten) ++ []) :=
    (readVec_reads CisAclConnectionHandle.read (fun a => CisAclConnectionHandle.write [] a)
      x.connection_handles h1 (fun a ha => CisAclConnectionHandle_read_reads a (h2 a ha))).bind
      (ReadsExact.pure x)
  refine hchain.congr ?_
  have himg : bs = x.connection_handles.foldl CisAclConnectionHandle.write
      (write_u8 [] x.connection_handles.length) := by
    simp [LeCreateCis.write, writeVec, h1] at hw
    exact hw.symm
  rw [himg, foldl_write_append CisAclConnectionHandle.write CisAclConnectionHandle_write_append]
  simp [write_u8, write_u16, write_u32, put, List.append_assoc]

structure LeRemoveCig where
  cig_id : Nat
deriving DecidableEq

def LeRemoveCig.wf (x : LeRemoveCig) : Prop := x.cig_id < 2 ^ 8

instance : ∀ x : LeRemoveCig, Decidable x.wf :=
  fun _ => Nat.decLt _ _

def LeRemoveCig.read : Reader → Option LeRemoveCig × Reader :=
  rbind Reader.read_u8 fun cig_id => rpure { cig_id }

def LeRemoveCig.write (w : List Nat) (x : LeRemoveCig) : List Nat :=
  write_u8 w x.cig_id

theorem LeRemoveCig_read_reads (x : LeRemoveCig) (h : x.wf) :
    ReadsExact LeRemoveCig.read x (LeRemoveCig.write [] x) := by
  have hchain : ReadsExact LeRemoveCig.read x (write_u8 [] x.cig_id ++ []) :=
    (read_u8_reads _ h).bind (ReadsExact.pure x)
  exact hchain.congr (by simp [LeRemoveCig.write])

structure LeCreateBig where
  big_handle : Nat
  advertising_handle : Nat
  num_bis : Nat
  sdu_interval : Nat
  max_sdu : Nat
  max_transport_latency : Nat
  rtn : Nat
  phy : Nat
  packing : Nat
  framing : Nat
  encryption : Nat
  broadcast_code : List Nat
deriving DecidableEq

def LeCreateBig.wf (x : LeCreateBig) : Prop :=
  x.big_handle < 2 ^ 8 ∧ x.advertising_handle < 2 ^ 8 ∧ x.num_bis < 2 ^ 8 ∧
  x.sdu_interval < 2 ^ 24 ∧ x.max_sdu < 2 ^ 16 ∧ x.max_transport_latency < 2 ^ 16 ∧
  x.rtn < 2 ^ 8 ∧ x.phy < 2 ^ 8 ∧ x.packing < 2 ^ 8 ∧ x.framing < 2 ^ 8 ∧
  x.encryption < 2 ^ 8 ∧ x.broadcast_code.length = 16 ∧ ∀ b ∈ x.broadcast_code, b < 2 ^ 8

instance : ∀ x : LeCreateBig, Decidable x.wf :=
  fun x => by unfold LeCreateBig.wf; infer_instance

def LeCreateBig.read : Reader → Option LeCreateBig × Reader :=
  rbind Reader.read_u8 fun big_handle =>
  rbind Reader.read_u8 fun advertising_handle =>
  rbind Reader.read_u8 fun num_bis =>
  rbind (Reader.read_u32 3) fun sdu_interval =>
  rbind Reader.read_u16 fun max_sdu =>
  rbind Reader.read_u16 fun max_transport_latency =>
  rbind Reader.read_u8 fun rtn =>
  rbind Reader.read_u8 fun phy =>
  rbind Reader.read_u8 fun packing =>
  rbind Reader.read_u8 fun framing =>
  rbind Reader.read_u8 fun encryption =>
  rbind (Reader.read_bytes 16) fun broadcast_code =>
  rpure { big_handle, advertising_handle, num_bis, sdu_interval, max_sdu,
          max_transport_latency, rtn, phy, packing, framing, encryption, broadcast_code }

def LeCreateBig.write (w : List Nat) (x : LeCreateBig) : List Nat :=
  let w := write_u8 w x.big_handle
  let w := write_u8 w x.advertising_handle
  let w := write_u8 w x.num_bis
  let w := write_u32 3 w x.sdu_interval
  let w := write_u16 w x.max_sdu
  let w := write_u16 w x.max_transport_latency
  let w := write_u8 w x.rtn
  let w := write_u8 w x.phy
  let w := write_u8 w x.packing
  let w := write_u8 w x.framing
  let w := write_u8 w x.encryption
  let w := write_bytes w x.broadcast_code
  w

theorem LeCreateBig_read_reads (x : LeCreateBig) (h : x.wf) :
    ReadsExact LeCreateBig.read x (LeCreateBig.write [] x) := by
  obtain ⟨h1, h2, h3, h4, h5, h6, h7, h8, h9, h10, h11, h12, _⟩ := h
  have hchain : ReadsExact LeCreateBig.read x
      (write_u8 [] x.big_handle ++ (write_u8 [] x.advertising_handle ++
        (write_u8 [] x.num_bis ++ (write_u32 3 [] x.sdu_interval ++
          (write_u16 [] x.max_sdu ++ (write_u16 [] x.max_transport_latency ++
            (write_u8 [] x.rtn ++ (write_u8 [] x.phy ++ (write_u8 [] x.packing ++
              (write_u8 [] x.framing ++ (write_u8 [] x.encryption ++
                (write_bytes [] x.broadcast_code ++ [])))))))))))) :=
    (read_u8_reads _ h1).bind
      ((read_u8_reads _ h2).bind
        ((read_u8_reads _ h3).bind
          ((read_u32_reads 3 _ (by simpa using h4)).bind
            ((read_u16_reads _ h5).bind
              ((read_u16_reads _ h6).bind
                ((read_u8_reads _ h7).bind
                  ((read_u8_reads _ h8).bind
                    ((read_u8_reads _ h9).bind
                      ((read_u8_reads _ h10).bind
                        ((read_u8_reads _ h11).bind
                          ((read_bytes_reads x.broadcast_code 16 h12).bind
                            (ReadsExact.pure x))))))))))))
  exact hchain.congr (by
    simp [LeCreateBig.write, write_u8, write_u16, write_u32, write_bytes, put,
      List.append_assoc])

structure LeCodecId where
  coding_format : CodingFormat
  company_id : Nat
  vendor_id : Nat
deriving DecidableEq

def LeCodecId.wf (x : LeCodecId) : Prop :=
  x.company_id < 2 ^ 16 ∧ x.vendor_id < 2 ^ 16

instance : ∀ x : LeCodecId, Decidable x.wf :=
  fun _ => instDecidableAnd

def LeCodecId.read : Reader → Option LeCodecId × Reader :=
  rbind CodingFormat.read fun coding_format =>
  rbind Reader.read_u16 fun company_id =>
  rbind Reader.read_u16 fun vendor_id =>
  rpure { coding_format, company_id, vendor_id }

def LeCodecId.write (w : List Nat) (x : LeCodecId) : List Nat :=
  let w := CodingFormat.write w x.coding_format
  let w := write_u16 w x.company_id
  let w := write_u16 w x.vendor_id
  w

theorem LeCodecId_read_reads (x : LeCodecId) (h : x.wf) :
    ReadsExact LeCodecId.read x (LeCodecId.write [] x) := by
  obtain ⟨h1, h2⟩ := h
  have hchain : ReadsExact LeCodecId.read x
      (CodingFormat.write [] x.coding_format ++ (write_u16 [] x.company_id ++
        (write_u16 [] x.vendor_id ++ []))) :=
    (CodingFormat_read_reads x.coding_format).bind
      ((read_u16_reads _ h1).bind
        ((read_u16_reads _ h2).bind
          (ReadsExact.pure x)))
  exact hchain.congr (by
    simp [LeCodecId.write, CodingFormat.write, write_u8, write_u16, write_u32, put,
      List.append_assoc])

structure LeSetupIsoDataPath where
  connection_handle : Nat
  data_path_direction : LeDataPathDirection
  data_path_id : Nat
  codec_id : LeCodecId
  controller_delay : Nat
  codec_configuration : List Nat
deriving DecidableEq

def LeSetupIsoDataPath.wf (x : LeSetupIsoDataPath) : Prop :=
  x.connection_handle < 2 ^ 16 ∧ x.data_path_id < 2 ^ 8 ∧ x.codec_id.wf ∧
  x.controller_delay < 2 ^ 24 ∧ x.codec_configuration.length ≤ 255 ∧
  ∀ b ∈ x.codec_configuration, b < 2 ^ 8

instance : ∀ x : LeSetupIsoDataPath, Decidable x.wf :=
  fun x => by unfold LeSetupIsoDataPath.wf LeCodecId.wf; infer_instance

def LeSetupIsoDataPath.read : Reader → Option LeSetupIsoDataPath × Reader :=
  rbind Reader.read_u16 fun connection_handle =>
  rbind LeDataPathDirection.read fun data_path_direction =>
  rbind Reader.read_u8 fun data_path_id =>
  rbind LeCodecId.read fun codec_id =>
  rbind (Reader.read_u32 3) fun controller_delay =>
  rbind readVecU8 fun codec_configuration =>
  rpure { connection_handle, data_path_direction, data_path_id, codec_id,
          controller_delay, codec_configuration }

def LeSetupIsoDataPath.write (w : List Nat) (x : LeSetupIsoDataPath) : Option (List Nat) :=
  let w := write_u16 w x.connection_handle
  let w := LeDataPathDirection.write w x.data_path_direction
  let w := write_u8 w x.data_path_id
  let w := LeCodecId.write w x.codec_id
  let w := write_u32 3 w x.controller_delay
  writeVecU8 w x.codec_configuration

theorem LeSetupIsoDataPath_read_reads (x : LeSetupIsoDataPath) (h : x.wf)
    (bs : List Nat) (hw : LeSetupIsoDataPath.write [] x = some bs) :
    ReadsExact LeSetupIsoDataPath.read x bs := by
  obtain ⟨h1, h2, h3, h4, h5, _⟩ := h
  have hchain : ReadsExact LeSetupIsoDataPath.read x
      (write_u16 [] x.connection_handle ++
        (LeDataPathDirection.write [] x.data_path_direction ++
          (write_u8 [] x.data_path_id ++ (LeCodecId.write [] x.codec_id ++
            (write_u32 3 [] x.controller_delay ++
              ((write_u8 [] x.codec_configuration.length ++ x.codec_configuration) ++
                [])))))) :=
    (read_u16_reads _ h1).bind
      ((LeDataPathDirection_read_reads x.data_path_direction).bind
        ((read_u8_reads _ h2).bind
          ((LeCodecId_read_reads x.codec_id h3).bind
            ((read_u32_reads 3 _ (by simpa using h4)).bind
              ((readVecU8_reads x.codec_configuration h5).bind
                (ReadsExact.pure x))))))
  refine hchain.congr ?_
  have himg : bs = put (write_u8 (write_u32 3 (LeCodecId.write (write_u8
      (LeDataPathDirection.write (write_u16 [] x.connection_handle) x.data_path_direction)
        x.data_path_id) x.codec_id) x.controller_delay)
          x.codec_configuration.length) x.codec_configuration := by
    simp [LeSetupIsoDataPath.write, writeVecU8, h5] at hw
    exact hw.symm
  rw [himg]
  simp [LeCodecId.write, CodingFormat.write, LeDataPathDirection.write, write_u8, write_u16,
    write_u32, put, List.append_assoc]

structure LeRemoveIsoDataPath where
  connection_handle : Nat
  data_path_direction : Nat
deriving DecidableEq

def LeRemoveIsoDataPath.wf (x : LeRemoveIsoDataPath) : Prop :=
  x.connection_handle < 2 ^ 16 ∧ x.data_path_direction < 2 ^ 8

instance : ∀ x : LeRemoveIsoDataPath, Decidable x.wf :=
  fun _ => instDecidableAnd

def LeRemoveIsoDataPath.read : Reader → Option LeRemoveIsoDataPath × Reader :=
  rbind Reader.read_u16 fun connection_handle =>
  rbind Reader.read_u8 fun data_path_direction =>
  rpure { connection_handle, data_path_direction }

def LeRemoveIsoDataPath.write (w : List Nat) (x : LeRemoveIsoDataPath) : List Nat :=
  let w := write_u16 w x.connection_handle
  let w := write_u8 w x.data_path_direction
  w

theorem LeRemoveIsoDataPath_read_reads (x : LeRemoveIsoDataPath) (h : x.wf) :
    ReadsExact LeRemoveIsoDataPath.read x (LeRemoveIsoDataPath.write [] x) := by
  obtain ⟨h1, h2⟩ := h
  have hchain : ReadsExact LeRemoveIsoDataPath.read x
      (write_u16 [] x.connection_handle ++ (write_u8 [] x.data_path_direction ++ [])) :=
    (read_u16_reads _ h1).bind ((read_u8_reads _ h2).bind (ReadsExact.pure x))
  exact hchain.congr (by
    simp [LeRemoveIsoDataPath.write, write_u8, write_u16, write_u32, put, List.append_assoc])

/-! ## Event parameter structures (src/offload/hci/event.rs, mod defs) -/

structure DisconnectionComplete where
  status : Status
  connection_handle : Nat
  reason : Nat
deriving DecidableEq

def DisconnectionComplete.wf (x : DisconnectionComplete) : Prop :=
  x.connection_handle < 2 ^ 16 ∧ x.reason < 2 ^ 8

instance : ∀ x : DisconnectionComplete, Decidable x.wf :=
  fun _ => instDecidableAnd

def DisconnectionComplete.read : Reader → Option DisconnectionComplete × Reader :=
  rbind Status.read fun status =>
  rbind Reader.read_u16 fun connection_handle =>
  rbind Reader.read_u8 fun reason =>
  rpure { status, connection_handle, reason }

def DisconnectionComplete.write (w : List Nat) (x : DisconnectionComplete) : List Nat :=
  let w := Status.write w x.status
  let w := write_u16 w x.connection_handle
  let w := write_u8 w x.reason
  w

theorem DisconnectionComplete_read_reads (x : DisconnectionComplete) (h : x.wf) :
    ReadsExact DisconnectionComplete.read x (DisconnectionComplete.write [] x) := by
  obtain ⟨h1, h2⟩ := h
  have hchain : ReadsExact DisconnectionComplete.read x
      (Status.write [] x.status ++ (write_u16 [] x.connection_handle ++
        (write_u8 [] x.reason ++ []))) :=
    (Status_read_reads x.status).bind
      ((read_u16_reads _ h1).bind
        ((read_u8_reads _ h2).bind (ReadsExact.pure x)))
  exact hchain.congr (by
    simp [DisconnectionComplete.write, Status.write, write_u8, write_u16, write_u32, put,
      List.append_assoc])

structure CommandStatus where
  status : Status
  num_hci_command_packets : Nat
  opcode : OpCode
deriving DecidableEq

def CommandStatus.wf (x : CommandStatus) : Prop :=
  x.num_hci_command_packets < 2 ^ 8 ∧ x.opcode.val < 2 ^ 16

instance : ∀ x : CommandStatus, Decidable x.wf :=
  fun _ => instDecidableAnd

def CommandStatus.read : Reader → Option CommandStatus × Reader :=
  rbind Status.read fun status =>
  rbind Reader.read_u8 fun num_hci_command_packets =>
  rbind OpCode.read fun opcode =>
  rpure { status, num_hci_command_packets, opcode }

def CommandStatus.write (w : List Nat) (x : CommandStatus) : List Nat :=
  let w := Status.write w x.status
  let w := write_u8 w x.num_hci_command_packets
  let w := OpCode.write w x.opcode
  w

theorem CommandStatus_read_reads (x : CommandStatus) (h : x.wf) :
    ReadsExact CommandStatus.read x (CommandStatus.write [] x) := by
  obtain ⟨h1, h2⟩ := h
  have hchain : ReadsExact CommandStatus.read x
      (Status.write [] x.status ++ (write_u8 [] x.num_hci_command_packets ++
        (OpCode.write [] x.opcode ++ []))) :=
    (Status_read_reads x.status).bind
      ((read_u8_reads _ h1).bind
        ((OpCode_read_reads _ h2).bind (ReadsExact.pure x)))
  exact hchain.congr (by
    simp [CommandStatus.write, Status.write, OpCode.write, write_u8, write_u16, write_u32, put,
      List.append_assoc])

structure NumberOfCompletedPacketsHandle where
  connection_handle : Nat
  num_completed_packets : Nat
deriving DecidableEq

def NumberOfCompletedPacketsHandle.wf (x : NumberOfCompletedPacketsHandle) : Prop :=
  x.connection_handle < 2 ^ 16 ∧ x.num_completed_packets < 2 ^ 16

instance : ∀ x : NumberOfCompletedPacketsHandle, Decidable x.wf :=
  fun _ => instDecidableAnd

def NumberOfCompletedPacketsHandle.read :
    Reader → Option NumberOfCompletedPacketsHandle × Reader :=
  rbind Reader.read_u16 fun connection_handle =>
  rbind Reader.read_u16 fun num_completed_packets =>
  rpure { connection_handle, num_completed_packets }

def NumberOfCompletedPacketsHandle.write (w : List Nat)
    (x : NumberOfCompletedPacketsHandle) : List Nat :=
  let w := write_u16 w x.connection_handle
  let w := write_u16 w x.num_completed_packets
  w

theorem NumberOfCompletedPacketsHandle_write_append (w : List Nat)
    (x : NumberOfCompletedPacketsHandle) :
    NumberOfCompletedPacketsHandle.write w x
      = w ++ NumberOfCompletedPacketsHandle.write [] x := by
  simp [NumberOfCompletedPacketsHandle.write, write_u16, write_u32, List.append_assoc]

theorem NumberOfCompletedPacketsHandle_read_reads (x : NumberOfCompletedPacketsHandle)
    (h : x.wf) :
    ReadsExact NumberOfCompletedPacketsHandle.read x
      (NumberOfCompletedPacketsHandle.write [] x) := by
  obtain ⟨h1, h2⟩ := h
  have hchain : ReadsExact NumberOfCompletedPacketsHandle.read x
      (write_u16 [] x.connection_handle ++ (write_u16 [] x.num_completed_packets ++ [])) :=
    (read_u16_reads _ h1).bind ((read_u16_reads _ h2).bind (ReadsExact.pure x))
  exact hchain.congr (by
    simp [NumberOfCompletedPacketsHandle.write, write_u16, write_u32, put, List.append_assoc])

structure NumberOfCompletedPackets where
  handles : List NumberOfCompletedPacketsHandle
deriving DecidableEq

def NumberOfCompletedPackets.wf (x : NumberOfCompletedPackets) : Prop :=
  x.handles.length ≤ 255 ∧ ∀ a ∈ x.handles, a.wf

instance : ∀ x : NumberOfCompletedPackets, Decidable x.wf :=
  fun x => by unfold NumberOfCompletedPackets.wf; infer_instance

def NumberOfCompletedPackets.read : Reader → Option NumberOfCompletedPackets × Reader :=
  rbind (readVec NumberOfCompletedPacketsHandle.read) fun handles =>
  rpure { handles }

def NumberOfCompletedPackets.write (w : List Nat) (x : NumberOfCompletedPackets) :
    Option (List Nat) :=
  writeVec NumberOfCompletedPacketsHandle.write w x.handles

theorem NumberOfCompletedPackets_read_reads (x : NumberOfCompletedPackets) (h : x.wf)
    (bs : List Nat) (hw : NumberOfCompletedPackets.write [] x = some bs) :
    ReadsExact NumberOfCompletedPackets.read x bs := by
  obtain ⟨h1, h2⟩ := h
  have hchain : ReadsExact NumberOfCompletedPackets.read x
      ((write_u8 [] x.handles.length ++
        (x.handles.map (fun a => NumberOfCompletedPacketsHandle.write [] a)).flatten) ++ []) :=
    (readVec_reads NumberOfCompletedPacketsHandle.read
      (fun a => NumberOfCompletedPacketsHandle.write [] a) x.handles h1
      (fun a ha => NumberOfCompletedPacketsHandle_read_reads a (h2 a ha))).bind
      (ReadsExact.pure x)
  refine hchain.congr ?_
  have himg : bs = x.handles.foldl NumberOfCompletedPacketsHandle.write
      (write_u8 [] x.handles.length) := by
    simp [NumberOfCompletedPackets.write, writeVec, h1] at hw
    exact hw.symm
  rw [himg, foldl_write_append NumberOfCompletedPacketsHandle.write
    NumberOfCompletedPacketsHandle_write_append]
  simp [write_u8, write_u16, write_u32, put, List.append_assoc]

structure LeCisEstablished where
  status : Status
  connection_handle : Nat
  cig_sync_delay : Nat
  cis_sync_delay : Nat
  transport_latency_c_to_p : Nat
  transport_latency_p_to_c : Nat
  phy_c_to_p : Nat
  phy_p_to_c : Nat
  nse : Nat
  bn_c_to_p : Nat
  bn_p_to_c : Nat
  ft_c_to_p : Nat
  ft_p_to_c : Nat
  max_pdu_c_to_p : Nat
  max_pdu_p_to_c : Nat
  iso_interval : Nat
deriving DecidableEq

def LeCisEstablished.wf (x : LeCisEstablished) : Prop :=
  x.connection_handle < 2 ^ 16 ∧ x.cig_sync_delay < 2 ^ 24 ∧ x.cis_sync_delay < 2 ^ 24 ∧
  x.transport_latency_c_to_p < 2 ^ 24 ∧ x.transport_latency_p_to_c < 2 ^ 24 ∧
  x.phy_c_to_p < 2 ^ 8 ∧ x.phy_p_to_c < 2 ^ 8 ∧ x.nse < 2 ^ 8 ∧ x.bn_c_to_p < 2 ^ 8 ∧
  x.bn_p_to_c < 2 ^ 8 ∧ x.ft_c_to_p < 2 ^ 8 ∧ x.ft_p_to_c < 2 ^ 8 ∧
  x.max_pdu_c_to_p < 2 ^ 16 ∧ x.max_pdu_p_to_c < 2 ^ 16 ∧ x.iso_interval < 2 ^ 16

instance : ∀ x : LeCisEstablished, Decidable x.wf :=
  fun x => by unfold LeCisEstablished.wf; infer_instance

def LeCisEstablished.read : Reader → Option LeCisEstablished × Reader :=
  rbind Status.read fun status =>
  rbind Reader.read_u16 fun connection_handle =>
  rbind (Reader.read_u32 3) fun cig_sync_delay =>
  rbind (Reader.read_u32 3) fun cis_sync_delay =>
  rbind (Reader.read_u32 3) fun transport_latency_c_to_p =>
  rbind (Reader.read_u32 3) fun transport_latency_p_to_c =>
  rbind Reader.read_u8 fun phy_c_to_p =>
  rbind Reader.read_u8 fun phy_p_to_c =>
  rbind Reader.read_u8 fun nse =>
  rbind Reader.read_u8 fun bn_c_to_p =>
  rbind Reader.read_u8 fun bn_p_to_c =>
  rbind Reader.read_u8 fun ft_c_to_p =>
  rbind Reader.read_u8 fun ft_p_to_c =>
  rbind Reader.read_u16 fun max_pdu_c_to_p =>
  rbind Reader.read_u16 fun max_pdu_p_to_c =>
  rbind Reader.read_u16 fun iso_interval =>
  rpure { status, connection_handle, cig_sync_delay, cis_sync_delay,
          transport_latency_c_to_p, transport_latency_p_to_c, phy_c_to_p, phy_p_to_c,
          nse, bn_c_to_p, bn_p_to_c, ft_c_to_p, ft_p_to_c, max_pdu_c_to_p,
          max_pdu_p_to_c, iso_interval }

def LeCisEstablished.write (w : List Nat) (x : LeCisEstablished) : List Nat :=
  let w := Status.write w x.status
  let w := write_u16 w x.connection_handle
  let w := write_u32 3 w x.cig_sync_delay
  let w := write_u32 3 w x.cis_sync_delay
  let w := write_u32 3 w x.transport_latency_c_to_p
  let w := write_u32 3 w x.transport_latency_p_to_c
  let w := write_u8 w x.phy_c_to_p
  let w := write_u8 w x.phy_p_to_c
  let w := write_u8 w x.nse
  let w := write_u8 w x.bn_c_to_p
  let w := write_u8 w x.bn_p_to_c
  let w := write_u8 w x.ft_c_to_p
  let w := write_u8 w x.ft_p_to_c
  let w := write_u16 w x.max_pdu_c_to_p
  let w := write_u16 w x.max_pdu_p_to_c
  let w := write_u16 w x.iso_interval
  w

theorem LeCisEstablished_read_reads (x : LeCisEstablished) (h : x.wf) :
    ReadsExact LeCisEstablished.read x (LeCisEstablished.write [] x) := by
  obtain ⟨h1, h2, h3, h4, h5, h6, h7, h8, h9, h10, h11, h12, h13, h14, h15⟩ := h
  have hchain : ReadsExact LeCisEstablished.read x
      (Status.write [] x.status ++ (write_u16 [] x.connection_handle ++
        (write_u32 3 [] x.cig_sync_delay ++ (write_u32 3 [] x.cis_sync_delay ++
          (write_u32 3 [] x.transport_latency_c_to_p ++
            (write_u32 3 [] x.transport_latency_p_to_c ++
              (write_u8 [] x.phy_c_to_p ++ (write_u8 [] x.phy_p_to_c ++
                (write_u8 [] x.nse ++ (write_u8 [] x.bn_c_to_p ++
                  (write_u8 [] x.bn_p_to_c ++ (write_u8 [] x.ft_c_to_p ++
                    (write_u8 [] x.ft_p_to_c ++ (write_u16 [] x.max_pdu_c_to_p ++
                      (write_u16 [] x.max_pdu_p_to_c ++ (write_u16 [] x.iso_interval ++
                        [])))))))))))))))) :=
    (Status_read_reads x.status).bind
      ((read_u16_reads _ h1).bind
        ((read_u32_reads 3 _ (by simpa using h2)).bind
          ((read_u32_reads 3 _ (by simpa using h3)).bind
            ((read_u32_reads 3 _ (by simpa using h4)).bind
              ((read_u32_reads 3 _ (by simpa using h5)).bind
                ((read_u8_reads _ h6).bind
                  ((read_u8_reads _ h7).bind
                    ((read_u8_reads _ h8).bind
                      ((read_u8_reads _ h9).bind
                        ((read_u8_reads _ h10).bind
                          ((read_u8_reads _ h11).bind
                            ((read_u8_reads _ h12).bind
                              ((read_u16_reads _ h13).bind
                                ((read_u16_reads _ h14).bind
                                  ((read_u16_reads _ h15).bind
                                    (ReadsExact.pure x))))))))))))))))
  exact hchain.congr (by
    simp [LeCisEstablished.write, Status.write, write_u8, write_u16, write_u32, put,
      List.append_assoc])

structure LeCreateBigComplete where
  status : Status
  big_handle : Nat
  big_sync_delay : Nat
  big_transport_latency : Nat
  phy : Nat
  nse : Nat
  bn : Nat
  pto : Nat
  irc : Nat
  max_pdu : Nat
  iso_interval : Nat
  bis_handles : List Nat
deriving DecidableEq

def LeCreateBigComplete.wf (x : LeCreateBigComplete) : Prop :=
  x.big_handle < 2 ^ 8 ∧ x.big_sync_delay < 2 ^ 24 ∧ x.big_transport_latency < 2 ^ 24 ∧
  x.phy < 2 ^ 8 ∧ x.nse < 2 ^ 8 ∧ x.bn < 2 ^ 8 ∧ x.pto < 2 ^ 8 ∧ x.irc < 2 ^ 8 ∧
  x.max_pdu < 2 ^ 16 ∧ x.iso_interval < 2 ^ 16 ∧ x.bis_handles.length ≤ 255 ∧
  ∀ a ∈ x.bis_handles, a < 2 ^ 16

instance : ∀ x : LeCreateBigComplete, Decidable x.wf :=
  fun x => by unfold LeCreateBigComplete.wf; infer_instance

def LeCreateBigComplete.read : Reader → Option LeCreateBigComplete × Reader :=
  rbind Status.read fun status =>
  rbind Reader.read_u8 fun big_handle =>
  rbind (Reader.read_u32 3) fun big_sync_delay =>
  rbind (Reader.read_u32 3) fun big_transport_latency =>
  rbind Reader.read_u8 fun phy =>
  rbind Reader.read_u8 fun nse =>
  rbind Reader.read_u8 fun bn =>
  rbind Reader.read_u8 fun pto =>
  rbind Reader.read_u8 fun irc =>
  rbind Reader.read_u16 fun max_pdu =>
  rbind Reader.read_u16 fun iso_interval =>
  rbind readVecU16 fun bis_handles =>
  rpure { status, big_handle, big_sync_delay, big_transport_latency, phy, nse, bn,
          pto, irc, max_pdu, iso_interval, bis_handles }

def LeCreateBigComplete.write (w : List Nat) (x : LeCreateBigComplete) : Option (List Nat) :=
  let w := Status.write w x.status
  let w := write_u8 w x.big_handle
  let w := write_u32 3 w x.big_sync_delay
  let w := write_u32 3 w x.big_transport_latency
  let w := write_u8 w x.phy
  let w := write_u8 w x.nse
  let w := write_u8 w x.bn
  let w := write_u8 w x.pto
  let w := write_u8 w x.irc
  let w := write_u16 w x.max_pdu
  let w := write_u16 w x.iso_interval
  writeVecU16 w x.bis_handles

theorem LeCreateBigComplete_read_reads (x : LeCreateBigComplete) (h : x.wf)
    (bs : List Nat) (hw : LeCreateBigComplete.write [] x = some bs) :
    ReadsExact LeCreateBigComplete.read x bs := by
  obtain ⟨h1, h2, h3, h4, h5, h6, h7, h8, h9, h10, h11, h12⟩ := h
  have hchain : ReadsExact LeCreateBigComplete.read x
      (Status.write [] x.status ++ (write_u8 [] x.big_handle ++
        (write_u32 3 [] x.big_sync_delay ++ (write_u32 3 [] x.big_transport_latency ++
          (write_u8 [] x.phy ++ (write_u8 [] x.nse ++ (write_u8 [] x.bn ++
            (write_u8 [] x.pto ++ (write_u8 [] x.irc ++ (write_u16 [] x.max_pdu ++
              (write_u16 [] x.iso_interval ++
                ((write_u8 [] x.bis_handles.length ++
                  (x.bis_handles.map (fun a => write_u16 [] a)).flatten) ++
                    [])))))))))))) :=
    (Status_read_reads x.status).bind
      ((read_u8_reads _ h1).bind
        ((read_u32_reads 3 _ (by simpa using h2)).bind
          ((read_u32_reads 3 _ (by simpa using h3)).bind
            ((read_u8_reads _ h4).bind
              ((read_u8_reads _ h5).bind
                ((read_u8_reads _ h6).bind
                  ((read_u8_reads _ h7).bind
                    ((read_u8_reads _ h8).bind
                      ((read_u16_reads _ h9).bind
                        ((read_u16_reads _ h10).bind
                          ((readVecU16_reads _ h11 h12).bind
                            (ReadsExact.pure x))))))))))))
  refine hchain.congr ?_
  have himg : bs = x.bis_handles.foldl write_u16
      (write_u8 (write_u16 (write_u16 (write_u8 (write_u8 (write_u8 (write_u8 (write_u8
        (write_u32 3 (write_u32 3 (write_u8 (Status.write [] x.status) x.big_handle)
          x.big_sync_delay) x.big_transport_latency) x.phy) x.nse) x.bn) x.pto) x.irc)
            x.max_pdu) x.iso_interval) x.bis_handles.length) := by
    simp [LeCreateBigComplete.write, writeVecU16, h11] at hw
    exact hw.symm
  rw [himg, foldl_write_append write_u16 (fun w a => write_u32_append 2 w a)]
  simp [Status.write, write_u8, write_u16, write_u32, put, List.append_assoc]

structure LeTerminateBigComplete where
  big_handle : Nat
  reason : Nat
deriving DecidableEq

def LeTerminateBigComplete.wf (x : LeTerminateBigComplete) : Prop :=
  x.big_handle < 2 ^ 8 ∧ x.reason < 2 ^ 8

instance : ∀ x : LeTerminateBigComplete, Decidable x.wf :=
  fun _ => instDecidableAnd

def LeTerminateBigComplete.read : Reader → Option LeTerminateBigComplete × Reader :=
  rbind Reader.read_u8 fun big_handle =>
  rbind Reader.read_u8 fun reason =>
  rpure { big_handle, reason }

def LeTerminateBigComplete.write (w : List Nat) (x : LeTerminateBigComplete) : List Nat :=
  let w := write_u8 w x.big_handle
  let w := write_u8 w x.reason
  w

theorem LeTerminateBigComplete_read_reads (x : LeTerminateBigComplete) (h : x.wf) :
    ReadsExact LeTerminateBigComplete.read x (LeTerminateBigComplete.write [] x) := by
  obtain ⟨h1, h2⟩ := h
  have hchain : ReadsExact LeTerminateBigComplete.read x
      (write_u8 [] x.big_handle ++ (write_u8 [] x.reason ++ [])) :=
    (read_u8_reads _ h1).bind ((read_u8_reads _ h2).bind (ReadsExact.pure x))
  exact hchain.congr (by
    simp [LeTerminateBigComplete.write, write_u8, write_u32, put, List.append_assoc])

/-! ## Writer append lemmas: every `Write` impl appends to the given
writer; each lemma relates a write onto `w` with the write onto the
empty writer. -/

theorem ResetComplete_write_append (w : List Nat) (x : ResetComplete) :
    ResetComplete.write w x = w ++ ResetComplete.write [] x := by
  simp [ResetComplete.write, Status.write, write_u8, write_u32]

theorem LeReadBufferSizeV1Complete_write_append (w : List Nat) (x : LeReadBufferSizeV1Complete) :
    LeReadBufferSizeV1Complete.write w x = w ++ LeReadBufferSizeV1Complete.write [] x := by
  simp [LeReadBufferSizeV1Complete.write, Status.write, write_u8, write_u16, write_u32,
    List.append_assoc]

theorem LeReadBufferSizeV2Complete_write_append (w : List Nat) (x : LeReadBufferSizeV2Complete) :
    LeReadBufferSizeV2Complete.write w x = w ++ LeReadBufferSizeV2Complete.write [] x := by
  simp [LeReadBufferSizeV2Complete.write, Status.write, write_u8, write_u16, write_u32,
    List.append_assoc]

theorem LeRemoveCigComplete_write_append (w : List Nat) (x : LeRemoveCigComplete) :
    LeRemoveCigComplete.write w x = w ++ LeRemoveCigComplete.write [] x := by
  simp [LeRemoveCigComplete.write, Status.write, write_u8, write_u32, List.append_assoc]

theorem LeIsoDataPathComplete_write_append (w : List Nat) (x : LeIsoDataPathComplete) :
    LeIsoDataPathComplete.write w x = w ++ LeIsoDataPathComplete.write [] x := by
  simp [LeIsoDataPathComplete.write, Status.write, write_u8, write_u16, write_u32,
    List.append_assoc]

theorem LeSetCigParametersComplete_write_append (w : List Nat) (x : LeSetCigParametersComplete) :
    LeSetCigParametersComplete.write w x
      = (LeSetCigParametersComplete.write [] x).map (w ++ ·) := by
  unfold LeSetCigParametersComplete.write
  rw [writeVecU16_append, writeVecU16_append (write_u8 (Status.write [] x.status) x.cig_id)]
  simp [Option.map_map, Status.write, write_u8, write_u32, List.append_assoc, Function.comp_def]

theorem Reset_write_append (w : List Nat) (x : Reset) :
    Reset.write w x = w ++ Reset.write [] x := by
  simp [Reset.write]

theorem LeRemoveCig_write_append (w : List Nat) (x : LeRemoveCig) :
    LeRemoveCig.write w x = w ++ LeRemoveCig.write [] x := by
  simp [LeRemoveCig.write, write_u8, write_u32]

theorem LeCreateBig_write_append (w : List Nat) (x : LeCreateBig) :
    LeCreateBig.write w x = w ++ LeCreateBig.write [] x := by
  simp [LeCreateBig.write, write_u8, write_u16, write_u32, write_bytes, put,
    List.append_assoc]

theorem LeRemoveIsoDataPath_write_append (w : List Nat) (x : LeRemoveIsoDataPath) :
    LeRemoveIsoDataPath.write w x = w ++ LeRemoveIsoDataPath.write [] x := by
  simp [LeRemoveIsoDataPath.write, write_u8, write_u16, write_u32, List.append_assoc]

theorem LeSetCigParameters_write_append (w : List Nat) (x : LeSetCigParameters) :
    LeSetCigParameters.write w x = (LeSetCigParameters.write [] x).map (w ++ ·) := by
  unfold LeSetCigParameters.write
  rw [writeVec_append LeCisInCigParameters.write LeCisInCigParameters_write_append,
    writeVec_append LeCisInCigParameters.write LeCisInCigParameters_write_append
      (write_u16 (write_u16 (write_u8 (write_u8 (write_u8 (write_u32 3 (write_u32 3
        (write_u8 [] x.cig_id) x.sdu_interval_c_to_p) x.sdu_interval_p_to_c)
          x.worst_case_sca) x.packing) x.framing) x.max_transport_latency_c_to_p)
            x.max_transport_latency_p_to_c)]
  simp [Option.map_map, write_u8, write_u16, write_u32, List.append_assoc, Function.comp_def]

theorem LeCreateCis_write_append (w : List Nat) (x : LeCreateCis) :
    LeCreateCis.write w x = (LeCreateCis.write [] x).map (w ++ ·) := by
  unfold LeCreateCis.write
  rw [writeVec_append CisAclConnectionHandle.write CisAclConnectionHandle_write_append]

theorem LeSetupIsoDataPath_write_append (w : List Nat) (x : LeSetupIsoDataPath) :
    LeSetupIsoDataPath.write w x = (LeSetupIsoDataPath.write [] x).map (w ++ ·) := by
  unfold LeSetupIsoDataPath.write
  rw [writeVecU8_append, writeVecU8_append (write_u32 3 (LeCodecId.write (write_u8
    (LeDataPathDirection.write (write_u16 [] x.connection_handle) x.data_path_direction)
      x.data_path_id) x.codec_id) x.controller_delay)]
  simp [Option.map_map, LeCodecId.write, CodingFormat.write, LeDataPathDirection.write,
    write_u8, write_u16, write_u32, List.append_assoc, Function.comp_def]

theorem DisconnectionComplete_write_append (w : List Nat) (x : DisconnectionComplete) :
    DisconnectionComplete.write w x = w ++ DisconnectionComplete.write [] x := by
  simp [DisconnectionComplete.write, Status.write, write_u8, write_u16, write_u32,
    List.append_assoc]

theorem CommandStatus_write_append (w : List Nat) (x : CommandStatus) :
    CommandStatus.write w x = w ++ CommandStatus.write [] x := by
  simp [CommandStatus.write, Status.write, OpCode.write, write_u8, write_u16, write_u32,
    List.append_assoc]

theorem NumberOfCompletedPackets_write_append (w : List Nat) (x : NumberOfCompletedPackets) :
    NumberOfCompletedPackets.write w x
      = (NumberOfCompletedPackets.write [] x).map (w ++ ·) := by
  unfold NumberOfCompletedPackets.write
  rw [writeVec_append NumberOfCompletedPacketsHandle.write
    NumberOfCompletedPacketsHandle_write_append]

theorem LeCisEstablished_write_append (w : List Nat) (x : LeCisEstablished) :
    LeCisEstablished.write w x = w ++ LeCisEstablished.write [] x := by
  simp [LeCisEstablished.write, Status.write, write_u8, write_u16, write_u32,
    List.append_assoc]

theorem LeCreateBigComplete_write_append (w : List Nat) (x : LeCreateBigComplete) :
    LeCreateBigComplete.write w x = (LeCreateBigComplete.write [] x).map (w ++ ·) := by
  unfold LeCreateBigComplete.write
  rw [writeVecU16_append, writeVecU16_append (write_u16 (write_u16 (write_u8 (write_u8
    (write_u8 (write_u8 (write_u8 (write_u32 3 (write_u32 3 (write_u8
      (Status.write [] x.status) x.big_handle) x.big_sync_delay) x.big_transport_latency)
        x.phy) x.nse) x.bn) x.pto) x.irc) x.max_pdu) x.iso_interval)]
  simp [Option.map_map, Status.write, write_u8, write_u16, write_u32, List.append_assoc,
    Function.comp_def]

theorem LeTerminateBigComplete_write_append (w : List Nat) (x : LeTerminateBigComplete) :
    LeTerminateBigComplete.write w x = w ++ LeTerminateBigComplete.write [] x := by
  simp [LeTerminateBigComplete.write, write_u8, write_u32, List.append_assoc]

/-! ## Command opcodes (src/offload/hci/command.rs, `CommandOpCode` impls) -/

structure LeReadBufferSizeV1 where

structure LeReadBufferSizeV2 where

def Reset.OPCODE : OpCode := OpCode.make 0x03 0x003
def LeReadBufferSizeV1.OPCODE : OpCode := OpCode.make 0x08 0x002
def LeReadBufferSizeV2.OPCODE : OpCode := OpCode.make 0x08 0x060
def LeSetCigParameters.OPCODE : OpCode := OpCode.make 0x08 0x062
def LeCreateCis.OPCODE : OpCode := OpCode.make 0x08 0x064
def LeRemoveCig.OPCODE : OpCode := OpCode.make 0x08 0x065
def LeCreateBig.OPCODE : OpCode := OpCode.make 0x08 0x068
def LeSetupIsoDataPath.OPCODE : OpCode := OpCode.make 0x08 0x06e
def LeRemoveIsoDataPath.OPCODE : OpCode := OpCode.make 0x08 0x06f

/-! ## Return parameters (src/offload/hci/command.rs, `ReturnParameters`) -/

inductive ReturnParameters
  | Reset (p : ResetComplete)
  | LeReadBufferSizeV1 (p : LeReadBufferSizeV1Complete)
  | LeReadBufferSizeV2 (p : LeReadBufferSizeV2Complete)
  | LeSetCigParameters (p : LeSetCigParametersComplete)
  | LeRemoveCig (p : LeRemoveCigComplete)
  | LeSetupIsoDataPath (p : LeIsoDataPathComplete)
  | LeRemoveIsoDataPath (p : LeIsoDataPathComplete)
  | Unknown (opcode : OpCode)
deriving DecidableEq

def ReturnParameters.wf : ReturnParameters → Prop
  | .Reset _ => True
  | .LeReadBufferSizeV1 p => p.wf
  | .LeReadBufferSizeV2 p => p.wf
  | .LeSetCigParameters p => p.wf
  | .LeRemoveCig p => p.wf
  | .LeSetupIsoDataPath p => p.wf
  | .LeRemoveIsoDataPath p => p.wf
  | .Unknown opcode => opcode.val < 2 ^ 16

instance : ∀ x : ReturnParameters, Decidable x.wf
  | .Reset _ => inferInstanceAs (Decidable True)
  | .LeReadBufferSizeV1 p => inferInstanceAs (Decidable p.wf)
  | .LeReadBufferSizeV2 p => inferInstanceAs (Decidable p.wf)
  | .LeSetCigParameters p => inferInstanceAs (Decidable p.wf)
  | .LeRemoveCig p => inferInstanceAs (Decidable p.wf)
  | .LeSetupIsoDataPath p => inferInstanceAs (Decidable p.wf)
  | .LeRemoveIsoDataPath p => inferInstanceAs (Decidable p.wf)
  | .Unknown _ => Nat.decLt _ _

/-- Dispatch of the derived `Read` impl on `ReturnParameters`, keyed by
the opcode read ahead of the command-specific trailer. -/
def ReturnParameters.dispatch (opcode : OpCode) : Reader → Option ReturnParameters × Reader :=
  if opcode = Reset.OPCODE then
    rbind ResetComplete.read fun p => rpure (ReturnParameters.Reset p)
  else if opcode = LeReadBufferSizeV1.OPCODE then
    rbind LeReadBufferSizeV1Complete.read fun p => rpure (ReturnParameters.LeReadBufferSizeV1 p)
  else if opcode = LeReadBufferSizeV2.OPCODE then
    rbind LeReadBufferSizeV2Complete.read fun p => rpure (ReturnParameters.LeReadBufferSizeV2 p)
  else if opcode = LeSetCigParameters.OPCODE then
    rbind LeSetCigParametersComplete.read fun p => rpure (ReturnParameters.LeSetCigParameters p)
  else if opcode = LeRemoveCig.OPCODE then
    rbind LeRemoveCigComplete.read fun p => rpure (ReturnParameters.LeRemoveCig p)
  else if opcode = LeSetupIsoDataPath.OPCODE then
    rbind LeIsoDataPathComplete.read fun p => rpure (ReturnParameters.LeSetupIsoDataPath p)
  else if opcode = LeRemoveIsoDataPath.OPCODE then
    rbind LeIsoDataPathComplete.read fun p => rpure (ReturnParameters.LeRemoveIsoDataPath p)
  else rpure (ReturnParameters.Unknown opcode)

def ReturnParameters.read : Reader → Option ReturnParameters × Reader :=
  rbind Reader.read_u16 fun v => ReturnParameters.dispatch ⟨v⟩

/-- Embedding of the derived `Write` impl on `ReturnParameters`; the
`Unknown` variant panics. -/
def ReturnParameters.write (w : List Nat) : ReturnParameters → Option (List Nat)
  | .Reset p => some (ResetComplete.write (OpCode.write w Reset.OPCODE) p)
  | .LeReadBufferSizeV1 p =>
    some (LeReadBufferSizeV1Complete.write (OpCode.write w LeReadBufferSizeV1.OPCODE) p)
  | .LeReadBufferSizeV2 p =>
    some (LeReadBufferSizeV2Complete.write (OpCode.write w LeReadBufferSizeV2.OPCODE) p)
  | .LeSetCigParameters p =>
    LeSetCigParametersComplete.write (OpCode.write w LeSetCigParameters.OPCODE) p
  | .LeRemoveCig p => some (LeRemoveCigComplete.write (OpCode.write w LeRemoveCig.OPCODE) p)
  | .LeSetupIsoDataPath p =>
    some (LeIsoDataPathComplete.write (OpCode.write w LeSetupIsoDataPath.OPCODE) p)
  | .LeRemoveIsoDataPath p =>
    some (LeIsoDataPathComplete.write (OpCode.write w LeRemoveIsoDataPath.OPCODE) p)
  | .Unknown _ => none

theorem ReturnParameters_dispatch_Reset :
    ReturnParameters.dispatch Reset.OPCODE
      = rbind ResetComplete.read fun p => rpure (ReturnParameters.Reset p) := by
  rw [ReturnParameters.dispatch, if_pos rfl]

theorem ReturnParameters.dispatch_V1 :
    ReturnParameters.dispatch LeReadBufferSizeV1.OPCODE
      = rbind LeReadBufferSizeV1Complete.read fun p =>
          rpure (ReturnParameters.LeReadBufferSizeV1 p) := by
  rw [ReturnParameters.dispatch, if_neg (by decide), if_pos rfl]

theorem ReturnParameters.dispatch_V2 :
    ReturnParameters.dispatch LeReadBufferSizeV2.OPCODE
      = rbind LeReadBufferSizeV2Complete.read fun p =>
          rpure (ReturnParameters.LeReadBufferSizeV2 p) := by
  rw [ReturnParameters.dispatch, if_neg (by decide), if_neg (by decide), if_pos rfl]

theorem ReturnParameters_dispatch_SetCig :
    ReturnParameters.dispatch LeSetCigParameters.OPCODE
      = rbind LeSetCigParametersComplete.read fun p =>
          rpure (ReturnParameters.LeSetCigParameters p) := by
  rw [ReturnParameters.dispatch, if_neg (by decide), if_neg (by decide), if_neg (by decide),
    if_pos rfl]

theorem ReturnParameters_dispatch_RemoveCig :
    ReturnParameters.dispatch LeRemoveCig.OPCODE
      = rbind LeRemoveCigComplete.read fun p => rpure (ReturnParameters.LeRemoveCig p) := by
  rw [ReturnParameters.dispatch, if_neg (by decide), if_neg (by decide), if_neg (by decide),
    if_neg (by decide), if_pos rfl]

theorem ReturnParameters_dispatch_SetupPath :
    ReturnParameters.dispatch LeSetupIsoDataPath.OPCODE
      = rbind LeIsoDataPathComplete.read fun p =>
          rpure (ReturnParameters.LeSetupIsoDataPath p) := by
  rw [ReturnParameters.dispatch, if_neg (by decide), if_neg (by decide), if_neg (by decide),
    if_neg (by decide), if_neg (by decide), if_pos rfl]

theorem ReturnParameters_dispatch_RemovePath :
    ReturnParameters.dispatch LeRemoveIsoDataPath.OPCODE
      = rbind LeIsoDataPathComplete.read fun p =>
          rpure (ReturnParameters.LeRemoveIsoDataPath p) := by
  rw [ReturnParameters.dispatch, if_neg (by decide), if_neg (by decide), if_neg (by decide),
    if_neg (by decide), if_neg (by decide), if_neg (by decide), if_pos rfl]

theorem ReturnParameters_write_append (w : List Nat) (x : ReturnParameters) :
    ReturnParameters.write w x = (ReturnParameters.write [] x).map (w ++ ·) := by
  cases x with
  | Reset p =>
    dsimp only [ReturnParameters.write]
    rw [ResetComplete_write_append (OpCode.write w _), ResetComplete_write_append
      (OpCode.write [] _)]
    simp [OpCode.write, write_u16, write_u32, List.append_assoc]
  | LeReadBufferSizeV1 p =>
    dsimp only [ReturnParameters.write]
    rw [LeReadBufferSizeV1Complete_write_append (OpCode.write w _),
      LeReadBufferSizeV1Complete_write_append (OpCode.write [] _)]
    simp [OpCode.write, write_u16, write_u32, List.append_assoc]
  | LeReadBufferSizeV2 p =>
    dsimp only [ReturnParameters.write]
    rw [LeReadBufferSizeV2Complete_write_append (OpCode.write w _),
      LeReadBufferSizeV2Complete_write_append (OpCode.write [] _)]
    simp [OpCode.write, write_u16, write_u32, List.append_assoc]
  | LeSetCigParameters p =>
    dsimp only [ReturnParameters.write]
    rw [LeSetCigParametersComplete_write_append (OpCode.write w _),
      LeSetCigParametersComplete_write_append (OpCode.write [] _)]
    simp [Option.map_map, OpCode.write, write_u16, write_u32, List.append_assoc,
      Function.comp_def]
  | LeRemoveCig p =>
    dsimp only [ReturnParameters.write]
    rw [LeRemoveCigComplete_write_append (OpCode.write w _),
      LeRemoveCigComplete_write_append (OpCode.write [] _)]
    simp [OpCode.write, write_u16, write_u32, List.append_assoc]
  | LeSetupIsoDataPath p =>
    dsimp only [ReturnParameters.write]
    rw [LeIsoDataPathComplete_write_append (OpCode.write w _),
      LeIsoDataPathComplete_write_append (OpCode.write [] _)]
    simp [OpCode.write, write_u16, write_u32, List.append_assoc]
  | LeRemoveIsoDataPath p =>
    dsimp only [ReturnParameters.write]
    rw [LeIsoDataPathComplete_write_append (OpCode.write w _),
      LeIsoDataPathComplete_write_append (OpCode.write [] _)]
    simp [OpCode.write, write_u16, write_u32, List.append_assoc]
  | Unknown opcode => rfl

theorem ReturnParameters_read_reads (x : ReturnParameters) (h : x.wf)
    (bs : List Nat) (hw : ReturnParameters.write [] x = some bs) :
    ReadsExact ReturnParameters.read x bs := by
  cases x with
  | Reset p =>
    have hbs : bs = write_u16 [] (Reset.OPCODE).val ++ (ResetComplete.write [] p ++ []) := by
      simp only [ReturnParameters.write, Option.some.injEq] at hw
      rw [← hw, ResetComplete_write_append (OpCode.write [] _)]
      simp [OpCode.write]
    rw [hbs]
    exact (read_u16_reads _ (by decide)).bind
      (by
        show ReadsExact (ReturnParameters.dispatch Reset.OPCODE) (ReturnParameters.Reset p)
          (ResetComplete.write [] p ++ [])
        rw [ReturnParameters_dispatch_Reset]
        exact (ResetComplete_read_reads p).bind (ReadsExact.pure _))
  | LeReadBufferSizeV1 p =>
    have hbs : bs = write_u16 [] (LeReadBufferSizeV1.OPCODE).val ++
        (LeReadBufferSizeV1Complete.write [] p ++ []) := by
      simp only [ReturnParameters.write, Option.some.injEq] at hw
      rw [← hw, LeReadBufferSizeV1Complete_write_append (OpCode.write [] _)]
      simp [OpCode.write]
    rw [hbs]
    exact (read_u16_reads _ (by decide)).bind
      (by
        show ReadsExact (ReturnParameters.dispatch LeReadBufferSizeV1.OPCODE)
          (ReturnParameters.LeReadBufferSizeV1 p) (LeReadBufferSizeV1Complete.write [] p ++ [])
        rw [ReturnParameters.dispatch_V1]
        exact (LeReadBufferSizeV1Complete_read_reads p h).bind (ReadsExact.pure _))
  | LeReadBufferSizeV2 p =>
    have hbs : bs = write_u16 [] (LeReadBufferSizeV2.OPCODE).val ++
        (LeReadBufferSizeV2Complete.write [] p ++ []) := by
      simp only [ReturnParameters.write, Option.some.injEq] at hw
      rw [← hw, LeReadBufferSizeV2Complete_write_append (OpCode.write [] _)]
      simp [OpCode.write]
    rw [hbs]
    exact (read_u16_reads _ (by decide)).bind
      (by
        show ReadsExact (ReturnParameters.dispatch LeReadBufferSizeV2.OPCODE)
          (ReturnParameters.LeReadBufferSizeV2 p) (LeReadBufferSizeV2Complete.write [] p ++ [])
        rw [ReturnParameters.dispatch_V2]
        exact (LeReadBufferSizeV2Complete_read_reads p h).bind (ReadsExact.pure _))
  | LeSetCigParameters p =>
    simp only [ReturnParameters.write] at hw
    rw [LeSetCigParametersComplete_write_append (OpCode.write [] _)] at hw
    obtain ⟨bs0, hbs0, hbs⟩ := Option.map_eq_some'.mp hw
    have hshape : bs = write_u16 [] (LeSetCigParameters.OPCODE).val ++ (bs0 ++ []) := by
      rw [← hbs]
      simp [OpCode.write]
    rw [hshape]
    exact (read_u16_reads _ (by decide)).bind
      (by
        show ReadsExact (ReturnParameters.dispatch LeSetCigParameters.OPCODE)
          (ReturnParameters.LeSetCigParameters p) (bs0 ++ [])
        rw [ReturnParameters_dispatch_SetCig]
        exact (LeSetCigParametersComplete_read_reads p h bs0 hbs0).bind (ReadsExact.pure _))
  | LeRemoveCig p =>
    have hbs : bs = write_u16 [] (LeRemoveCig.OPCODE).val ++
        (LeRemoveCigComplete.write [] p ++ []) := by
      simp only [ReturnParameters.write, Option.some.injEq] at hw
      rw [← hw, LeRemoveCigComplete_write_append (OpCode.write [] _)]
      simp [OpCode.write]
    rw [hbs]
    exact (read_u16_reads _ (by decide)).bind
      (by
        show ReadsExact (ReturnParameters.dispatch LeRemoveCig.OPCODE)
          (ReturnParameters.LeRemoveCig p) (LeRemoveCigComplete.write [] p ++ [])
        rw [ReturnParameters_dispatch_RemoveCig]
        exact (LeRemoveCigComplete_read_reads p h).bind (ReadsExact.pure _))
  | LeSetupIsoDataPath p =>
    have hbs : bs = write_u16 [] (LeSetupIsoDataPath.OPCODE).val ++
        (LeIsoDataPathComplete.write [] p ++ []) := by
      simp only [ReturnParameters.write, Option.some.injEq] at hw
      rw [← hw, LeIsoDataPathComplete_write_append (OpCode.write [] _)]
      simp [OpCode.write]
    rw [hbs]
    exact (read_u16_reads _ (by decide)).bind
      (by
        show ReadsExact (ReturnParameters.dispatch LeSetupIsoDataPath.OPCODE)
          (ReturnParameters.LeSetupIsoDataPath p) (LeIsoDataPathComplete.write [] p ++ [])
        rw [ReturnParameters_dispatch_SetupPath]
        exact (LeIsoDataPathComplete_read_reads p h).bind (ReadsExact.pure _))
  | LeRemoveIsoDataPath p =>
    have hbs : bs = write_u16 [] (LeRemoveIsoDataPath.OPCODE).val ++
        (LeIsoDataPathComplete.write [] p ++ []) := by
      simp only [ReturnParameters.write, Option.some.injEq] at hw
      rw [← hw, LeIsoDataPathComplete_write_append (OpCode.write [] _)]
      simp [OpCode.write]
    rw [hbs]
    exact (read_u16_reads _ (by decide)).bind
      (by
        show ReadsExact (ReturnParameters.dispatch LeRemoveIsoDataPath.OPCODE)
          (ReturnParameters.LeRemoveIsoDataPath p) (LeIsoDataPathComplete.write [] p ++ [])
        rw [ReturnParameters_dispatch_RemovePath]
        exact (LeIsoDataPathComplete_read_reads p h).bind (ReadsExact.pure _))
  | Unknown opcode => cases hw

structure CommandComplete where
  num_hci_command_packets : Nat
  return_parameters : ReturnParameters
deriving DecidableEq

def CommandComplete.wf (x : CommandComplete) : Prop :=
  x.num_hci_command_packets < 2 ^ 8 ∧ x.return_parameters.wf

instance : ∀ x : CommandComplete, Decidable x.wf :=
  fun _ => instDecidableAnd

def CommandComplete.read : Reader → Option CommandComplete × Reader :=
  rbind Reader.read_u8 fun num_hci_command_packets =>
  rbind ReturnParameters.read fun return_parameters =>
  rpure { num_hci_command_packets, return_parameters }

def CommandComplete.write (w : List Nat) (x : CommandComplete) : Option (List Nat) :=
  let w := write_u8 w x.num_hci_command_packets
  ReturnParameters.write w x.return_parameters

theorem CommandComplete_write_append (w : List Nat) (x : CommandComplete) :
    CommandComplete.write w x = (CommandComplete.write [] x).map (w ++ ·) := by
  unfold CommandComplete.write
  rw [ReturnParameters_write_append (write_u8 w _),
    ReturnParameters_write_append (write_u8 [] _)]
  simp [Option.map_map, write_u8, write_u32, List.append_assoc, Function.comp_def]

theorem CommandComplete_read_reads (x : CommandComplete) (h : x.wf)
    (bs : List Nat) (hw : CommandComplete.write [] x = some bs) :
    ReadsExact CommandComplete.read x bs := by
  obtain ⟨h1, h2⟩ := h
  unfold CommandComplete.write at hw
  rw [ReturnParameters_write_append (write_u8 [] _)] at hw
  obtain ⟨bs0, hbs0, hbs⟩ := Option.map_eq_some'.mp hw
  have hshape : bs = write_u8 [] x.num_hci_command_packets ++ (bs0 ++ []) := by
    rw [← hbs]; simp
  rw [hshape]
  exact (read_u8_reads _ h1).bind
    ((ReturnParameters_read_reads x.return_parameters h2 bs0 hbs0).bind (ReadsExact.pure x))

/-! ## Event codes (src/offload/hci/event.rs, `EventCode` impls) -/

structure Code where
  code : Nat
  sub : Option Nat
deriving DecidableEq

def Code.LE_META : Nat := 0x3e

def DisconnectionComplete.CODE : Code := ⟨0x05, none⟩
def CommandComplete.CODE : Code := ⟨0x0e, none⟩
def CommandStatus.CODE : Code := ⟨0x0f, none⟩
def NumberOfCompletedPackets.CODE : Code := ⟨0x13, none⟩
def LeCisEstablished.CODE : Code := ⟨Code.LE_META, some 0x19⟩
def LeCreateBigComplete.CODE : Code := ⟨Code.LE_META, some 0x1b⟩
def LeTerminateBigComplete.CODE : Code := ⟨Code.LE_META, some 0x1c⟩

/-! ## Command packets (src/offload/hci/command.rs, `Command`) -/

inductive Command
  | Reset (c : Reset)
  | LeSetCigParameters (c : LeSetCigParameters)
  | LeCreateCis (c : LeCreateCis)
  | LeRemoveCig (c : LeRemoveCig)
  | LeCreateBig (c : LeCreateBig)
  | LeSetupIsoDataPath (c : LeSetupIsoDataPath)
  | LeRemoveIsoDataPath (c : LeRemoveIsoDataPath)
  | Unknown (opcode : OpCode)
deriving DecidableEq

def Command.wf : Command → Prop
  | .Reset _ => True
  | .LeSetCigParameters c => c.wf
  | .LeCreateCis c => c.wf
  | .LeRemoveCig c => c.wf
  | .LeCreateBig c => c.wf
  | .LeSetupIsoDataPath c => c.wf
  | .LeRemoveIsoDataPath c => c.wf
  | .Unknown opcode => opcode.val < 2 ^ 16

instance : ∀ x : Command, Decidable x.wf
  | .Reset _ => inferInstanceAs (Decidable True)
  | .LeSetCigParameters c => inferInstanceAs (Decidable c.wf)
  | .LeCreateCis c => inferInstanceAs (Decidable c.wf)
  | .LeRemoveCig c => inferInstanceAs (Decidable c.wf)
  | .LeCreateBig c => inferInstanceAs (Decidable c.wf)
  | .LeSetupIsoDataPath c => inferInstanceAs (Decidable c.wf)
  | .LeRemoveIsoDataPath c => inferInstanceAs (Decidable c.wf)
  | .Unknown _ => Nat.decLt _ _

/-- Embedding of `Command::dispatch_read`. -/
def Command.dispatch_read (opcode : OpCode) : Reader → Option Command × Reader :=
  if opcode = Reset.OPCODE then
    rbind Reset.read fun c => rpure (Command.Reset c)
  else if opcode = LeSetCigParameters.OPCODE then
    rbind LeSetCigParameters.read fun c => rpure (Command.LeSetCigParameters c)
  else if opcode = LeCreateCis.OPCODE then
    rbind LeCreateCis.read fun c => rpure (Command.LeCreateCis c)
  else if opcode = LeRemoveCig.OPCODE then
    rbind LeRemoveCig.read fun c => rpure (Command.LeRemoveCig c)
  else if opcode = LeCreateBig.OPCODE then
    rbind LeCreateBig.read fun c => rpure (Command.LeCreateBig c)
  else if opcode = LeSetupIsoDataPath.OPCODE then
    rbind LeSetupIsoDataPath.read fun c => rpure (Command.LeSetupIsoDataPath c)
  else if opcode = LeRemoveIsoDataPath.OPCODE then
    rbind LeRemoveIsoDataPath.read fun c => rpure (Command.LeRemoveIsoDataPath c)
  else rpure (Command.Unknown opcode)

/-- Embedding of the header parser nested in `Command::from_bytes`: a
2-byte opcode, a 1-byte parameter length, and a sub-reader over
exactly `len` bytes. -/
def Command.parse_packet (data : List Nat) : Option (OpCode × Reader) :=
  match OpCode.read (Reader.new data) with
  | (none, _) => none
  | (some opcode, r) =>
    match r.read_u8 with
    | (none, _) => none
    | (some len, r) =>
      match r.get len with
      | (none, _) => none
      | (some window, _) => some (opcode, Reader.new window)

/-- Embedding of `Command::from_bytes`. -/
def Command.from_bytes (data : List Nat) : Except (Option OpCode) Command :=
  match Command.parse_packet data with
  | none => .error none
  | some (opcode, r) =>
    match (Command.dispatch_read opcode r).1 with
    | some c => .ok c
    | none => .error (some opcode)

/-- Embedding of the generic `Command::to_bytes` builder: opcode,
reserved length byte, body, then the length byte back-patched
(`vec[2] = (vec.len() - 3).try_into().unwrap()`). -/
def Command.build (opcode : OpCode) (writeBody : List Nat → Option (List Nat)) :
    Option (List Nat) :=
  let w := OpCode.write [] opcode
  let w := write_u8 w 0
  match writeBody w with
  | none => none
  | some w => if w.length - 3 ≤ 255 then some (w.set 2 (w.length - 3)) else none

def Command.to_bytes : Command → Option (List Nat)
  | .Reset c => Command.build Reset.OPCODE (fun w => some (Reset.write w c))
  | .LeSetCigParameters c =>
    Command.build LeSetCigParameters.OPCODE (fun w => LeSetCigParameters.write w c)
  | .LeCreateCis c => Command.build LeCreateCis.OPCODE (fun w => LeCreateCis.write w c)
  | .LeRemoveCig c => Command.build LeRemoveCig.OPCODE (fun w => some (LeRemoveCig.write w c))
  | .LeCreateBig c => Command.build LeCreateBig.OPCODE (fun w => some (LeCreateBig.write w c))
  | .LeSetupIsoDataPath c =>
    Command.build LeSetupIsoDataPath.OPCODE (fun w => LeSetupIsoDataPath.write w c)
  | .LeRemoveIsoDataPath c =>
    Command.build LeRemoveIsoDataPath.OPCODE (fun w => some (LeRemoveIsoDataPath.write w c))
  | .Unknown _ => none

theorem Command_dispatch_Reset :
    Command.dispatch_read Reset.OPCODE = rbind Reset.read fun c => rpure (Command.Reset c) := by
  rw [Command.dispatch_read, if_pos rfl]

theorem Command_dispatch_SetCig :
    Command.dispatch_read LeSetCigParameters.OPCODE
      = rbind LeSetCigParameters.read fun c => rpure (Command.LeSetCigParameters c) := by
  rw [Command.dispatch_read, if_neg (by decide), if_pos rfl]

theorem Command.dispatch_CreateCis :
    Command.dispatch_read LeCreateCis.OPCODE
      = rbind LeCreateCis.read fun c => rpure (Command.LeCreateCis c) := by
  rw [Command.dispatch_read, if_neg (by decide), if_neg (by decide), if_pos rfl]

theorem Command_dispatch_RemoveCig :
    Command.dispatch_read LeRemoveCig.OPCODE
      = rbind LeRemoveCig.read fun c => rpure (Command.LeRemoveCig c) := by
  rw [Command.dispatch_read, if_neg (by decide), if_neg (by decide), if_neg (by decide),
    if_pos rfl]

theorem Command.dispatch_CreateBig :
    Command.dispatch_read LeCreateBig.OPCODE
      = rbind LeCreateBig.read fun c => rpure (Command.LeCreateBig c) := by
  rw [Command.dispatch_read, if_neg (by decide), if_neg (by decide), if_neg (by decide),
    if_neg (by decide), if_pos rfl]

theorem Command_dispatch_SetupPath :
    Command.dispatch_read LeSetupIsoDataPath.OPCODE
      = rbind LeSetupIsoDataPath.read fun c => rpure (Command.LeSetupIsoDataPath c) := by
  rw [Command.dispatch_read, if_neg (by decide), if_neg (by decide), if_neg (by decide),
    if_neg (by decide), if_neg (by decide), if_pos rfl]

theorem Command_dispatch_RemovePath :
    Command.dispatch_read LeRemoveIsoDataPath.OPCODE
      = rbind LeRemoveIsoDataPath.read fun c => rpure (Command.LeRemoveIsoDataPath c) := by
  rw [Command.dispatch_read, if_neg (by decide), if_neg (by decide), if_neg (by decide),
    if_neg (by decide), if_neg (by decide), if_neg (by decide), if_pos rfl]

/-- Parsing a framed command packet: header bytes followed by a body
that the dispatched reader accepts in full or in part. -/
theorem Command.from_bytes_build (opcode : OpCode) (hval : opcode.val < 2 ^ 16)
    (c : Command) (body : List Nat) (hlen : body.length ≤ 255)
    (hF : ReadsExact (Command.dispatch_read opcode) c body) :
    Command.from_bytes (OpCode.write [] opcode ++ ([body.length] ++ body)) = .ok c := by
  set bs := OpCode.write [] opcode ++ ([body.length] ++ body) with hbs
  have hoplen : (OpCode.write [] opcode).length = 2 := by simp [OpCode.write, write_u16]
  have hbslen : bs.length = 3 + body.length := by
    rw [hbs]; simp [OpCode.write, write_u16]; omega
  have hop : OpCode.read ⟨bs, 0⟩ = (some opcode, ⟨bs, 0 + (OpCode.write [] opcode).length⟩) :=
    OpCode_read_reads opcode hval bs 0 ([body.length] ++ body) (by omega) (by rw [hbs]; simp)
  rw [hoplen] at hop
  have hdrop2 : bs.drop 2 = [body.length] ++ body := by
    rw [hbs, ← hoplen, List.drop_left]
  have hlt : body.length < 2 ^ 8 := by omega
  have hlt256 : body.length < 256 := by omega
  have hu8 : write_u8 [] body.length = [body.length] := by
    simp [write_u8, write_u32, and_255_eq, Nat.mod_eq_of_lt hlt, Nat.mod_eq_of_lt hlt256]
  have hlenr : Reader.read_u8 ⟨bs, 2⟩ = (some body.length, ⟨bs, 2 + 1⟩) := by
    have := read_u8_reads body.length hlt bs 2 body (by omega) (by rw [hdrop2, hu8])
    simpa [hu8] using this
  have hdrop3 : bs.drop 3 = body := by
    have : bs.drop 3 = (bs.drop 2).drop 1 := by rw [List.drop_drop]
    rw [this, hdrop2]
    rfl
  have hget : Reader.get ⟨bs, 3⟩ body.length = (some body, ⟨bs, 3 + body.length⟩) := by
    have := get_reads body bs 3 [] (by omega) (by rw [hdrop3]; simp)
    simpa using this
  have hpp : Command.parse_packet bs = some (opcode, Reader.new body) := by
    simp only [Command.parse_packet, Reader.new, hop, hlenr, hget]
  have hdisp : (Command.dispatch_read opcode ⟨body, 0⟩).1 = some c := by
    rw [hF body 0 [] (by omega) (by simp)]
  simp only [Command.from_bytes, hpp, Reader.new, hdisp]

theorem Command_from_to (c : Command) (h : c.wf) (bs : List Nat)
    (hw : Command.to_bytes c = some bs) : Command.from_bytes bs = .ok c := by
  cases c with
  | Reset c =>
    simp only [Command.to_bytes, Command.build] at hw
    rw [Reset_write_append] at hw
    rw [show ∀ l : List Nat, (if l.length - 3 ≤ 255 then some (l.set 2 (l.length - 3))
      else none) = (fun l => if l.length - 3 ≤ 255 then some (l.set 2 (l.length - 3))
      else none) l from fun _ => rfl] at hw
    simp only [OpCode.write, write_u8, write_u16, write_u32, List.append_eq,
      List.nil_append, List.singleton_append] at hw
    split at hw
    case isTrue hcond =>
      have hbs := (Option.some.injEq _ _).mp hw
      have hshape : bs = OpCode.write [] Reset.OPCODE ++
          ([(Reset.write [] c).length] ++ Reset.write [] c) := by
        rw [← hbs]
        simp [OpCode.write, write_u16, write_u32, write_u8, Reset.write, List.set]
      rw [hshape]
      exact Command.from_bytes_build _ (by decide) (Command.Reset c) (Reset.write [] c)
        (by simp only [Reset.write, List.length_nil]; omega)
        (by rw [Command_dispatch_Reset]
            refine ReadsExact.congr ?_ (List.append_nil _)
            exact (Reset_read_reads c).bind (ReadsExact.pure _))
    case isFalse => cases hw
  | LeRemoveCig c =>
    simp only [Command.to_bytes, Command.build] at hw
    rw [LeRemoveCig_write_append] at hw
    split at hw
    case isTrue hcond =>
      have hbs := (Option.some.injEq _ _).mp hw
      have hblen : (LeRemoveCig.write [] c).length = 1 := by
        simp [LeRemoveCig.write, write_u8, write_u32]
      have hshape : bs = OpCode.write [] LeRemoveCig.OPCODE ++
          ([(LeRemoveCig.write [] c).length] ++ LeRemoveCig.write [] c) := by
        rw [← hbs]
        simp [OpCode.write, write_u16, write_u32, write_u8, List.set, hblen]
      rw [hshape]
      exact Command.from_bytes_build _ (by decide) (Command.LeRemoveCig c) (LeRemoveCig.write [] c)
        (by rw [hblen]; omega)
        (by rw [Command_dispatch_RemoveCig]
            refine ReadsExact.congr ?_ (List.append_nil _)
            exact (LeRemoveCig_read_reads c h).bind (ReadsExact.pure _))
    case isFalse => cases hw
  | LeCreateBig c =>
    simp only [Command.to_bytes, Command.build] at hw
    rw [LeCreateBig_write_append] at hw
    split at hw
    case isTrue hcond =>
      have hbs := (Option.some.injEq _ _).mp hw
      have hblen : (LeCreateBig.write [] c).length ≤ 255 := by
        simp only [OpCode.write, write_u8, write_u16, write_u32, List.length_append,
          List.append_eq, List.nil_append, List.singleton_append, List.length_cons] at hcond
        omega
      have hshape : bs = OpCode.write [] LeCreateBig.OPCODE ++
          ([(LeCreateBig.write [] c).length] ++ LeCreateBig.write [] c) := by
        rw [← hbs]
        simp [OpCode.write, write_u16, write_u32, write_u8, List.set]
      rw [hshape]
      exact Command.from_bytes_build _ (by decide) (Command.LeCreateBig c) (LeCreateBig.write [] c) hblen
        (by rw [Command.dispatch_CreateBig]
            refine ReadsExact.congr ?_ (List.append_nil _)
            exact (LeCreateBig_read_reads c h).bind (ReadsExact.pure _))
    case isFalse => cases hw
  | LeRemoveIsoDataPath c =>
    simp only [Command.to_bytes, Command.build] at hw
    rw [LeRemoveIsoDataPath_write_append] at hw
    split at hw
    case isTrue hcond =>
      have hbs := (Option.some.injEq _ _).mp hw
      have hblen : (LeRemoveIsoDataPath.write [] c).length = 3 := by
        simp [LeRemoveIsoDataPath.write, write_u8, write_u16, write_u32]
      have hshape : bs = OpCode.write [] LeRemoveIsoDataPath.OPCODE ++
          ([(LeRemoveIsoDataPath.write [] c).length] ++ LeRemoveIsoDataPath.write [] c) := by
        rw [← hbs]
        simp [OpCode.write, write_u16, write_u32, write_u8, List.set, hblen]
      rw [hshape]
      exact Command.from_bytes_build _ (by decide) (Command.LeRemoveIsoDataPath c) (LeRemoveIsoDataPath.write [] c)
        (by rw [hblen]; omega)
        (by rw [Command_dispatch_RemovePath]
            refine ReadsExact.congr ?_ (List.append_nil _)
            exact (LeRemoveIsoDataPath_read_reads c h).bind (ReadsExact.pure _))
    case isFalse => cases hw
  | LeSetCigParameters c =>
    simp only [Command.to_bytes, Command.build] at hw
    rw [LeSetCigParameters_write_append] at hw
    cases hbody : LeSetCigParameters.write [] c with
    | none => rw [hbody] at hw; cases hw
    | some body =>
      rw [hbody] at hw
      simp only [Option.map_some'] at hw
      split at hw
      case isTrue hcond =>
        have hbs := (Option.some.injEq _ _).mp hw
        have hblen : body.length ≤ 255 := by
          simp only [OpCode.write, write_u8, write_u16, write_u32, List.length_append,
            List.append_eq, List.nil_append, List.singleton_append, List.length_cons] at hcond
          omega
        have hshape : bs = OpCode.write [] LeSetCigParameters.OPCODE ++
            ([body.length] ++ body) := by
          rw [← hbs]
          simp [OpCode.write, write_u16, write_u32, write_u8, List.set]
        rw [hshape]
        exact Command.from_bytes_build _ (by decide) (Command.LeSetCigParameters c) body hblen
          (by rw [Command_dispatch_SetCig]
              refine ReadsExact.congr ?_ (List.append_nil _)
              exact (LeSetCigParameters_read_reads c h body hbody).bind (ReadsExact.pure _))
      case isFalse => cases hw
  | LeCreateCis c =>
    simp only [Command.to_bytes, Command.build] at hw
    rw [LeCreateCis_write_append] at hw
    cases hbody : LeCreateCis.write [] c with
    | none => rw [hbody] at hw; cases hw
    | some body =>
      rw [hbody] at hw
      simp only [Option.map_some'] at hw
      split at hw
      case isTrue hcond =>
        have hbs := (Option.some.injEq _ _).mp hw
        have hblen : body.length ≤ 255 := by
          simp only [OpCode.write, write_u8, write_u16, write_u32, List.length_append,
            List.append_eq, List.nil_append, List.singleton_append, List.length_cons] at hcond
          omega
        have hshape : bs = OpCode.write [] LeCreateCis.OPCODE ++
            ([body.length] ++ body) := by
          rw [← hbs]
          simp [OpCode.write, write_u16, write_u32, write_u8, List.set]
        rw [hshape]
        exact Command.from_bytes_build _ (by decide) (Command.LeCreateCis c) body hblen
          (by rw [Command.dispatch_CreateCis]
              refine ReadsExact.congr ?_ (List.append_nil _)
              exact (LeCreateCis_read_reads c h body hbody).bind (ReadsExact.pure _))
      case isFalse => cases hw
  | LeSetupIsoDataPath c =>
    simp only [Command.to_bytes, Command.build] at hw
    rw [LeSetupIsoDataPath_write_append] at hw
    cases hbody : LeSetupIsoDataPath.write [] c with
    | none => rw [hbody] at hw; cases hw
    | some body =>
      rw [hbody] at hw
      simp only [Option.map_some'] at hw
      split at hw
      case isTrue hcond =>
        have hbs := (Option.some.injEq _ _).mp hw
        have hblen : body.length ≤ 255 := by
          simp only [OpCode.write, write_u8, write_u16, write_u32, List.length_append,
            List.append_eq, List.nil_append, List.singleton_append, List.length_cons] at hcond
          omega
        have hshape : bs = OpCode.write [] LeSetupIsoDataPath.OPCODE ++
            ([body.length] ++ body) := by
          rw [← hbs]
          simp [OpCode.write, write_u16, write_u32, write_u8, List.set]
        rw [hshape]
        exact Command.from_bytes_build _ (by decide) (Command.LeSetupIsoDataPath c) body hblen
          (by rw [Command_dispatch_SetupPath]
              refine ReadsExact.congr ?_ (List.append_nil _)
              exact (LeSetupIsoDataPath_read_reads c h body hbody).bind (ReadsExact.pure _))
      case isFalse => cases hw
  | Unknown opcode => cases hw

/-! ## Event packets (src/offload/hci/event.rs, `Event`) -/

inductive Event
  | DisconnectionComplete (e : DisconnectionComplete)
  | CommandComplete (e : CommandComplete)
  | CommandStatus (e : CommandStatus)
  | NumberOfCompletedPackets (e : NumberOfCompletedPackets)
  | LeCisEstablished (e : LeCisEstablished)
  | LeCreateBigComplete (e : LeCreateBigComplete)
  | LeTerminateBigComplete (e : LeTerminateBigComplete)
  | Unknown (code : Code)
deriving DecidableEq

def Event.wf : Event → Prop
  | .DisconnectionComplete e => e.wf
  | .CommandComplete e => e.wf
  | .CommandStatus e => e.wf
  | .NumberOfCompletedPackets e => e.wf
  | .LeCisEstablished e => e.wf
  | .LeCreateBigComplete e => e.wf
  | .LeTerminateBigComplete e => e.wf
  | .Unknown code => code.code < 2 ^ 8

instance : ∀ x : Event, Decidable x.wf
  | .DisconnectionComplete e => inferInstanceAs (Decidable e.wf)
  | .CommandComplete e => inferInstanceAs (Decidable e.wf)
  | .CommandStatus e => inferInstanceAs (Decidable e.wf)
  | .NumberOfCompletedPackets e => inferInstanceAs (Decidable e.wf)
  | .LeCisEstablished e => inferInstanceAs (Decidable e.wf)
  | .LeCreateBigComplete e => inferInstanceAs (Decidable e.wf)
  | .LeTerminateBigComplete e => inferInstanceAs (Decidable e.wf)
  | .Unknown _ => Nat.decLt _ _

/-- Embedding of `Event::dispatch_read`. -/
def Event.dispatch_read (code : Code) : Reader → Option Event × Reader :=
  if code = CommandComplete.CODE then
    rbind CommandComplete.read fun e => rpure (Event.CommandComplete e)
  else if code = CommandStatus.CODE then
    rbind CommandStatus.read fun e => rpure (Event.CommandStatus e)
  else if code = DisconnectionComplete.CODE then
    rbind DisconnectionComplete.read fun e => rpure (Event.DisconnectionComplete e)
  else if code = NumberOfCompletedPackets.CODE then
    rbind NumberOfCompletedPackets.read fun e => rpure (Event.NumberOfCompletedPackets e)
  else if code = LeCisEstablished.CODE then
    rbind LeCisEstablished.read fun e => rpure (Event.LeCisEstablished e)
  else if code = LeCreateBigComplete.CODE then
    rbind LeCreateBigComplete.read fun e => rpure (Event.LeCreateBigComplete e)
  else if code = LeTerminateBigComplete.CODE then
    rbind LeTerminateBigComplete.read fun e => rpure (Event.LeTerminateBigComplete e)
  else rpure (Event.Unknown code)

/-- Embedding of the header parser nested in `Event::from_bytes`: a
1-byte event code, a 1-byte parameter length, a sub-reader over
exactly `len` bytes, and for LE-Meta events the sub-code read from the
sub-reader. -/
def Event.parse_packet (data : List Nat) : Option (Code × Reader) :=
  match Reader.read_u8 (Reader.new data) with
  | (none, _) => none
  | (some code, r) =>
    match r.read_u8 with
    | (none, _) => none
    | (some len, r) =>
      match r.get len with
      | (none, _) => none
      | (some window, _) =>
        let r := Reader.new window
        if code = Code.LE_META then
          match r.read_u8 with
          | (none, _) => none
          | (some sub, r) => some (⟨Code.LE_META, some sub⟩, r)
        else some (⟨code, none⟩, r)

/-- Embedding of `Event::from_bytes`. -/
def Event.from_bytes (data : List Nat) : Except (Option Code) Event :=
  match Event.parse_packet data with
  | none => .error none
  | some (code, r) =>
    match (Event.dispatch_read code r).1 with
    | some e => .ok e
    | none => .error (some code)

/-- Embedding of the generic `Event::to_bytes` builder: event code,
reserved length byte, optional sub-code, body, then the length byte
back-patched (`vec[1] = (vec.len() - 2).try_into().unwrap()`). -/
def Event.build (code : Code) (writeBody : List Nat → Option (List Nat)) :
    Option (List Nat) :=
  let w := write_u8 [] code.code
  let w := write_u8 w 0
  let w := match code.sub with
    | some sub => write_u8 w sub
    | none => w
  match writeBody w with
  | none => none
  | some w => if w.length - 2 ≤ 255 then some (w.set 1 (w.length - 2)) else none

def Event.to_bytes : Event → Option (List Nat)
  | .DisconnectionComplete e =>
    Event.build DisconnectionComplete.CODE (fun w => some (DisconnectionComplete.write w e))
  | .CommandComplete e => Event.build CommandComplete.CODE (fun w => CommandComplete.write w e)
  | .CommandStatus e => Event.build CommandStatus.CODE (fun w => some (CommandStatus.write w e))
  | .NumberOfCompletedPackets e =>
    Event.build NumberOfCompletedPackets.CODE (fun w => NumberOfCompletedPackets.write w e)
  | .LeCisEstablished e =>
    Event.build LeCisEstablished.CODE (fun w => some (LeCisEstablished.write w e))
  | .LeCreateBigComplete e =>
    Event.build LeCreateBigComplete.CODE (fun w => LeCreateBigComplete.write w e)
  | .LeTerminateBigComplete e =>
    Event.build LeTerminateBigComplete.CODE (fun w => some (LeTerminateBigComplete.write w e))
  | .Unknown _ => none

theorem Event.dispatch_CC :
    Event.dispatch_read CommandComplete.CODE
      = rbind CommandComplete.read fun e => rpure (Event.CommandComplete e) := by
  rw [Event.dispatch_read, if_pos rfl]

theorem Event.dispatch_CS :
    Event.dispatch_read CommandStatus.CODE
      = rbind CommandStatus.read fun e => rpure (Event.CommandStatus e) := by
  rw [Event.dispatch_read, if_neg (by decide), if_pos rfl]

theorem Event.dispatch_DC :
    Event.dispatch_read DisconnectionComplete.CODE
      = rbind DisconnectionComplete.read fun e => rpure (Event.DisconnectionComplete e) := by
  rw [Event.dispatch_read, if_neg (by decide), if_neg (by decide), if_pos rfl]

theorem Event.dispatch_NoCP :
    Event.dispatch_read NumberOfCompletedPackets.CODE
      = rbind NumberOfCompletedPackets.read fun e =>
          rpure (Event.NumberOfCompletedPackets e) := by
  rw [Event.dispatch_read, if_neg (by decide), if_neg (by decide), if_neg (by decide),
    if_pos rfl]

theorem Event.dispatch_CisEst :
    Event.dispatch_read LeCisEstablished.CODE
      = rbind LeCisEstablished.read fun e => rpure (Event.LeCisEstablished e) := by
  rw [Event.dispatch_read, if_neg (by decide), if_neg (by decide), if_neg (by decide),
    if_neg (by decide), if_pos rfl]

theorem Event.dispatch_BigC :
    Event.dispatch_read LeCreateBigComplete.CODE
      = rbind LeCreateBigComplete.read fun e => rpure (Event.LeCreateBigComplete e) := by
  rw [Event.dispatch_read, if_neg (by decide), if_neg (by decide), if_neg (by decide),
    if_neg (by decide), if_neg (by decide), if_pos rfl]

theorem Event.dispatch_TermBig :
    Event.dispatch_read LeTerminateBigComplete.CODE
      = rbind LeTerminateBigComplete.read fun e => rpure (Event.LeTerminateBigComplete e) := by
  rw [Event.dispatch_read, if_neg (by decide), if_neg (by decide), if_neg (by decide),
    if_neg (by decide), if_neg (by decide), if_neg (by decide), if_pos rfl]

theorem write_u8_small (v : Nat) (hv : v < 256) : write_u8 [] v = [v] := by
  simp [write_u8, write_u32, and_255_eq, Nat.mod_eq_of_lt hv,
    Nat.mod_eq_of_lt (show v < 2 ^ 8 by omega)]

/-- Parsing a framed non-meta event packet. -/
theorem Event.from_bytes_build_plain (code : Nat) (hcode : code < 2 ^ 8)
    (hmeta : code ≠ Code.LE_META) (e : Event) (body : List Nat) (hlen : body.length ≤ 255)
    (hF : ReadsExact (Event.dispatch_read ⟨code, none⟩) e body) :
    Event.from_bytes (code :: body.length :: body) = .ok e := by
  set bs := code :: body.length :: body with hbs
  have hbslen : bs.length = 2 + body.length := by rw [hbs]; simp; omega
  have hlt : body.length < 2 ^ 8 := by omega
  have hlt256 : body.length < 256 := by omega
  have hc : Reader.read_u8 ⟨bs, 0⟩ = (some code, ⟨bs, 1⟩) := by
    have := read_u8_reads code hcode bs 0 (body.length :: body) (by omega)
      (by rw [hbs, write_u8_small code (by omega)]; rfl)
    simpa [write_u8_small code (show code < 256 by omega)] using this
  have hlenr : Reader.read_u8 ⟨bs, 1⟩ = (some body.length, ⟨bs, 2⟩) := by
    have := read_u8_reads body.length hlt bs 1 body (by omega)
      (by rw [hbs, write_u8_small body.length hlt256]; rfl)
    simpa [write_u8_small body.length hlt256] using this
  have hdrop2 : bs.drop 2 = body := by rw [hbs]; rfl
  have hget : Reader.get ⟨bs, 2⟩ body.length = (some body, ⟨bs, 2 + body.length⟩) := by
    have := get_reads body bs 2 [] (by omega) (by rw [hdrop2]; simp)
    simpa using this
  have hpp : Event.parse_packet bs = some (⟨code, none⟩, Reader.new body) := by
    simp only [Event.parse_packet, Reader.new, hc, hlenr, hget]
    rw [if_neg hmeta]
  have hdisp : (Event.dispatch_read ⟨code, none⟩ ⟨body, 0⟩).1 = some e := by
    rw [hF body 0 [] (by omega) (by simp)]
  simp only [Event.from_bytes, hpp, Reader.new, hdisp]

/-- Parsing a framed LE-Meta event packet. -/
theorem Event.from_bytes_build_meta (sub : Nat) (hsub : sub < 2 ^ 8)
    (e : Event) (body : List Nat) (hlen : body.length ≤ 254)
    (hF : ReadsExact (Event.dispatch_read ⟨Code.LE_META, some sub⟩) e body) :
    Event.from_bytes (Code.LE_META :: (body.length + 1) :: sub :: body) = .ok e := by
  set bs := Code.LE_META :: (body.length + 1) :: sub :: body with hbs
  have hbslen : bs.length = 3 + body.length := by rw [hbs]; simp; omega
  have hlt : body.length + 1 < 2 ^ 8 := by omega
  have hc : Reader.read_u8 ⟨bs, 0⟩ = (some Code.LE_META, ⟨bs, 1⟩) := by
    have := read_u8_reads Code.LE_META (by norm_num [Code.LE_META]) bs 0
      ((body.length + 1) :: sub :: body) (by omega)
      (by rw [hbs, write_u8_small Code.LE_META (by norm_num [Code.LE_META])]; rfl)
    simpa [write_u8_small Code.LE_META (by norm_num [Code.LE_META])] using this
  have hlenr : Reader.read_u8 ⟨bs, 1⟩ = (some (body.length + 1), ⟨bs, 2⟩) := by
    have := read_u8_reads (body.length + 1) hlt bs 1 (sub :: body) (by omega)
      (by rw [hbs, write_u8_small (body.length + 1) (by omega)]; rfl)
    simpa [write_u8_small (body.length + 1) (show body.length + 1 < 256 by omega)] using this
  have hdrop2 : bs.drop 2 = sub :: body := by rw [hbs]; rfl
  have hget : Reader.get ⟨bs, 2⟩ (body.length + 1)
      = (some (sub :: body), ⟨bs, 2 + (body.length + 1)⟩) := by
    have := get_reads (sub :: body) bs 2 [] (by omega) (by rw [hdrop2]; simp)
    simpa using this
  have hsubr : Reader.read_u8 ⟨sub :: body, 0⟩ = (some sub, ⟨sub :: body, 1⟩) := by
    have := read_u8_reads sub hsub (sub :: body) 0 body (by simp)
      (by rw [write_u8_small sub (by omega)]; rfl)
    simpa [write_u8_small sub (show sub < 256 by omega)] using this
  have hpp : Event.parse_packet bs
      = some (⟨Code.LE_META, some sub⟩, ⟨sub :: body, 1⟩) := by
    simp only [Event.parse_packet, Reader.new, hc, hlenr, hget, hsubr]
    simp
  have hdisp : (Event.dispatch_read ⟨Code.LE_META, some sub⟩ ⟨sub :: body, 1⟩).1
      = some e := by
    rw [hF (sub :: body) 1 [] (by simp) (by simp)]
  simp only [Event.from_bytes, hpp, hdisp]

theorem len3_sub (n : Nat) : 3 + n - 2 = n + 1 := by omega

theorem len3_sub' (n : Nat) : n + 3 - 2 = n + 1 := by omega

theorem Event_from_to (e : Event) (h : e.wf) (bs : List Nat)
    (hw : Event.to_bytes e = some bs) : Event.from_bytes bs = .ok e := by
  cases e with
  | DisconnectionComplete e =>
    simp only [Event.to_bytes, Event.build, DisconnectionComplete.CODE] at hw
    rw [DisconnectionComplete_write_append] at hw
    split at hw
    case isTrue hcond =>
      have hbs := (Option.some.injEq _ _).mp hw
      have hshape : bs = 0x05 :: (DisconnectionComplete.write [] e).length ::
          DisconnectionComplete.write [] e := by
        rw [← hbs]
        simp [write_u8, write_u32, List.set, and_255_eq]
      rw [hshape]
      refine Event.from_bytes_build_plain 0x05 (by norm_num) (by norm_num [Code.LE_META])
        (Event.DisconnectionComplete e) _ ?_ ?_
      · simp only [write_u8, write_u32, List.length_append, List.append_eq, List.nil_append,
          List.singleton_append, List.length_cons] at hcond
        omega
      · show ReadsExact (Event.dispatch_read DisconnectionComplete.CODE) _ _
        rw [Event.dispatch_DC]
        refine ReadsExact.congr ?_ (List.append_nil _)
        exact (DisconnectionComplete_read_reads e h).bind (ReadsExact.pure _)
    case isFalse => cases hw
  | CommandStatus e =>
    simp only [Event.to_bytes, Event.build, CommandStatus.CODE] at hw
    rw [CommandStatus_write_append] at hw
    split at hw
    case isTrue hcond =>
      have hbs := (Option.some.injEq _ _).mp hw
      have hshape : bs = 0x0f :: (CommandStatus.write [] e).length ::
          CommandStatus.write [] e := by
        rw [← hbs]
        simp [write_u8, write_u32, List.set, and_255_eq]
      rw [hshape]
      refine Event.from_bytes_build_plain 0x0f (by norm_num) (by norm_num [Code.LE_META])
        (Event.CommandStatus e) _ ?_ ?_
      · simp only [write_u8, write_u32, List.length_append, List.append_eq, List.nil_append,
          List.singleton_append, List.length_cons] at hcond
        omega
      · show ReadsExact (Event.dispatch_read CommandStatus.CODE) _ _
        rw [Event.dispatch_CS]
        refine ReadsExact.congr ?_ (List.append_nil _)
        exact (CommandStatus_read_reads e h).bind (ReadsExact.pure _)
    case isFalse => cases hw
  | CommandComplete e =>
    simp only [Event.to_bytes, Event.build, CommandComplete.CODE] at hw
    rw [CommandComplete_write_append] at hw
    cases hbody : CommandComplete.write [] e with
    | none => rw [hbody] at hw; cases hw
    | some body =>
      rw [hbody] at hw
      simp only [Option.map_some'] at hw
      split at hw
      case isTrue hcond =>
        have hbs := (Option.some.injEq _ _).mp hw
        have hshape : bs = 0x0e :: body.length :: body := by
          rw [← hbs]
          simp [write_u8, write_u32, List.set, and_255_eq]
        rw [hshape]
        refine Event.from_bytes_build_plain 0x0e (by norm_num) (by norm_num [Code.LE_META])
          (Event.CommandComplete e) body ?_ ?_
        · simp only [write_u8, write_u32, List.length_append, List.append_eq, List.nil_append,
            List.singleton_append, List.length_cons] at hcond
          omega
        · show ReadsExact (Event.dispatch_read CommandComplete.CODE) _ _
          rw [Event.dispatch_CC]
          refine ReadsExact.congr ?_ (List.append_nil _)
          exact (CommandComplete_read_reads e h body hbody).bind (ReadsExact.pure _)
      case isFalse => cases hw
  | NumberOfCompletedPackets e =>
    simp only [Event.to_bytes, Event.build, NumberOfCompletedPackets.CODE] at hw
    rw [NumberOfCompletedPackets_write_append] at hw
    cases hbody : NumberOfCompletedPackets.write [] e with
    | none => rw [hbody] at hw; cases hw
    | some body =>
      rw [hbody] at hw
      simp only [Option.map_some'] at hw
      split at hw
      case isTrue hcond =>
        have hbs := (Option.some.injEq _ _).mp hw
        have hshape : bs = 0x13 :: body.length :: body := by
          rw [← hbs]
          simp [write_u8, write_u32, List.set, and_255_eq]
        rw [hshape]
        refine Event.from_bytes_build_plain 0x13 (by norm_num) (by norm_num [Code.LE_META])
          (Event.NumberOfCompletedPackets e) body ?_ ?_
        · simp only [write_u8, write_u32, List.length_append, List.append_eq, List.nil_append,
            List.singleton_append, List.length_cons] at hcond
          omega
        · show ReadsExact (Event.dispatch_read NumberOfCompletedPackets.CODE) _ _
          rw [Event.dispatch_NoCP]
          refine ReadsExact.congr ?_ (List.append_nil _)
          exact (NumberOfCompletedPackets_read_reads e h body hbody).bind (ReadsExact.pure _)
      case isFalse => cases hw
  | LeCisEstablished e =>
    simp only [Event.to_bytes, Event.build, LeCisEstablished.CODE] at hw
    rw [LeCisEstablished_write_append] at hw
    split at hw
    case isTrue hcond =>
      have hbs := (Option.some.injEq _ _).mp hw
      have hshape : bs = Code.LE_META :: ((LeCisEstablished.write [] e).length + 1) ::
          0x19 :: LeCisEstablished.write [] e := by
        rw [← hbs]
        simp [Code.LE_META, write_u8, write_u32, List.set, len3_sub, len3_sub', and_255_eq]
      rw [hshape]
      refine Event.from_bytes_build_meta 0x19 (by norm_num)
        (Event.LeCisEstablished e) _ ?_ ?_
      · simp only [Code.LE_META, write_u8, write_u32, List.length_append, List.append_eq,
          List.nil_append, List.singleton_append, List.length_cons] at hcond
        omega
      · show ReadsExact (Event.dispatch_read LeCisEstablished.CODE) _ _
        rw [Event.dispatch_CisEst]
        refine ReadsExact.congr ?_ (List.append_nil _)
        exact (LeCisEstablished_read_reads e h).bind (ReadsExact.pure _)
    case isFalse => cases hw
  | LeTerminateBigComplete e =>
    simp only [Event.to_bytes, Event.build, LeTerminateBigComplete.CODE] at hw
    rw [LeTerminateBigComplete_write_append] at hw
    split at hw
    case isTrue hcond =>
      have hbs := (Option.some.injEq _ _).mp hw
      have hshape : bs = Code.LE_META :: ((LeTerminateBigComplete.write [] e).length + 1) ::
          0x1c :: LeTerminateBigComplete.write [] e := by
        rw [← hbs]
        simp [Code.LE_META, write_u8, write_u32, List.set, len3_sub, len3_sub', and_255_eq]
      rw [hshape]
      refine Event.from_bytes_build_meta 0x1c (by norm_num)
        (Event.LeTerminateBigComplete e) _ ?_ ?_
      · simp only [Code.LE_META, write_u8, write_u32, List.length_append, List.append_eq,
          List.nil_append, List.singleton_append, List.length_cons] at hcond
        omega
      · show ReadsExact (Event.dispatch_read LeTerminateBigComplete.CODE) _ _
        rw [Event.dispatch_TermBig]
        refine ReadsExact.congr ?_ (List.append_nil _)
        exact (LeTerminateBigComplete_read_reads e h).bind (ReadsExact.pure _)
    case isFalse => cases hw
  | LeCreateBigComplete e =>
    simp only [Event.to_bytes, Event.build, LeCreateBigComplete.CODE] at hw
    rw [LeCreateBigComplete_write_append] at hw
    cases hbody : LeCreateBigComplete.write [] e with
    | none => rw [hbody] at hw; cases hw
    | some body =>
      rw [hbody] at hw
      simp only [Option.map_some'] at hw
      split at hw
      case isTrue hcond =>
        have hbs := (Option.some.injEq _ _).mp hw
        have hshape : bs = Code.LE_META :: (body.length + 1) :: 0x1b :: body := by
          rw [← hbs]
          simp [Code.LE_META, write_u8, write_u32, List.set, len3_sub, len3_sub', and_255_eq]
        rw [hshape]
        refine Event.from_bytes_build_meta 0x1b (by norm_num)
          (Event.LeCreateBigComplete e) body ?_ ?_
        · simp only [Code.LE_META, write_u8, write_u32, List.length_append, List.append_eq,
            List.nil_append, List.singleton_append, List.length_cons] at hcond
          omega
        · show ReadsExact (Event.dispatch_read LeCreateBigComplete.CODE) _ _
          rw [Event.dispatch_BigC]
          refine ReadsExact.congr ?_ (List.append_nil _)
          exact (LeCreateBigComplete_read_reads e h body hbody).bind (ReadsExact.pure _)
      case isFalse => cases hw
  | Unknown code => cases hw

/-! ## ISO data packets (src/offload/hci/data.rs) -/

structure IsoSduHeader where
  timestamp : Option Nat
  sequence_number : Nat
  sdu_length : Nat
  status : Nat
deriving DecidableEq

inductive IsoSduFragment
  | First (hdr : IsoSduHeader) (is_last : Bool)
  | Continue (is_last : Bool)
deriving DecidableEq

structure IsoData where
  connection_handle : Nat
  sdu_fragment : IsoSduFragment
  payload : List Nat
deriving DecidableEq

def IsoSduHeader.wf (hdr : IsoSduHeader) : Prop :=
  (∀ t ∈ hdr.timestamp, t < 2 ^ 32) ∧ hdr.sequence_number < 2 ^ 16 ∧
  hdr.sdu_length < 2 ^ 16 ∧ hdr.status < 2 ^ 16

instance : ∀ x : IsoSduHeader, Decidable x.wf :=
  fun x => by unfold IsoSduHeader.wf; infer_instance

def IsoData.wf (x : IsoData) : Prop :=
  x.connection_handle < 2 ^ 16 ∧
  (match x.sdu_fragment with
   | .First hdr _ => hdr.wf
   | .Continue _ => True)

instance : ∀ x : IsoData, Decidable x.wf
  | ⟨h, .First hdr _, _⟩ => inferInstanceAs (Decidable (h < 2 ^ 16 ∧ hdr.wf))
  | ⟨h, .Continue _, _⟩ => inferInstanceAs (Decidable (h < 2 ^ 16 ∧ True))

/-- Embedding of `IsoData::sdu_header_len`. -/
def IsoData.sdu_header_len : IsoSduFragment → Nat
  | .First hdr _ => 4 * (1 + (if hdr.timestamp.isSome then 1 else 0))
  | .Continue _ => 0

/-- Embedding of `IsoSduHeader::parse`. -/
def IsoSduHeader.parse (ts_present : Bool) (r : Reader) : Option IsoSduHeader × Reader :=
  let step :=
    match ts_present with
    | true =>
      match r.read_u32 4 with
      | (none, r) => (none, r)
      | (some t, r) => (some (some t), r)
    | false => (some none, r)
  match step with
  | (none, r) => (none, r)
  | (some timestamp, r) =>
    match r.read_u16 with
    | (none, r) => (none, r)
    | (some sequence_number, r) =>
      match r.read_u16 with
      | (none, r) => (none, r)
      | (some v, r) =>
        (some { timestamp, sequence_number, sdu_length := v &&& (2 ^ 12 - 1),
                status := (v >>> (12 + 2)) &&& (2 ^ 2 - 1) }, r)

/-- Embedding of `IsoData::parse` (the `unreachable!()` branch of the
2-bit packet-boundary flag is a failure). -/
def IsoData.parse (r : Reader) : Option IsoData × Reader :=
  match r.read_u16 with
  | (none, r) => (none, r)
  | (some v1, r) =>
    let connection_handle := v1 &&& (2 ^ 12 - 1)
    let pb_flag := (v1 >>> 12) &&& (2 ^ 2 - 1)
    let ts_present := (v1 >>> (12 + 2)) &&& (2 ^ 1 - 1)
    match r.read_u16 with
    | (none, r) => (none, r)
    | (some v2, r) =>
      let data_len := v2 &&& (2 ^ 14 - 1)
      let frag : Option IsoSduFragment × Reader :=
        match pb_flag with
        | 0b00 =>
          match IsoSduHeader.parse (ts_present != 0) r with
          | (none, r) => (none, r)
          | (some hdr, r) => (some (.First hdr false), r)
        | 0b10 =>
          match IsoSduHeader.parse (ts_present != 0) r with
          | (none, r) => (none, r)
          | (some hdr, r) => (some (.First hdr true), r)
        | 0b01 => (some (.Continue false), r)
        | 0b11 => (some (.Continue true), r)
        | _ => (none, r)
      match frag with
      | (none, r) => (none, r)
      | (some sdu_fragment, r) =>
        if data_len < IsoData.sdu_header_len sdu_fragment then (none, r)
        else
          match r.get (data_len - IsoData.sdu_header_len sdu_fragment) with
          | (none, r) => (none, r)
          | (some payload, r) => (some { connection_handle, sdu_fragment, payload }, r)

/-- Embedding of `IsoData::from_bytes`. -/
def IsoData.from_bytes (data : List Nat) : Option IsoData :=
  (IsoData.parse (Reader.new data)).1

/-- Embedding of `impl Write for IsoSduHeader`
(`pack!((sdu_length, 12), (0, 2), (status, 2))` asserts its fields). -/
def IsoSduHeader.write (w : List Nat) (x : IsoSduHeader) : Option (List Nat) :=
  let w :=
    match x.timestamp with
    | some timestamp => write_u32 4 w timestamp
    | none => w
  let w := write_u16 w x.sequence_number
  if x.sdu_length < 2 ^ 12 ∧ x.status < 2 ^ 2 then
    some (write_u16 w (x.sdu_length ||| (0 <<< 12) ||| (x.status <<< (12 + 2))))
  else none

/-- Embedding of `impl Write for IsoData`
(`pack!((connection_handle, 12), (pb_flag, 2), (ts_present, 1))` and the
14-bit packet length assert). -/
def IsoData.write (w : List Nat) (x : IsoData) : Option (List Nat) :=
  let pb_hdr : Nat × Option IsoSduHeader :=
    match x.sdu_fragment with
    | .First hdr false => (0b00, some hdr)
    | .First hdr true => (0b10, some hdr)
    | .Continue false => (0b01, none)
    | .Continue true => (0b11, none)
  let ts_present : Nat :=
    match pb_hdr.2 with
    | some hdr => if hdr.timestamp.isSome then 1 else 0
    | none => 0
  if x.connection_handle < 2 ^ 12 then
    let w := write_u16 w
      (x.connection_handle ||| (pb_hdr.1 <<< 12) ||| (ts_present <<< (12 + 2)))
    let packet_len := IsoData.sdu_header_len x.sdu_fragment + x.payload.length
    if packet_len < 2 ^ 14 then
      let w := write_u16 w packet_len
      match (match pb_hdr.2 with
             | some hdr => IsoSduHeader.write w hdr
             | none => some w) with
      | none => none
      | some w => some (put w x.payload)
    else none
  else none

/-- Embedding of `IsoData::to_bytes`. -/
def IsoData.to_bytes (x : IsoData) : Option (List Nat) :=
  IsoData.write [] x

/-- Embedding of `IsoData::new`: a complete SDU with no timestamp. -/
def IsoData.new (connection_handle : Nat) (sequence_number : Nat) (data : List Nat) :
    IsoData :=
  { connection_handle,
    sdu_fragment := .First
      { timestamp := none, sequence_number, sdu_length := data.length, status := 0 } true,
    payload := data }

theorem or_shift_add (a b k : Nat) (ha : a < 2 ^ k) : a ||| (b <<< k) = a + b * 2 ^ k := by
  rw [Nat.shiftLeft_eq, Nat.lor_comm, show b * 2 ^ k = 2 ^ k * b by ring]
  exact ((Nat.mul_add_lt_is_or ha b).symm).trans (Nat.add_comm _ _)

theorem pack12_2_1 (h p t : Nat) (hh : h < 2 ^ 12) (hp : p < 4) (_ht : t < 2) :
    h ||| (p <<< 12) ||| (t <<< (12 + 2)) = h + p * 2 ^ 12 + t * 2 ^ 14 := by
  rw [or_shift_add h p 12 hh, or_shift_add _ t 14 (by omega)]

theorem pack12_2_2 (s st : Nat) (hs : s < 2 ^ 12) (_hst : st < 4) :
    s ||| (0 <<< 12) ||| (st <<< (12 + 2)) = s + st * 2 ^ 14 := by
  rw [or_shift_add s 0 12 hs, or_shift_add _ st 14 (by omega)]
  omega

theorem and_mask_eq_mod (v k : Nat) : v &&& (2 ^ k - 1) = v % 2 ^ k := by
  have := Nat.and_pow_two_sub_one_eq_mod v k
  omega

theorem shift_and_eq (v : Nat) (i k : Nat) :
    (v >>> i) &&& (2 ^ k - 1) = (v / 2 ^ i) % 2 ^ k := by
  rw [Nat.shiftRight_eq_div_pow, and_mask_eq_mod]

theorem write_u16_append (w : List Nat) (v : Nat) : write_u16 w v = w ++ write_u16 [] v :=
  write_u32_append 2 w v

theorem read_u16_at (v : Nat) (hv : v < 2 ^ 16) (d : List Nat) (p : Nat) (rest : List Nat)
    (hp : p ≤ d.length) (hdrop : d.drop p = write_u16 [] v ++ rest) :
    Reader.read_u16 ⟨d, p⟩ = (some v, ⟨d, p + 2⟩) := by
  have hres := read_u16_reads v hv d p rest hp hdrop
  simpa [write_u16] using hres

theorem read_u32_at (N v : Nat) (hv : v < 2 ^ (8 * N)) (d : List Nat) (p : Nat)
    (rest : List Nat) (hp : p ≤ d.length) (hdrop : d.drop p = write_u32 N [] v ++ rest) :
    Reader.read_u32 N ⟨d, p⟩ = (some v, ⟨d, p + N⟩) := by
  have hres := read_u32_reads N v hv d p rest hp hdrop
  simpa using hres

theorem get_at (bs : List Nat) (d : List Nat) (p : Nat) (rest : List Nat)
    (hp : p ≤ d.length) (hdrop : d.drop p = bs ++ rest) :
    Reader.get ⟨d, p⟩ bs.length = (some bs, ⟨d, p + bs.length⟩) :=
  get_reads bs d p rest hp hdrop

theorem IsoData.parse_continue (d : List Nat) (v1 plen : Nat) (payload : List Nat)
    (handle : Nat) (lastb : Bool)
    (h1 : Reader.read_u16 ⟨d, 0⟩ = (some v1, ⟨d, 2⟩))
    (h2 : Reader.read_u16 ⟨d, 2⟩ = (some plen, ⟨d, 4⟩))
    (hm1 : v1 &&& (2 ^ 12 - 1) = handle)
    (hm2 : (v1 >>> 12) &&& (2 ^ 2 - 1) = if lastb then 3 else 1)
    (hm4 : plen &&& (2 ^ 14 - 1) = plen)
    (hget : Reader.get ⟨d, 4⟩ plen = (some payload, ⟨d, 4 + plen⟩)) :
    IsoData.from_bytes d = some ⟨handle, .Continue lastb, payload⟩ := by
  cases lastb with
  | false =>
    simp only [Bool.false_eq_true, if_false] at hm2
    simp only [IsoData.from_bytes, IsoData.parse, Reader.new, h1, h2, hm1, hm2,
      hm4, IsoData.sdu_header_len, Nat.sub_zero]
    rw [if_neg (by omega)]
    simp only [hget]
  | true =>
    simp only [eq_self_iff_true, if_true] at hm2
    simp only [IsoData.from_bytes, IsoData.parse, Reader.new, h1, h2, hm1, hm2,
      hm4, IsoData.sdu_header_len, Nat.sub_zero]
    rw [if_neg (by omega)]
    simp only [hget]

theorem IsoData.parse_first_none (d : List Nat) (v1 plen seq v3 : Nat) (payload : List Nat)
    (handle sdu st : Nat) (lastb : Bool)
    (h1 : Reader.read_u16 ⟨d, 0⟩ = (some v1, ⟨d, 2⟩))
    (h2 : Reader.read_u16 ⟨d, 2⟩ = (some plen, ⟨d, 4⟩))
    (hm1 : v1 &&& (2 ^ 12 - 1) = handle)
    (hm2 : (v1 >>> 12) &&& (2 ^ 2 - 1) = if lastb then 2 else 0)
    (hm3 : (v1 >>> (12 + 2)) &&& (2 ^ 1 - 1) = 0)
    (hm4 : plen &&& (2 ^ 14 - 1) = plen)
    (h3 : Reader.read_u16 ⟨d, 4⟩ = (some seq, ⟨d, 6⟩))
    (h4 : Reader.read_u16 ⟨d, 6⟩ = (some v3, ⟨d, 8⟩))
    (hm5 : v3 &&& (2 ^ 12 - 1) = sdu)
    (hm6 : (v3 >>> (12 + 2)) &&& (2 ^ 2 - 1) = st)
    (hp : ¬ plen < 4 * (1 + 0))
    (hget : Reader.get ⟨d, 8⟩ (plen - 4 * (1 + 0))
      = (some payload, ⟨d, 8 + (plen - 4 * (1 + 0))⟩)) :
    IsoData.from_bytes d = some ⟨handle, .First ⟨none, seq, sdu, st⟩ lastb, payload⟩ := by
  cases lastb with
  | false =>
    simp only [Bool.false_eq_true, if_false] at hm2
    simp only [IsoData.from_bytes, IsoData.parse, Reader.new, h1, h2, hm1, hm2, hm3, hm4,
      bne_self_eq_false, IsoSduHeader.parse, h3, h4, hm5, hm6,
      IsoData.sdu_header_len, Option.isSome_none, Bool.false_eq_true, if_false]
    rw [if_neg hp]
    simp only [hget]
  | true =>
    simp only [eq_self_iff_true, if_true] at hm2
    simp only [IsoData.from_bytes, IsoData.parse, Reader.new, h1, h2, hm1, hm2, hm3, hm4,
      bne_self_eq_false, IsoSduHeader.parse, h3, h4, hm5, hm6,
      IsoData.sdu_header_len, Option.isSome_none, Bool.false_eq_true, if_false]
    rw [if_neg hp]
    simp only [hget]

theorem IsoData.parse_first_some (d : List Nat) (v1 plen t seq v3 : Nat) (payload : List Nat)
    (handle sdu st : Nat) (lastb : Bool)
    (h1 : Reader.read_u16 ⟨d, 0⟩ = (some v1, ⟨d, 2⟩))
    (h2 : Reader.read_u16 ⟨d, 2⟩ = (some plen, ⟨d, 4⟩))
    (hm1 : v1 &&& (2 ^ 12 - 1) = handle)
    (hm2 : (v1 >>> 12) &&& (2 ^ 2 - 1) = if lastb then 2 else 0)
    (hm3 : (v1 >>> (12 + 2)) &&& (2 ^ 1 - 1) = 1)
    (hm4 : plen &&& (2 ^ 14 - 1) = plen)
    (h3 : Reader.read_u32 4 ⟨d, 4⟩ = (some t, ⟨d, 8⟩))
    (h4 : Reader.read_u16 ⟨d, 8⟩ = (some seq, ⟨d, 10⟩))
    (h5 : Reader.read_u16 ⟨d, 10⟩ = (some v3, ⟨d, 12⟩))
    (hm5 : v3 &&& (2 ^ 12 - 1) = sdu)
    (hm6 : (v3 >>> (12 + 2)) &&& (2 ^ 2 - 1) = st)
    (hp : ¬ plen < 4 * (1 + 1))
    (hget : Reader.get ⟨d, 12⟩ (plen - 4 * (1 + 1))
      = (some payload, ⟨d, 12 + (plen - 4 * (1 + 1))⟩)) :
    IsoData.from_bytes d = some ⟨handle, .First ⟨some t, seq, sdu, st⟩ lastb, payload⟩ := by
  have hbne : ((1 : Nat) != 0) = true := rfl
  cases lastb with
  | false =>
    simp only [Bool.false_eq_true, if_false] at hm2
    simp only [IsoData.from_bytes, IsoData.parse, Reader.new, h1, h2, hm1, hm2, hm3, hm4,
      hbne, IsoSduHeader.parse, h3, h4, h5, hm5, hm6,
      IsoData.sdu_header_len, Option.isSome_some, eq_self_iff_true, if_true]
    rw [if_neg hp]
    simp only [hget]
  | true =>
    simp only [eq_self_iff_true, if_true] at hm2
    simp only [IsoData.from_bytes, IsoData.parse, Reader.new, h1, h2, hm1, hm2, hm3, hm4,
      hbne, IsoSduHeader.parse, h3, h4, h5, hm5, hm6,
      IsoData.sdu_header_len, Option.isSome_some, eq_self_iff_true, if_true]
    rw [if_neg hp]
    simp only [hget]

/-- Round trip of the ISO data codec: a packet that serializes
successfully parses back to itself. -/
theorem IsoData_from_to (x : IsoData) (h : x.wf) (bs : List Nat)
    (hw : IsoData.to_bytes x = some bs) : IsoData.from_bytes bs = some x := by
  obtain ⟨handle, frag, payload⟩ := x
  obtain ⟨hhandle, hfrag⟩ := h
  cases frag with
  | Continue is_last =>
    cases is_last with
    | false =>
      simp only [IsoData.to_bytes, IsoData.write, IsoData.sdu_header_len] at hw
      split at hw
      case isFalse => cases hw
      case isTrue hh12 =>
        split at hw
        case isFalse => cases hw
        case isTrue hplen =>
          simp only [Option.some.injEq, put] at hw
          have hv1 : handle ||| ((0b01 : Nat) <<< 12) ||| (0 <<< (12 + 2))
              = handle + 1 * 2 ^ 12 + 0 * 2 ^ 14 :=
            pack12_2_1 _ _ _ hh12 (by norm_num) (by norm_num)
          rw [hv1] at hw
          have hval : handle + 1 * 2 ^ 12 + 0 * 2 ^ 14 < 2 ^ 16 := by omega
          set plen := (0 : Nat) + payload.length with hplendef
          rw [← hw]
          set d := write_u16 (write_u16 [] (handle + 1 * 2 ^ 12 + 0 * 2 ^ 14)) plen ++ payload
            with hd
          have hd' : d = write_u16 [] (handle + 1 * 2 ^ 12 + 0 * 2 ^ 14)
              ++ (write_u16 [] plen ++ payload) := by
            rw [hd, write_u16_append (write_u16 [] (handle + 1 * 2 ^ 12 + 0 * 2 ^ 14)) plen,
              List.append_assoc]
          have hdlen : d.length = 4 + payload.length := by
            rw [hd]; simp [write_u16]; try omega
          have h1 : Reader.read_u16 ⟨d, 0⟩
              = (some (handle + 1 * 2 ^ 12 + 0 * 2 ^ 14), ⟨d, 2⟩) := by
            have := read_u16_at (handle + 1 * 2 ^ 12 + 0 * 2 ^ 14) hval d 0
              (write_u16 [] plen ++ payload) (by omega) (by rw [List.drop_zero]; exact hd')
            simpa using this
          have hdrop2 : d.drop 2 = write_u16 [] plen ++ payload := by
            rw [hd']; exact List.drop_left' (by simp [write_u16])
          have h2 : Reader.read_u16 ⟨d, 2⟩ = (some plen, ⟨d, 4⟩) := by
            have := read_u16_at plen (by omega) d 2 payload (by omega) hdrop2
            simpa using this
          have hdrop4 : d.drop 4 = payload := by
            have hsplit : d.drop 4 = (d.drop 2).drop 2 := by rw [List.drop_drop]
            rw [hsplit, hdrop2]; exact List.drop_left' (by simp [write_u16])
          have hmask1 : (handle + 1 * 2 ^ 12 + 0 * 2 ^ 14) &&& (2 ^ 12 - 1) = handle := by
            rw [and_mask_eq_mod]; omega
          have hmask2 : ((handle + 1 * 2 ^ 12 + 0 * 2 ^ 14) >>> 12) &&& (2 ^ 2 - 1) = 1 := by
            rw [shift_and_eq]; omega
          have hmask4 : plen &&& (2 ^ 14 - 1) = plen := by
            rw [and_mask_eq_mod]; omega
          have hget : Reader.get ⟨d, 4⟩ plen = (some payload, ⟨d, 4 + plen⟩) := by
            have := get_at payload d 4 [] (by omega) (by rw [hdrop4]; simp)
            rw [show payload.length = plen from by omega] at this
            exact this
          exact IsoData.parse_continue d _ plen payload handle false h1 h2 hmask1 hmask2
            hmask4 hget
      | true =>
        simp only [IsoData.to_bytes, IsoData.write, IsoData.sdu_header_len] at hw
        split at hw
        case isFalse => cases hw
        case isTrue hh12 =>
          split at hw
          case isFalse => cases hw
          case isTrue hplen =>
            simp only [Option.some.injEq, put] at hw
            have hv1 : handle ||| ((0b11 : Nat) <<< 12) ||| (0 <<< (12 + 2))
                = handle + 3 * 2 ^ 12 + 0 * 2 ^ 14 :=
              pack12_2_1 _ _ _ hh12 (by norm_num) (by norm_num)
            rw [hv1] at hw
            have hval : handle + 3 * 2 ^ 12 + 0 * 2 ^ 14 < 2 ^ 16 := by omega
            set plen := (0 : Nat) + payload.length with hplendef
            rw [← hw]
            set d := write_u16 (write_u16 [] (handle + 3 * 2 ^ 12 + 0 * 2 ^ 14)) plen
              ++ payload with hd
            have hd' : d = write_u16 [] (handle + 3 * 2 ^ 12 + 0 * 2 ^ 14)
                ++ (write_u16 [] plen ++ payload) := by
              rw [hd, write_u16_append (write_u16 [] (handle + 3 * 2 ^ 12 + 0 * 2 ^ 14)) plen,
                List.append_assoc]
            have hdlen : d.length = 4 + payload.length := by
              rw [hd]; simp [write_u16]; try omega
            have h1 : Reader.read_u16 ⟨d, 0⟩
                = (some (handle + 3 * 2 ^ 12 + 0 * 2 ^ 14), ⟨d, 2⟩) := by
              have := read_u16_at (handle + 3 * 2 ^ 12 + 0 * 2 ^ 14) hval d 0
                (write_u16 [] plen ++ payload) (by omega) (by rw [List.drop_zero]; exact hd')
              simpa using this
            have hdrop2 : d.drop 2 = write_u16 [] plen ++ payload := by
              rw [hd']; exact List.drop_left' (by simp [write_u16])
            have h2 : Reader.read_u16 ⟨d, 2⟩ = (some plen, ⟨d, 4⟩) := by
              have := read_u16_at plen (by omega) d 2 payload (by omega) hdrop2
              simpa using this
            have hdrop4 : d.drop 4 = payload := by
              have hsplit : d.drop 4 = (d.drop 2).drop 2 := by rw [List.drop_drop]
              rw [hsplit, hdrop2]; exact List.drop_left' (by simp [write_u16])
            have hmask1 : (handle + 3 * 2 ^ 12 + 0 * 2 ^ 14) &&& (2 ^ 12 - 1) = handle := by
              rw [and_mask_eq_mod]; omega
            have hmask2 : ((handle + 3 * 2 ^ 12 + 0 * 2 ^ 14) >>> 12) &&& (2 ^ 2 - 1)
                = 3 := by
              rw [shift_and_eq]; omega
            have hmask4 : plen &&& (2 ^ 14 - 1) = plen := by
              rw [and_mask_eq_mod]; omega
            have hget : Reader.get ⟨d, 4⟩ plen = (some payload, ⟨d, 4 + plen⟩) := by
              have := get_at payload d 4 [] (by omega) (by rw [hdrop4]; simp)
              rw [show payload.length = plen from by omega] at this
              exact this
            exact IsoData.parse_continue d _ plen payload handle true h1 h2 hmask1 hmask2
              hmask4 hget
  | First hdr is_last =>
    obtain ⟨ts, seq, sdu, st⟩ := hdr
    obtain ⟨hts, hseq, hsdu16, hst16⟩ := hfrag
    cases ts with
    | none =>
      cases is_last with
      | false =>
        simp only [IsoData.to_bytes, IsoData.write, IsoData.sdu_header_len,
          IsoSduHeader.write, Option.isSome_none, Bool.false_eq_true, if_false] at hw
        by_cases hh12 : handle < 2 ^ 12
        case neg => rw [if_neg hh12] at hw; cases hw
        case pos =>
          rw [if_pos hh12] at hw
          by_cases hplen : 4 * (1 + 0) + payload.length < 2 ^ 14
          case neg => rw [if_neg hplen] at hw; cases hw
          case pos =>
            rw [if_pos hplen] at hw
            by_cases hguard : sdu < 2 ^ 12 ∧ st < 2 ^ 2
            case neg => rw [if_neg hguard] at hw; simp at hw
            case pos =>
              obtain ⟨hsdu, hstatus⟩ := hguard
              rw [if_pos ⟨hsdu, hstatus⟩] at hw
              simp only [Option.some.injEq, put] at hw
              have hv1 : handle ||| ((0b00 : Nat) <<< 12) ||| (0 <<< (12 + 2))
                  = handle + 0 * 2 ^ 12 + 0 * 2 ^ 14 :=
                pack12_2_1 _ _ _ hh12 (by norm_num) (by norm_num)
              have hv3 : sdu ||| ((0 : Nat) <<< 12) ||| (st <<< (12 + 2))
                  = sdu + st * 2 ^ 14 := pack12_2_2 _ _ hsdu hstatus
              rw [hv1, hv3] at hw
              have hval : handle + 0 * 2 ^ 12 + 0 * 2 ^ 14 < 2 ^ 16 := by omega
              set plen := 4 * (1 + 0) + payload.length with hplendef
              rw [← hw]
              set d := write_u16 (write_u16 (write_u16 (write_u16 []
                (handle + 0 * 2 ^ 12 + 0 * 2 ^ 14)) plen) seq) (sdu + st * 2 ^ 14) ++ payload
                with hd
              have hd' : d = write_u16 [] (handle + 0 * 2 ^ 12 + 0 * 2 ^ 14)
                  ++ (write_u16 [] plen ++ (write_u16 [] seq
                    ++ (write_u16 [] (sdu + st * 2 ^ 14) ++ payload))) := by
                rw [hd,
                  write_u16_append (write_u16 (write_u16 (write_u16 []
                    (handle + 0 * 2 ^ 12 + 0 * 2 ^ 14)) plen) seq) (sdu + st * 2 ^ 14),
                  write_u16_append (write_u16 (write_u16 []
                    (handle + 0 * 2 ^ 12 + 0 * 2 ^ 14)) plen) seq,
                  write_u16_append (write_u16 [] (handle + 0 * 2 ^ 12 + 0 * 2 ^ 14)) plen]
                simp [List.append_assoc]
              have hdlen : d.length = 8 + payload.length := by
                rw [hd]; simp [write_u16]; try omega
              have h1 : Reader.read_u16 ⟨d, 0⟩
                  = (some (handle + 0 * 2 ^ 12 + 0 * 2 ^ 14), ⟨d, 2⟩) := by
                have := read_u16_at (handle + 0 * 2 ^ 12 + 0 * 2 ^ 14) hval d 0
                  (write_u16 [] plen ++ (write_u16 [] seq
                    ++ (write_u16 [] (sdu + st * 2 ^ 14) ++ payload)))
                  (by omega) (by rw [List.drop_zero]; exact hd')
                simpa using this
              have hdrop2 : d.drop 2 = write_u16 [] plen ++ (write_u16 [] seq
                  ++ (write_u16 [] (sdu + st * 2 ^ 14) ++ payload)) := by
                rw [hd']; exact List.drop_left' (by simp [write_u16])
              have h2 : Reader.read_u16 ⟨d, 2⟩ = (some plen, ⟨d, 4⟩) := by
                have := read_u16_at plen (by omega) d 2 _ (by omega) hdrop2
                simpa using this
              have hdrop4 : d.drop 4 = write_u16 [] seq
                  ++ (write_u16 [] (sdu + st * 2 ^ 14) ++ payload) := by
                have hsplit : d.drop 4 = (d.drop 2).drop 2 := by rw [List.drop_drop]
                rw [hsplit, hdrop2]; exact List.drop_left' (by simp [write_u16])
              have h3 : Reader.read_u16 ⟨d, 4⟩ = (some seq, ⟨d, 6⟩) := by
                have := read_u16_at seq hseq d 4 _ (by omega) hdrop4
                simpa using this
              have hdrop6 : d.drop 6 = write_u16 [] (sdu + st * 2 ^ 14) ++ payload := by
                have hsplit : d.drop 6 = (d.drop 4).drop 2 := by rw [List.drop_drop]
                rw [hsplit, hdrop4]; exact List.drop_left' (by simp [write_u16])
              have h4 : Reader.read_u16 ⟨d, 6⟩ = (some (sdu + st * 2 ^ 14), ⟨d, 8⟩) := by
                have := read_u16_at (sdu + st * 2 ^ 14) (by omega) d 6 payload (by omega)
                  hdrop6
                simpa using this
              have hdrop8 : d.drop 8 = payload := by
                have hsplit : d.drop 8 = (d.drop 6).drop 2 := by rw [List.drop_drop]
                rw [hsplit, hdrop6]; exact List.drop_left' (by simp [write_u16])
              have hmask1 : (handle + 0 * 2 ^ 12 + 0 * 2 ^ 14) &&& (2 ^ 12 - 1)
                  = handle := by rw [and_mask_eq_mod]; omega
              have hmask2 : ((handle + 0 * 2 ^ 12 + 0 * 2 ^ 14) >>> 12) &&& (2 ^ 2 - 1)
                  = 0 := by rw [shift_and_eq]; omega
              have hmask3 : ((handle + 0 * 2 ^ 12 + 0 * 2 ^ 14) >>> (12 + 2)) &&& (2 ^ 1 - 1)
                  = 0 := by rw [shift_and_eq]; omega
              have hmask4 : plen &&& (2 ^ 14 - 1) = plen := by
                rw [and_mask_eq_mod]; omega
              have hmask5 : (sdu + st * 2 ^ 14) &&& (2 ^ 12 - 1) = sdu := by
                rw [and_mask_eq_mod]; omega
              have hmask6 : ((sdu + st * 2 ^ 14) >>> (12 + 2)) &&& (2 ^ 2 - 1) = st := by
                rw [shift_and_eq]; omega
              have hget : Reader.get ⟨d, 8⟩ (plen - 4 * (1 + 0))
                  = (some payload, ⟨d, 8 + (plen - 4 * (1 + 0))⟩) := by
                have := get_at payload d 8 [] (by omega) (by rw [hdrop8]; simp)
                rw [show payload.length = plen - 4 * (1 + 0) from by omega] at this
                exact this
              exact IsoData.parse_first_none d _ plen seq _ payload handle sdu st false h1
                h2 hmask1 hmask2 hmask3 hmask4 h3 h4 hmask5 hmask6 (by omega) hget
      | true =>
        simp only [IsoData.to_bytes, IsoData.write, IsoData.sdu_header_len,
          IsoSduHeader.write, Option.isSome_none, Bool.false_eq_true, if_false] at hw
        by_cases hh12 : handle < 2 ^ 12
        case neg => rw [if_neg hh12] at hw; cases hw
        case pos =>
          rw [if_pos hh12] at hw
          by_cases hplen : 4 * (1 + 0) + payload.length < 2 ^ 14
          case neg => rw [if_neg hplen] at hw; cases hw
          case pos =>
            rw [if_pos hplen] at hw
            by_cases hguard : sdu < 2 ^ 12 ∧ st < 2 ^ 2
            case neg => rw [if_neg hguard] at hw; simp at hw
            case pos =>
              obtain ⟨hsdu, hstatus⟩ := hguard
              rw [if_pos ⟨hsdu, hstatus⟩] at hw
              simp only [Option.some.injEq, put] at hw
              have hv1 : handle ||| ((0b10 : Nat) <<< 12) ||| (0 <<< (12 + 2))
                  = handle + 2 * 2 ^ 12 + 0 * 2 ^ 14 :=
                pack12_2_1 _ _ _ hh12 (by norm_num) (by norm_num)
              have hv3 : sdu ||| ((0 : Nat) <<< 12) ||| (st <<< (12 + 2))
                  = sdu + st * 2 ^ 14 := pack12_2_2 _ _ hsdu hstatus
              rw [hv1, hv3] at hw
              have hval : handle + 2 * 2 ^ 12 + 0 * 2 ^ 14 < 2 ^ 16 := by omega
              set plen := 4 * (1 + 0) + payload.length with hplendef
              rw [← hw]
              set d := write_u16 (write_u16 (write_u16 (write_u16 []
                (handle + 2 * 2 ^ 12 + 0 * 2 ^ 14)) plen) seq) (sdu + st * 2 ^ 14) ++ payload
                with hd
              have hd' : d = write_u16 [] (handle + 2 * 2 ^ 12 + 0 * 2 ^ 14)
                  ++ (write_u16 [] plen ++ (write_u16 [] seq
                    ++ (write_u16 [] (sdu + st * 2 ^ 14) ++ payload))) := by
                rw [hd,
                  write_u16_append (write_u16 (write_u16 (write_u16 []
                    (handle + 2 * 2 ^ 12 + 0 * 2 ^ 14)) plen) seq) (sdu + st * 2 ^ 14),
                  write_u16_append (write_u16 (write_u16 []
                    (handle + 2 * 2 ^ 12 + 0 * 2 ^ 14)) plen) seq,
                  write_u16_append (write_u16 [] (handle + 2 * 2 ^ 12 + 0 * 2 ^ 14)) plen]
                simp [List.append_assoc]
              have hdlen : d.length = 8 + payload.length := by
                rw [hd]; simp [write_u16]; try omega
              have h1 : Reader.read_u16 ⟨d, 0⟩
                  = (some (handle + 2 * 2 ^ 12 + 0 * 2 ^ 14), ⟨d, 2⟩) := by
                have := read_u16_at (handle + 2 * 2 ^ 12 + 0 * 2 ^ 14) hval d 0
                  (write_u16 [] plen ++ (write_u16 [] seq
                    ++ (write_u16 [] (sdu + st * 2 ^ 14) ++ payload)))
                  (by omega) (by rw [List.drop_zero]; exact hd')
                simpa using this
              have hdrop2 : d.drop 2 = write_u16 [] plen ++ (write_u16 [] seq
                  ++ (write_u16 [] (sdu + st * 2 ^ 14) ++ payload)) := by
                rw [hd']; exact List.drop_left' (by simp [write_u16])
              have h2 : Reader.read_u16 ⟨d, 2⟩ = (some plen, ⟨d, 4⟩) := by
                have := read_u16_at plen (by omega) d 2 _ (by omega) hdrop2
                simpa using this
              have hdrop4 : d.drop 4 = write_u16 [] seq
                  ++ (write_u16 [] (sdu + st * 2 ^ 14) ++ payload) := by
                have hsplit : d.drop 4 = (d.drop 2).drop 2 := by rw [List.drop_drop]
                rw [hsplit, hdrop2]; exact List.drop_left' (by simp [write_u16])
              have h3 : Reader.read_u16 ⟨d, 4⟩ = (some seq, ⟨d, 6⟩) := by
                have := read_u16_at seq hseq d 4 _ (by omega) hdrop4
                simpa using this
              have hdrop6 : d.drop 6 = write_u16 [] (sdu + st * 2 ^ 14) ++ payload := by
                have hsplit : d.drop 6 = (d.drop 4).drop 2 := by rw [List.drop_drop]
                rw [hsplit, hdrop4]; exact List.drop_left' (by simp [write_u16])
              have h4 : Reader.read_u16 ⟨d, 6⟩ = (some (sdu + st * 2 ^ 14), ⟨d, 8⟩) := by
                have := read_u16_at (sdu + st * 2 ^ 14) (by omega) d 6 payload (by omega)
                  hdrop6
                simpa using this
              have hdrop8 : d.drop 8 = payload := by
                have hsplit : d.drop 8 = (d.drop 6).drop 2 := by rw [List.drop_drop]
                rw [hsplit, hdrop6]; exact List.drop_left' (by simp [write_u16])
              have hmask1 : (handle + 2 * 2 ^ 12 + 0 * 2 ^ 14) &&& (2 ^ 12 - 1)
                  = handle := by rw [and_mask_eq_mod]; omega
              have hmask2 : ((handle + 2 * 2 ^ 12 + 0 * 2 ^ 14) >>> 12) &&& (2 ^ 2 - 1)
                  = 2 := by rw [shift_and_eq]; omega
              have hmask3 : ((handle + 2 * 2 ^ 12 + 0 * 2 ^ 14) >>> (12 + 2)) &&& (2 ^ 1 - 1)
                  = 0 := by rw [shift_and_eq]; omega
              have hmask4 : plen &&& (2 ^ 14 - 1) = plen := by
                rw [and_mask_eq_mod]; omega
              have hmask5 : (sdu + st * 2 ^ 14) &&& (2 ^ 12 - 1) = sdu := by
                rw [and_mask_eq_mod]; omega
              have hmask6 : ((sdu + st * 2 ^ 14) >>> (12 + 2)) &&& (2 ^ 2 - 1) = st := by
                rw [shift_and_eq]; omega
              have hget : Reader.get ⟨d, 8⟩ (plen - 4 * (1 + 0))
                  = (some payload, ⟨d, 8 + (plen - 4 * (1 + 0))⟩) := by
                have := get_at payload d 8 [] (by omega) (by rw [hdrop8]; simp)
                rw [show payload.length = plen - 4 * (1 + 0) from by omega] at this
                exact this
              exact IsoData.parse_first_none d _ plen seq _ payload handle sdu st true h1
                h2 hmask1 hmask2 hmask3 hmask4 h3 h4 hmask5 hmask6 (by omega) hget
    | some t =>
      have ht32 : t < 2 ^ 32 := hts t rfl
      cases is_last with
      | false =>
        simp only [IsoData.to_bytes, IsoData.write, IsoData.sdu_header_len,
          IsoSduHeader.write, Option.isSome_some, eq_self_iff_true, if_true] at hw
        by_cases hh12 : handle < 2 ^ 12
        case neg => rw [if_neg hh12] at hw; cases hw
        case pos =>
          rw [if_pos hh12] at hw
          by_cases hplen : 4 * (1 + 1) + payload.length < 2 ^ 14
          case neg => rw [if_neg hplen] at hw; cases hw
          case pos =>
            rw [if_pos hplen] at hw
            by_cases hguard : sdu < 2 ^ 12 ∧ st < 2 ^ 2
            case neg => rw [if_neg hguard] at hw; simp at hw
            case pos =>
              obtain ⟨hsdu, hstatus⟩ := hguard
              rw [if_pos ⟨hsdu, hstatus⟩] at hw
              simp only [Option.some.injEq, put] at hw
              have hv1 : handle ||| ((0b00 : Nat) <<< 12) ||| (1 <<< (12 + 2))
                  = handle + 0 * 2 ^ 12 + 1 * 2 ^ 14 :=
                pack12_2_1 _ _ _ hh12 (by norm_num) (by norm_num)
              have hv3 : sdu ||| ((0 : Nat) <<< 12) ||| (st <<< (12 + 2))
                  = sdu + st * 2 ^ 14 := pack12_2_2 _ _ hsdu hstatus
              rw [hv1, hv3] at hw
              have hval : handle + 0 * 2 ^ 12 + 1 * 2 ^ 14 < 2 ^ 16 := by omega
              set plen := 4 * (1 + 1) + payload.length with hplendef
              rw [← hw]
              set d := write_u16 (write_u16 (write_u32 4 (write_u16 (write_u16 []
                (handle + 0 * 2 ^ 12 + 1 * 2 ^ 14)) plen) t) seq) (sdu + st * 2 ^ 14)
                ++ payload with hd
              have hd' : d = write_u16 [] (handle + 0 * 2 ^ 12 + 1 * 2 ^ 14)
                  ++ (write_u16 [] plen ++ (write_u32 4 [] t ++ (write_u16 [] seq
                    ++ (write_u16 [] (sdu + st * 2 ^ 14) ++ payload)))) := by
                rw [hd,
                  write_u16_append (write_u16 (write_u32 4 (write_u16 (write_u16 []
                    (handle + 0 * 2 ^ 12 + 1 * 2 ^ 14)) plen) t) seq) (sdu + st * 2 ^ 14),
                  write_u16_append (write_u32 4 (write_u16 (write_u16 []
                    (handle + 0 * 2 ^ 12 + 1 * 2 ^ 14)) plen) t) seq,
                  write_u32_append 4 (write_u16 (write_u16 []
                    (handle + 0 * 2 ^ 12 + 1 * 2 ^ 14)) plen) t,
                  write_u16_append (write_u16 [] (handle + 0 * 2 ^ 12 + 1 * 2 ^ 14)) plen]
                simp [List.append_assoc]
              have hdlen : d.length = 12 + payload.length := by
                rw [hd]; simp [write_u16]; try omega
              have h1 : Reader.read_u16 ⟨d, 0⟩
                  = (some (handle + 0 * 2 ^ 12 + 1 * 2 ^ 14), ⟨d, 2⟩) := by
                have := read_u16_at (handle + 0 * 2 ^ 12 + 1 * 2 ^ 14) hval d 0
                  (write_u16 [] plen ++ (write_u32 4 [] t ++ (write_u16 [] seq
                    ++ (write_u16 [] (sdu + st * 2 ^ 14) ++ payload))))
                  (by omega) (by rw [List.drop_zero]; exact hd')
                simpa using this
              have hdrop2 : d.drop 2 = write_u16 [] plen ++ (write_u32 4 [] t
                  ++ (write_u16 [] seq
                    ++ (write_u16 [] (sdu + st * 2 ^ 14) ++ payload))) := by
                rw [hd']; exact List.drop_left' (by simp [write_u16])
              have h2 : Reader.read_u16 ⟨d, 2⟩ = (some plen, ⟨d, 4⟩) := by
                have := read_u16_at plen (by omega) d 2 _ (by omega) hdrop2
                simpa using this
              have hdrop4 : d.drop 4 = write_u32 4 [] t ++ (write_u16 [] seq
                  ++ (write_u16 [] (sdu + st * 2 ^ 14) ++ payload)) := by
                have hsplit : d.drop 4 = (d.drop 2).drop 2 := by rw [List.drop_drop]
                rw [hsplit, hdrop2]; exact List.drop_left' (by simp [write_u16])
              have h3 : Reader.read_u32 4 ⟨d, 4⟩ = (some t, ⟨d, 8⟩) := by
                have := read_u32_at 4 t (by simpa using ht32) d 4 _ (by omega)
                  (by rw [hdrop4])
                simpa using this
              have hdrop8 : d.drop 8 = write_u16 [] seq
                  ++ (write_u16 [] (sdu + st * 2 ^ 14) ++ payload) := by
                have hsplit : d.drop 8 = (d.drop 4).drop 4 := by rw [List.drop_drop]
                rw [hsplit, hdrop4]; exact List.drop_left' (by simp)
              have h4 : Reader.read_u16 ⟨d, 8⟩ = (some seq, ⟨d, 10⟩) := by
                have := read_u16_at seq hseq d 8 _ (by omega) hdrop8
                simpa using this
              have hdrop10 : d.drop 10 = write_u16 [] (sdu + st * 2 ^ 14) ++ payload := by
                have hsplit : d.drop 10 = (d.drop 8).drop 2 := by rw [List.drop_drop]
                rw [hsplit, hdrop8]; exact List.drop_left' (by simp [write_u16])
              have h5 : Reader.read_u16 ⟨d, 10⟩ = (some (sdu + st * 2 ^ 14), ⟨d, 12⟩) := by
                have := read_u16_at (sdu + st * 2 ^ 14) (by omega) d 10 payload (by omega)
                  hdrop10
                simpa using this
              have hdrop12 : d.drop 12 = payload := by
                have hsplit : d.drop 12 = (d.drop 10).drop 2 := by rw [List.drop_drop]
                rw [hsplit, hdrop10]; exact List.drop_left' (by simp [write_u16])
              have hmask1 : (handle + 0 * 2 ^ 12 + 1 * 2 ^ 14) &&& (2 ^ 12 - 1)
                  = handle := by rw [and_mask_eq_mod]; omega
              have hmask2 : ((handle + 0 * 2 ^ 12 + 1 * 2 ^ 14) >>> 12) &&& (2 ^ 2 - 1)
                  = 0 := by rw [shift_and_eq]; omega
              have hmask3 : ((handle + 0 * 2 ^ 12 + 1 * 2 ^ 14) >>> (12 + 2)) &&& (2 ^ 1 - 1)
                  = 1 := by rw [shift_and_eq]; omega
              have hmask4 : plen &&& (2 ^ 14 - 1) = plen := by
                rw [and_mask_eq_mod]; omega
              have hmask5 : (sdu + st * 2 ^ 14) &&& (2 ^ 12 - 1) = sdu := by
                rw [and_mask_eq_mod]; omega
              have hmask6 : ((sdu + st * 2 ^ 14) >>> (12 + 2)) &&& (2 ^ 2 - 1) = st := by
                rw [shift_and_eq]; omega
              have hget : Reader.get ⟨d, 12⟩ (plen - 4 * (1 + 1))
                  = (some payload, ⟨d, 12 + (plen - 4 * (1 + 1))⟩) := by
                have := get_at payload d 12 [] (by omega) (by rw [hdrop12]; simp)
                rw [show payload.length = plen - 4 * (1 + 1) from by omega] at this
                exact this
              exact IsoData.parse_first_some d _ plen t seq _ payload handle sdu st false
                h1 h2 hmask1 hmask2 hmask3 hmask4 h3 h4 h5 hmask5 hmask6 (by omega) hget
      | true =>
        simp only [IsoData.to_bytes, IsoData.write, IsoData.sdu_header_len,
          IsoSduHeader.write, Option.isSome_some, eq_self_iff_true, if_true] at hw
        by_cases hh12 : handle < 2 ^ 12
        case neg => rw [if_neg hh12] at hw; cases hw
        case pos =>
          rw [if_pos hh12] at hw
          by_cases hplen : 4 * (1 + 1) + payload.length < 2 ^ 14
          case neg => rw [if_neg hplen] at hw; cases hw
          case pos =>
            rw [if_pos hplen] at hw
            by_cases hguard : sdu < 2 ^ 12 ∧ st < 2 ^ 2
            case neg => rw [if_neg hguard] at hw; simp at hw
            case pos =>
              obtain ⟨hsdu, hstatus⟩ := hguard
              rw [if_pos ⟨hsdu, hstatus⟩] at hw
              simp only [Option.some.injEq, put] at hw
              have hv1 : handle ||| ((0b10 : Nat) <<< 12) ||| (1 <<< (12 + 2))
                  = handle + 2 * 2 ^ 12 + 1 * 2 ^ 14 :=
                pack12_2_1 _ _ _ hh12 (by norm_num) (by norm_num)
              have hv3 : sdu ||| ((0 : Nat) <<< 12) ||| (st <<< (12 + 2))
                  = sdu + st * 2 ^ 14 := pack12_2_2 _ _ hsdu hstatus
              rw [hv1, hv3] at hw
              have hval : handle + 2 * 2 ^ 12 + 1 * 2 ^ 14 < 2 ^ 16 := by omega
              set plen := 4 * (1 + 1) + payload.length with hplendef
              rw [← hw]
              set d := write_u16 (write_u16 (write_u32 4 (write_u16 (write_u16 []
                (handle + 2 * 2 ^ 12 + 1 * 2 ^ 14)) plen) t) seq) (sdu + st * 2 ^ 14)
                ++ payload with hd
              have hd' : d = write_u16 [] (handle + 2 * 2 ^ 12 + 1 * 2 ^ 14)
                  ++ (write_u16 [] plen ++ (write_u32 4 [] t ++ (write_u16 [] seq
                    ++ (write_u16 [] (sdu + st * 2 ^ 14) ++ payload)))) := by
                rw [hd,
                  write_u16_append (write_u16 (write_u32 4 (write_u16 (write_u16 []
                    (handle + 2 * 2 ^ 12 + 1 * 2 ^ 14)) plen) t) seq) (sdu + st * 2 ^ 14),
                  write_u16_append (write_u32 4 (write_u16 (write_u16 []
                    (handle + 2 * 2 ^ 12 + 1 * 2 ^ 14)) plen) t) seq,
                  write_u32_append 4 (write_u16 (write_u16 []
                    (handle + 2 * 2 ^ 12 + 1 * 2 ^ 14)) plen) t,
                  write_u16_append (write_u16 [] (handle + 2 * 2 ^ 12 + 1 * 2 ^ 14)) plen]
                simp [List.append_assoc]
              have hdlen : d.length = 12 + payload.length := by
                rw [hd]; simp [write_u16]; try omega
              have h1 : Reader.read_u16 ⟨d, 0⟩
                  = (some (handle + 2 * 2 ^ 12 + 1 * 2 ^ 14), ⟨d, 2⟩) := by
                have := read_u16_at (handle + 2 * 2 ^ 12 + 1 * 2 ^ 14) hval d 0
                  (write_u16 [] plen ++ (write_u32 4 [] t ++ (write_u16 [] seq
                    ++ (write_u16 [] (sdu + st * 2 ^ 14) ++ payload))))
                  (by omega) (by rw [List.drop_zero]; exact hd')
                simpa using this
              have hdrop2 : d.drop 2 = write_u16 [] plen ++ (write_u32 4 [] t
                  ++ (write_u16 [] seq
                    ++ (write_u16 [] (sdu + st * 2 ^ 14) ++ payload))) := by
                rw [hd']; exact List.drop_left' (by simp [write_u16])
              have h2 : Reader.read_u16 ⟨d, 2⟩ = (some plen, ⟨d, 4⟩) := by
                have := read_u16_at plen (by omega) d 2 _ (by omega) hdrop2
                simpa using this
              have hdrop4 : d.drop 4 = write_u32 4 [] t ++ (write_u16 [] seq
                  ++ (write_u16 [] (sdu + st * 2 ^ 14) ++ payload)) := by
                have hsplit : d.drop 4 = (d.drop 2).drop 2 := by rw [List.drop_drop]
                rw [hsplit, hdrop2]; exact List.drop_left' (by simp [write_u16])
              have h3 : Reader.read_u32 4 ⟨d, 4⟩ = (some t, ⟨d, 8⟩) := by
                have := read_u32_at 4 t (by simpa using ht32) d 4 _ (by omega)
                  (by rw [hdrop4])
                simpa using this
              have hdrop8 : d.drop 8 = write_u16 [] seq
                  ++ (write_u16 [] (sdu + st * 2 ^ 14) ++ payload) := by
                have hsplit : d.drop 8 = (d.drop 4).drop 4 := by rw [List.drop_drop]
                rw [hsplit, hdrop4]; exact List.drop_left' (by simp)
              have h4 : Reader.read_u16 ⟨d, 8⟩ = (some seq, ⟨d, 10⟩) := by
                have := read_u16_at seq hseq d 8 _ (by omega) hdrop8
                simpa using this
              have hdrop10 : d.drop 10 = write_u16 [] (sdu + st * 2 ^ 14) ++ payload := by
                have hsplit : d.drop 10 = (d.drop 8).drop 2 := by rw [List.drop_drop]
                rw [hsplit, hdrop8]; exact List.drop_left' (by simp [write_u16])
              have h5 : Reader.read_u16 ⟨d, 10⟩ = (some (sdu + st * 2 ^ 14), ⟨d, 12⟩) := by
                have := read_u16_at (sdu + st * 2 ^ 14) (by omega) d 10 payload (by omega)
                  hdrop10
                simpa using this
              have hdrop12 : d.drop 12 = payload := by
                have hsplit : d.drop 12 = (d.drop 10).drop 2 := by rw [List.drop_drop]
                rw [hsplit, hdrop10]; exact List.drop_left' (by simp [write_u16])
              have hmask1 : (handle + 2 * 2 ^ 12 + 1 * 2 ^ 14) &&& (2 ^ 12 - 1)
                  = handle := by rw [and_mask_eq_mod]; omega
              have hmask2 : ((handle + 2 * 2 ^ 12 + 1 * 2 ^ 14) >>> 12) &&& (2 ^ 2 - 1)
                  = 2 := by rw [shift_and_eq]; omega
              have hmask3 : ((handle + 2 * 2 ^ 12 + 1 * 2 ^ 14) >>> (12 + 2)) &&& (2 ^ 1 - 1)
                  = 1 := by rw [shift_and_eq]; omega
              have hmask4 : plen &&& (2 ^ 14 - 1) = plen := by
                rw [and_mask_eq_mod]; omega
              have hmask5 : (sdu + st * 2 ^ 14) &&& (2 ^ 12 - 1) = sdu := by
                rw [and_mask_eq_mod]; omega
              have hmask6 : ((sdu + st * 2 ^ 14) >>> (12 + 2)) &&& (2 ^ 2 - 1) = st := by
                rw [shift_and_eq]; omega
              have hget : Reader.get ⟨d, 12⟩ (plen - 4 * (1 + 1))
                  = (some payload, ⟨d, 12 + (plen - 4 * (1 + 1))⟩) := by
                have := get_at payload d 12 [] (by omega) (by rw [hdrop12]; simp)
                rw [show payload.length = plen - 4 * (1 + 1) from by omega] at this
                exact this
              exact IsoData.parse_first_some d _ plen t seq _ payload handle sdu st true
                h1 h2 hmask1 hmask2 hmask3 hmask4 h3 h4 h5 hmask5 hmask6 (by omega) hget

/-! ## Parsing with a padded length window

`Command::from_bytes` and `Event::from_bytes` cut a sub-reader over
exactly the declared parameter length and never compare the declared
length against the bytes the packet parser consumed: bytes of the
window left unread are ignored. -/

theorem Command.from_bytes_window (opcode : OpCode) (hval : opcode.val < 2 ^ 16)
    (c : Command) (window : List Nat) (hlen : window.length ≤ 255)
    (hdisp : (Command.dispatch_read opcode ⟨window, 0⟩).1 = some c) :
    Command.from_bytes (OpCode.write [] opcode ++ ([window.length] ++ window)) = .ok c := by
  set bs := OpCode.write [] opcode ++ ([window.length] ++ window) with hbs
  have hoplen : (OpCode.write [] opcode).length = 2 := by simp [OpCode.write, write_u16]
  have hbslen : bs.length = 3 + window.length := by
    rw [hbs]; simp [OpCode.write, write_u16]; omega
  have hop : OpCode.read ⟨bs, 0⟩ = (some opcode, ⟨bs, 0 + (OpCode.write [] opcode).length⟩) :=
    OpCode_read_reads opcode hval bs 0 ([window.length] ++ window) (by omega)
      (by rw [hbs]; simp)
  rw [hoplen] at hop
  have hdrop2 : bs.drop 2 = [window.length] ++ window := by
    rw [hbs, ← hoplen, List.drop_left]
  have hlt : window.length < 2 ^ 8 := by omega
  have hlt256 : window.length < 256 := by omega
  have hu8 : write_u8 [] window.length = [window.length] := write_u8_small _ hlt256
  have hlenr : Reader.read_u8 ⟨bs, 2⟩ = (some window.length, ⟨bs, 2 + 1⟩) := by
    have := read_u8_reads window.length hlt bs 2 window (by omega) (by rw [hdrop2, hu8])
    simpa [hu8] using this
  have hdrop3 : bs.drop 3 = window := by
    have : bs.drop 3 = (bs.drop 2).drop 1 := by rw [List.drop_drop]
    rw [this, hdrop2]
    rfl
  have hget : Reader.get ⟨bs, 3⟩ window.length = (some window, ⟨bs, 3 + window.length⟩) := by
    have := get_reads window bs 3 [] (by omega) (by rw [hdrop3]; simp)
    simpa using this
  have hpp : Command.parse_packet bs = some (opcode, Reader.new window) := by
    simp only [Command.parse_packet, Reader.new, hop, hlenr, hget]
  simp only [Command.from_bytes, hpp, Reader.new, hdisp]

theorem Event.from_bytes_window_plain (code : Nat) (hcode : code < 2 ^ 8)
    (hmeta : code ≠ Code.LE_META) (e : Event) (window : List Nat) (hlen : window.length ≤ 255)
    (hdisp : (Event.dispatch_read ⟨code, none⟩ ⟨window, 0⟩).1 = some e) :
    Event.from_bytes (code :: window.length :: window) = .ok e := by
  set bs := code :: window.length :: window with hbs
  have hbslen : bs.length = 2 + window.length := by rw [hbs]; simp; omega
  have hlt : window.length < 2 ^ 8 := by omega
  have hlt256 : window.length < 256 := by omega
  have hc : Reader.read_u8 ⟨bs, 0⟩ = (some code, ⟨bs, 1⟩) := by
    have := read_u8_reads code hcode bs 0 (window.length :: window) (by omega)
      (by rw [hbs, write_u8_small code (by omega)]; rfl)
    simpa [write_u8_small code (show code < 256 by omega)] using this
  have hlenr : Reader.read_u8 ⟨bs, 1⟩ = (some window.length, ⟨bs, 2⟩) := by
    have := read_u8_reads window.length hlt bs 1 window (by omega)
      (by rw [hbs, write_u8_small window.length hlt256]; rfl)
    simpa [write_u8_small window.length hlt256] using this
  have hdrop2 : bs.drop 2 = window := by rw [hbs]; rfl
  have hget : Reader.get ⟨bs, 2⟩ window.length = (some window, ⟨bs, 2 + window.length⟩) := by
    have := get_reads window bs 2 [] (by omega) (by rw [hdrop2]; simp)
    simpa using this
  have hpp : Event.parse_packet bs = some (⟨code, none⟩, Reader.new window) := by
    simp only [Event.parse_packet, Reader.new, hc, hlenr, hget]
    rw [if_neg hmeta]
  simp only [Event.from_bytes, hpp, Reader.new, hdisp]

/-! ## Cursor behavior of the reader primitives -/

theorem get_step (r : Reader) (n : Nat) :
    Reader.get r n = (none, r) ∨
    ∃ v, v.length = n ∧ Reader.get r n = (some v, ⟨r.data, r.pos + n⟩) := by
  rcases r with ⟨data, pos⟩
  by_cases h : pos + n > data.length
  · left
    simp [Reader.get, h]
  · right
    refine ⟨(data.drop pos).take n, ?_, ?_⟩
    · rw [List.length_take, List.length_drop]
      omega
    · simp [Reader.get, h]

theorem read_u32_step (N : Nat) (r : Reader) :
    Reader.read_u32 N r = (none, r) ∨
    ∃ v, Reader.read_u32 N r = (some v, ⟨r.data, r.pos + N⟩) := by
  rcases get_step r N with h | ⟨v, _, h⟩
  · left; simp [Reader.read_u32, h]
  · right; exact ⟨decodeLE v, by simp [Reader.read_u32, h]⟩

theorem read_u8_step (r : Reader) :
    Reader.read_u8 r = (none, r) ∨
    ∃ v, Reader.read_u8 r = (some v, ⟨r.data, r.pos + 1⟩) := by
  rcases read_u32_step 1 r with h | ⟨v, h⟩
  · left; simp [Reader.read_u8, h]
  · right; exact ⟨v % 2 ^ 8, by simp [Reader.read_u8, h]⟩

theorem read_u16_step (r : Reader) :
    Reader.read_u16 r = (none, r) ∨
    ∃ v, Reader.read_u16 r = (some v, ⟨r.data, r.pos + 2⟩) := by
  rcases read_u32_step 2 r with h | ⟨v, h⟩
  · left; simp [Reader.read_u16, h]
  · right; exact ⟨v % 2 ^ 16, by simp [Reader.read_u16, h]⟩

theorem read_bytes_step (N : Nat) (r : Reader) :
    Reader.read_bytes N r = (none, r) ∨
    ∃ v, Reader.read_bytes N r = (some v, ⟨r.data, r.pos + N⟩) := by
  rcases get_step r N with h | ⟨v, _, h⟩
  · left; simpa [Reader.read_bytes] using h
  · right; exact ⟨v, by simpa [Reader.read_bytes] using h⟩

theorem readVecU8_step (r : Reader) (v : List Nat) (h : (readVecU8 r).1 = some v) :
    (readVecU8 r).2 = ⟨r.data, r.pos + (1 + v.length)⟩ := by
  rcases read_u8_step r with h8 | ⟨len, h8⟩
  · have hvec : readVecU8 r = (none, r) := by simp only [readVecU8, rbind, h8]
    rw [hvec] at h
    simp at h
  · rcases get_step ⟨r.data, r.pos + 1⟩ len with hg | ⟨w, hwlen, hg⟩
    · have hvec : readVecU8 r = (none, ⟨r.data, r.pos + 1⟩) := by
        simp only [readVecU8, rbind, h8, hg]
      rw [hvec] at h
      simp at h
    · have hvec : readVecU8 r = (some w, ⟨r.data, r.pos + 1 + len⟩) := by
        simp only [readVecU8, rbind, h8, hg]
      rw [hvec] at h
      have hv : w = v := by simpa using h
      subst hv
      rw [hvec]
      show (⟨r.data, r.pos + 1 + len⟩ : Reader) = _
      rw [show r.pos + 1 + len = r.pos + (1 + w.length) from by omega]

theorem readN_u16_step (n : Nat) : ∀ (r : Reader) (v : List Nat),
    (readN Reader.read_u16 n r).1 = some v →
    v.length = n ∧ (readN Reader.read_u16 n r).2 = ⟨r.data, r.pos + 2 * n⟩ := by
  induction n with
  | zero =>
    intro r v h
    simp [readN] at h
    subst h
    exact ⟨rfl, by simp [readN]⟩
  | succ n ih =>
    intro r v h
    rcases read_u16_step r with h16 | ⟨a, h16⟩
    · have hstep : readN Reader.read_u16 (n + 1) r = (none, r) := by
        simp only [readN, h16]
      rw [hstep] at h
      simp at h
    · cases hN : readN Reader.read_u16 n ⟨r.data, r.pos + 2⟩ with
      | mk o r2 =>
        cases o with
        | none =>
          have hstep : readN Reader.read_u16 (n + 1) r = (none, r2) := by
            simp only [readN, h16, hN]
          rw [hstep] at h
          simp at h
        | some as =>
          obtain ⟨hlen, hpos⟩ := ih ⟨r.data, r.pos + 2⟩ as (by rw [hN])
          rw [hN] at hpos
          have hstep : readN Reader.read_u16 (n + 1) r = (some (a :: as), r2) := by
            simp only [readN, h16, hN]
          rw [hstep] at h
          have hv : a :: as = v := by simpa using h
          subst hv
          refine ⟨by simp [hlen], ?_⟩
          rw [hstep]
          show r2 = _
          exact hpos.trans (show (⟨r.data, r.pos + 2 + 2 * n⟩ : Reader) = _ from by
            rw [show r.pos + 2 + 2 * n = r.pos + 2 * (n + 1) from by omega])

theorem readVecU16_step (r : Reader) (v : List Nat) (h : (readVecU16 r).1 = some v) :
    (readVecU16 r).2 = ⟨r.data, r.pos + (1 + 2 * v.length)⟩ := by
  rcases read_u8_step r with h8 | ⟨len, h8⟩
  · have hvec : readVecU16 r = (none, r) := by simp only [readVecU16, rbind, h8]
    rw [hvec] at h
    simp at h
  · cases hN : readN Reader.read_u16 len ⟨r.data, r.pos + 1⟩ with
    | mk o r2 =>
      cases o with
      | none =>
        have hvec : readVecU16 r = (none, r2) := by simp only [readVecU16, rbind, h8, hN]
        rw [hvec] at h
        simp at h
      | some as =>
        obtain ⟨hlen, hpos⟩ := readN_u16_step len ⟨r.data, r.pos + 1⟩ as (by rw [hN])
        rw [hN] at hpos
        have hvec : readVecU16 r = (some as, r2) := by simp only [readVecU16, rbind, h8, hN]
        rw [hvec] at h
        have hv : as = v := by simpa using h
        subst hv
        rw [hvec]
        show r2 = _
        exact hpos.trans (show (⟨r.data, r.pos + 1 + 2 * len⟩ : Reader) = _ from by
          rw [show r.pos + 1 + 2 * len = r.pos + (1 + 2 * as.length) from by omega])

/-! ## Claim theorems for the codec -/

/-- Claim C1: the HCI codec round trips. Serializing any well-formed
recognized packet (command, event with its return parameters, or ISO
data packet) and parsing the result yields the same packet back; and
any byte string that is the successful serialization of a well-formed
packet parses to a value that re-serializes to exactly those bytes. -/
theorem claim_C1 :
    (∀ (c : Command) (bs : List Nat), c.wf → Command.to_bytes c = some bs →
        Command.from_bytes bs = Except.ok c) ∧
    (∀ (e : Event) (bs : List Nat), e.wf → Event.to_bytes e = some bs →
        Event.from_bytes bs = Except.ok e) ∧
    (∀ (x : IsoData) (bs : List Nat), x.wf → IsoData.to_bytes x = some bs →
        IsoData.from_bytes bs = some x) ∧
    (∀ bs : List Nat, (∃ c : Command, c.wf ∧ Command.to_bytes c = some bs) →
        ∃ c : Command, Command.from_bytes bs = Except.ok c ∧ Command.to_bytes c = some bs) ∧
    (∀ bs : List Nat, (∃ e : Event, e.wf ∧ Event.to_bytes e = some bs) →
        ∃ e : Event, Event.from_bytes bs = Except.ok e ∧ Event.to_bytes e = some bs) ∧
    (∀ bs : List Nat, (∃ x : IsoData, x.wf ∧ IsoData.to_bytes x = some bs) →
        ∃ x : IsoData, IsoData.from_bytes bs = some x ∧ IsoData.to_bytes x = some bs) :=
  ⟨fun c bs h hw => Command_from_to c h bs hw,
   fun e bs h hw => Event_from_to e h bs hw,
   fun x bs h hw => IsoData_from_to x h bs hw,
   fun bs ⟨c, h, hw⟩ => ⟨c, Command_from_to c h bs hw, hw⟩,
   fun bs ⟨e, h, hw⟩ => ⟨e, Event_from_to e h bs hw, hw⟩,
   fun bs ⟨x, h, hw⟩ => ⟨x, IsoData_from_to x h bs hw, hw⟩⟩

/-- Claim C1, witness: the round trip evaluated on the Reset command. -/
theorem claim_C1_witness :
    Command.wf (Command.Reset {}) ∧ Command.to_bytes (Command.Reset {}) = some [3, 12, 0] ∧
    Command.from_bytes [3, 12, 0] = Except.ok (Command.Reset {}) :=
  ⟨by decide, by rfl, claim_C1.1 (Command.Reset {}) [3, 12, 0] (by decide) (by rfl)⟩

/-- Claim C6, counterexample: a Reset command packet with declared
parameter length 2 whose parser consumes 0 body bytes is decoded
as Reset rather than rejected, so a recognized command whose declared
length leaves unconsumed trailing bytes is not rejected. -/
theorem claim_C6_cex :
    Command.from_bytes [3, 12, 2, 170, 187] = Except.ok (Command.Reset {}) := by rfl

/-- Claim C6, amended: the decoders never compare the declared length
against the bytes consumed. If a packet parser reads `c` from exactly
`body`, then a packet framing `body` padded by any trailing bytes,
with the declared length covering both, still decodes to `c`. -/
theorem claim_C6 :
    (∀ (opcode : OpCode) (c : Command) (body pad : List Nat),
        opcode.val < 2 ^ 16 → body.length + pad.length ≤ 255 →
        ReadsExact (Command.dispatch_read opcode) c body →
        Command.from_bytes
          (OpCode.write [] opcode ++ ([body.length + pad.length] ++ (body ++ pad)))
          = Except.ok c) ∧
    (∀ (code : Nat) (e : Event) (body pad : List Nat),
        code < 2 ^ 8 → code ≠ Code.LE_META → body.length + pad.length ≤ 255 →
        ReadsExact (Event.dispatch_read ⟨code, none⟩) e body →
        Event.from_bytes (code :: (body.length + pad.length) :: (body ++ pad))
          = Except.ok e) := by
  constructor
  · intro opcode c body pad hval hlen hF
    have hdisp : (Command.dispatch_read opcode ⟨body ++ pad, 0⟩).1 = some c := by
      rw [hF (body ++ pad) 0 pad (by omega) (by simp)]
    have := Command.from_bytes_window opcode hval c (body ++ pad)
      (by simp only [List.length_append]; omega) hdisp
    simpa using this
  · intro code e body pad hcode hmeta hlen hF
    have hdisp : (Event.dispatch_read ⟨code, none⟩ ⟨body ++ pad, 0⟩).1 = some e := by
      rw [hF (body ++ pad) 0 pad (by omega) (by simp)]
    have := Event.from_bytes_window_plain code hcode hmeta e (body ++ pad)
      (by simp only [List.length_append]; omega) hdisp
    simpa using this

/-- Claim C6, witness: the amended theorem applied to a Reset command
padded with one trailing byte inside the declared length window. -/
theorem claim_C6_witness :
    Command.from_bytes [3, 12, 1, 170] = Except.ok (Command.Reset {}) := by
  have hre : ReadsExact (Command.dispatch_read Reset.OPCODE) (Command.Reset {}) [] := by
    rw [Command_dispatch_Reset]
    refine ReadsExact.congr ?_ (List.append_nil _)
    exact (Reset_read_reads {}).bind (ReadsExact.pure _)
  have := claim_C6.1 Reset.OPCODE (Command.Reset {}) [] [170] (by decide) (by decide) hre
  have hbytes : OpCode.write [] Reset.OPCODE
      ++ ([List.length ([] : List Nat) + List.length [170]] ++ (([] : List Nat) ++ [170]))
      = [3, 12, 1, 170] := by decide
  rw [hbytes] at this
  exact this

/-- Claim C8, counterexample: the length-prefixed `Vec<u8>` read on the
bytes `[2, 0]` fails (the prefix promises two bytes, one remains) yet
leaves the cursor at position 1, not at its starting position 0. -/
theorem claim_C8_cex :
    (readVecU8 ⟨[2, 0], 0⟩).1 = none ∧ (readVecU8 ⟨[2, 0], 0⟩).2 = ⟨[2, 0], 1⟩ :=
  ⟨by rfl, by rfl⟩

/-- Claim C8, amended: the fixed-size reader primitives (`get`,
`read_u32`, `read_u8`, `read_u16`, `read_bytes`) either succeed and
advance the cursor by exactly the encoded size or fail with the cursor
unchanged; the length-prefixed Vec reads advance by exactly the
encoding size on success, but on failure they may leave the cursor
past its starting position (after the consumed length prefix). -/
theorem claim_C8 :
    (∀ (r : Reader) (n : Nat), Reader.get r n = (none, r) ∨
        ∃ v, Reader.get r n = (some v, ⟨r.data, r.pos + n⟩)) ∧
    (∀ (N : Nat) (r : Reader), Reader.read_u32 N r = (none, r) ∨
        ∃ v, Reader.read_u32 N r = (some v, ⟨r.data, r.pos + N⟩)) ∧
    (∀ r : Reader, Reader.read_u8 r = (none, r) ∨
        ∃ v, Reader.read_u8 r = (some v, ⟨r.data, r.pos + 1⟩)) ∧
    (∀ r : Reader, Reader.read_u16 r = (none, r) ∨
        ∃ v, Reader.read_u16 r = (some v, ⟨r.data, r.pos + 2⟩)) ∧
    (∀ (N : Nat) (r : Reader), Reader.read_bytes N r = (none, r) ∨
        ∃ v, Reader.read_bytes N r = (some v, ⟨r.data, r.pos + N⟩)) ∧
    (∀ (r : Reader) (v : List Nat), (readVecU8 r).1 = some v →
        (readVecU8 r).2 = ⟨r.data, r.pos + (1 + v.length)⟩) ∧
    (∀ (r : Reader) (v : List Nat), (readVecU16 r).1 = some v →
        (readVecU16 r).2 = ⟨r.data, r.pos + (1 + 2 * v.length)⟩) := by
  refine ⟨fun r n => ?_, read_u32_step, read_u8_step, read_u16_step, read_bytes_step,
    readVecU8_step, readVecU16_step⟩
  rcases get_step r n with h | ⟨v, _, h⟩
  · exact Or.inl h
  · exact Or.inr ⟨v, h⟩

/-- Claim C8, witness: the amended theorem evaluated on a successful
Vec read, advancing the cursor by the full encoding size. -/
theorem claim_C8_witness :
    (readVecU8 ⟨[1, 5], 0⟩).1 = some [5] ∧ (readVecU8 ⟨[1, 5], 0⟩).2 = ⟨[1, 5], 2⟩ := by
  refine ⟨by rfl, ?_⟩
  have := claim_C8.2.2.2.2.2.1 ⟨[1, 5], 0⟩ [5] (by rfl)
  simpa using this


/-! ## Arbiter (src/offload/leaudio/hci/arbiter.rs)

The state behind the arbiter mutex, with the `HashMap<u16, usize>` of
in-transit counts embedded as an association list (sums over it are
iteration-order independent) and the two `VecDeque` FIFOs as lists
with `push_back` appending at the tail. Methods that can panic
(duplicate `add_connection`, the `push` length assertion, serialization
inside `push`, the `unwrap` calls of `pull`) are Option-valued. -/

inductive Origin
  | Audio
  | Incoming
deriving DecidableEq

def mapGet : List (Nat × Nat) → Nat → Option Nat
  | [], _ => none
  | (k, v) :: m, h => if k = h then some v else mapGet m h

def mapContains (m : List (Nat × Nat)) (k : Nat) : Bool :=
  (mapGet m k).isSome

def mapSet : List (Nat × Nat) → Nat → Nat → List (Nat × Nat)
  | [], _, _ => []
  | (k, v) :: m, h, nv => if k = h then (k, nv) :: m else (k, v) :: mapSet m h nv

def mapRemove : List (Nat × Nat) → Nat → List (Nat × Nat)
  | [], _ => []
  | (k, v) :: m, h => if k = h then m else (k, v) :: mapRemove m h

/-- The `State` struct behind the mutex: `queues[0]` is the Audio FIFO,
`queues[1]` the Incoming FIFO. -/
structure ArbState where
  halt : Bool
  queueAudio : List (Nat × List Nat)
  queueIncoming : List (Nat × List Nat)
  in_transit : List (Nat × Nat)
deriving DecidableEq

/-- `state.in_transit.values().sum()`. -/
def ArbState.transitSum (s : ArbState) : Nat :=
  (s.in_transit.map Prod.snd).sum

/-- Default-initialized `State`. -/
def ArbState.init : ArbState := ⟨false, [], [], []⟩

/-- Embedding of `Arbiter::add_connection` (panics when the handle is
already tracked). -/
def Arbiter.add_connection (s : ArbState) (handle : Nat) : Option ArbState :=
  if mapContains s.in_transit handle then none
  else some { s with in_transit := s.in_transit ++ [(handle, 0)] }

/-- Embedding of `Arbiter::remove_connection`: purge the handle from
both FIFOs and drop its in-transit entry. -/
def Arbiter.remove_connection (s : ArbState) (handle : Nat) : ArbState :=
  { s with
    queueAudio := s.queueAudio.filter (fun p => p.1 != handle),
    queueIncoming := s.queueIncoming.filter (fun p => p.1 != handle)
    in_transit := mapRemove s.in_transit handle }

/-- Embedding of `Arbiter::set_completed`: decrement only when the
handle is tracked (`usize` subtraction, callers keep `num` within the
current count). -/
def Arbiter.set_completed (s : ArbState) (handle : Nat) (num : Nat) : ArbState :=
  match mapGet s.in_transit handle with
  | none => s
  | some usage => { s with in_transit := mapSet s.in_transit handle (usage - num) }

/-- Embedding of `Arbiter::push` (both `push_incoming` and
`push_audio`): serialize, assert `data.len() <= max_buf_len + 4`, then
enqueue only when the handle is tracked. -/
def Arbiter.push (s : ArbState) (origin : Origin) (iso_data : IsoData)
    (max_buf_len : Nat) : Option ArbState :=
  let handle := iso_data.connection_handle
  match IsoData.to_bytes iso_data with
  | none => none
  | some data =>
    if data.length ≤ max_buf_len + 4 then
      some (if mapContains s.in_transit handle then
        match origin with
        | .Audio => { s with queueAudio := s.queueAudio ++ [(handle, data)] }
        | .Incoming => { s with queueIncoming := s.queueIncoming ++ [(handle, data)] }
      else s)
    else none

/-- One `queues[idx].pop_front().unwrap()` together with
`*state.in_transit.get_mut(&handle).unwrap() += 1`; `none` is a panic
(empty queue or untracked handle). -/
def Arbiter.popFront (s : ArbState) : Origin → Option (List Nat × ArbState)
  | .Audio =>
    match s.queueAudio with
    | [] => none
    | (handle, vec) :: rest =>
      (mapGet s.in_transit handle).map fun usage =>
        (vec, { s with queueAudio := rest
                       in_transit := mapSet s.in_transit handle (usage + 1) })
  | .Incoming =>
    match s.queueIncoming with
    | [] => none
    | (handle, vec) :: rest =>
      (mapGet s.in_transit handle).map fun usage =>
        (vec, { s with queueIncoming := rest
                       in_transit := mapSet s.in_transit handle (usage + 1) })

/-- Embedding of `Arbiter::pull`: the `for idx in 0..queues.len()` loop
unrolled over `[Audio, Incoming]`, skipping a queue when it is empty or
`max_buf_count <= in_transit.values().sum()`. The outer Option is a
panic, the inner `none` means no packet is ready. -/
def Arbiter.pull (max_buf_count : Nat) (s : ArbState) :
    Option (Option (List Nat × ArbState)) :=
  if s.queueAudio = [] ∨ max_buf_count ≤ s.transitSum then
    if s.queueIncoming = [] ∨ max_buf_count ≤ s.transitSum then some none
    else (Arbiter.popFront s Origin.Incoming).map some
  else (Arbiter.popFront s Origin.Audio).map some

/-- The arbiter transitions: public methods, the sender loop pulling a
packet, and the halt flag set on drop. The `set_completed` step carries
the stated discipline that the completed count never exceeds the
current in-transit count of the handle. -/
inductive ArbStep (max_buf_len max_buf_count : Nat) : ArbState → ArbState → Prop
  | add_connection (s : ArbState) (handle : Nat) (s2 : ArbState)
      (h : Arbiter.add_connection s handle = some s2) :
      ArbStep max_buf_len max_buf_count s s2
  | remove_connection (s : ArbState) (handle : Nat) :
      ArbStep max_buf_len max_buf_count s (Arbiter.remove_connection s handle)
  | push (s : ArbState) (origin : Origin) (x : IsoData) (s2 : ArbState)
      (h : Arbiter.push s origin x max_buf_len = some s2) :
      ArbStep max_buf_len max_buf_count s s2
  | set_completed (s : ArbState) (handle num : Nat)
      (h : ∀ usage, mapGet s.in_transit handle = some usage → num ≤ usage) :
      ArbStep max_buf_len max_buf_count s (Arbiter.set_completed s handle num)
  | pull (s : ArbState) (bytes : List Nat) (s2 : ArbState)
      (h : Arbiter.pull max_buf_count s = some (some (bytes, s2))) :
      ArbStep max_buf_len max_buf_count s s2
  | halt (s : ArbState) : ArbStep max_buf_len max_buf_count s { s with halt := true }

/-- States the arbiter can reach from its default-initialized state. -/
def ArbReachable (max_buf_len max_buf_count : Nat) (s : ArbState) : Prop :=
  Relation.ReflTransGen (ArbStep max_buf_len max_buf_count) ArbState.init s

theorem sum_mapSet (m : List (Nat × Nat)) (k u v : Nat) (h : mapGet m k = some u) :
    ((mapSet m k v).map Prod.snd).sum + u = (m.map Prod.snd).sum + v := by
  induction m with
  | nil => cases h
  | cons p m ih =>
    obtain ⟨pk, pv⟩ := p
    by_cases hk : pk = k
    · rw [show mapGet ((pk, pv) :: m) k = some pv from by simp [mapGet, hk]] at h
      have hpv : pv = u := by simpa using h
      subst hpv
      simp [mapSet, hk]
      omega
    · rw [show mapGet ((pk, pv) :: m) k = mapGet m k from by simp [mapGet, hk]] at h
      have := ih h
      simp [mapSet, hk]
      omega

theorem sum_mapRemove (m : List (Nat × Nat)) (k : Nat) :
    ((mapRemove m k).map Prod.snd).sum ≤ (m.map Prod.snd).sum := by
  induction m with
  | nil => simp [mapRemove]
  | cons p m ih =>
    obtain ⟨pk, pv⟩ := p
    by_cases hk : pk = k
    · simp [mapRemove, hk]
      try omega
    · simp [mapRemove, hk]
      try omega

theorem push_in_transit (s : ArbState) (origin : Origin) (x : IsoData)
    (max_buf_len : Nat) (s2 : ArbState)
    (h : Arbiter.push s origin x max_buf_len = some s2) :
    s2.in_transit = s.in_transit := by
  unfold Arbiter.push at h
  cases hw : IsoData.to_bytes x with
  | none =>
    rw [hw] at h
    simp at h
  | some data =>
    rw [hw] at h
    simp only [] at h
    by_cases hlen : data.length ≤ max_buf_len + 4
    · rw [if_pos hlen] at h
      have h2 := (Option.some.injEq _ _).mp h
      subst h2
      by_cases hc : mapContains s.in_transit x.connection_handle = true
      · rw [if_pos hc]
        cases origin <;> rfl
      · rw [if_neg hc]
    · rw [if_neg hlen] at h
      cases h

theorem set_completed_sum_le (s : ArbState) (handle num : Nat) :
    (Arbiter.set_completed s handle num).transitSum ≤ s.transitSum := by
  unfold Arbiter.set_completed
  cases hg : mapGet s.in_transit handle with
  | none => exact Nat.le_refl _
  | some usage =>
    have := sum_mapSet s.in_transit handle usage (usage - num) hg
    simp only [ArbState.transitSum]
    omega

theorem pull_sum (max_buf_count : Nat) (s : ArbState) (bytes : List Nat) (s2 : ArbState)
    (h : Arbiter.pull max_buf_count s = some (some (bytes, s2))) :
    s.transitSum < max_buf_count ∧ s2.transitSum = s.transitSum + 1 := by
  unfold Arbiter.pull at h
  by_cases c1 : s.queueAudio = [] ∨ max_buf_count ≤ s.transitSum
  · rw [if_pos c1] at h
    by_cases c2 : s.queueIncoming = [] ∨ max_buf_count ≤ s.transitSum
    · rw [if_pos c2] at h
      simp at h
    · rw [if_neg c2] at h
      obtain ⟨hne, hcredit⟩ := not_or.mp c2
      refine ⟨by omega, ?_⟩
      cases hq : s.queueIncoming with
      | nil => exact absurd hq hne
      | cons p rest =>
        obtain ⟨handle, vec⟩ := p
        rw [show Arbiter.popFront s Origin.Incoming
            = (mapGet s.in_transit handle).map (fun usage =>
              (vec, { s with queueIncoming := rest
                             in_transit := mapSet s.in_transit handle (usage + 1) }))
          from by simp only [Arbiter.popFront, hq]] at h
        cases hg : mapGet s.in_transit handle with
        | none => rw [hg] at h; cases h
        | some usage =>
          rw [hg] at h
          have h2 : vec = bytes ∧ ({ s with queueIncoming := rest
                                            in_transit := mapSet s.in_transit handle
                                              (usage + 1) } : ArbState) = s2 := by
            simpa using h
          rw [← h2.2]
          have := sum_mapSet s.in_transit handle usage (usage + 1) hg
          simp only [ArbState.transitSum]
          omega
  · rw [if_neg c1] at h
    obtain ⟨hne, hcredit⟩ := not_or.mp c1
    refine ⟨by omega, ?_⟩
    cases hq : s.queueAudio with
    | nil => exact absurd hq hne
    | cons p rest =>
      obtain ⟨handle, vec⟩ := p
      rw [show Arbiter.popFront s Origin.Audio
          = (mapGet s.in_transit handle).map (fun usage =>
            (vec, { s with queueAudio := rest
                           in_transit := mapSet s.in_transit handle (usage + 1) }))
        from by simp only [Arbiter.popFront, hq]] at h
      cases hg : mapGet s.in_transit handle with
      | none => rw [hg] at h; cases h
      | some usage =>
        rw [hg] at h
        have h2 : vec = bytes ∧ ({ s with queueAudio := rest
                                          in_transit := mapSet s.in_transit handle
                                            (usage + 1) } : ArbState) = s2 := by
          simpa using h
        rw [← h2.2]
        have := sum_mapSet s.in_transit handle usage (usage + 1) hg
        simp only [ArbState.transitSum]
        omega

theorem IsoData.to_bytes_length (x : IsoData) (bs : List Nat)
    (h : IsoData.to_bytes x = some bs) :
    bs.length = 4 + IsoData.sdu_header_len x.sdu_fragment + x.payload.length := by
  obtain ⟨handle, frag, payload⟩ := x
  cases frag with
  | Continue is_last =>
    cases is_last with
    | false =>
      simp only [IsoData.to_bytes, IsoData.write, IsoData.sdu_header_len] at h
      split at h
      case isFalse => cases h
      case isTrue hh12 =>
        split at h
        case isFalse => cases h
        case isTrue hplen =>
          have hbs := (Option.some.injEq _ _).mp h
          subst hbs
          simp [put, write_u16, IsoData.sdu_header_len]
          try omega
    | true =>
      simp only [IsoData.to_bytes, IsoData.write, IsoData.sdu_header_len] at h
      split at h
      case isFalse => cases h
      case isTrue hh12 =>
        split at h
        case isFalse => cases h
        case isTrue hplen =>
          have hbs := (Option.some.injEq _ _).mp h
          subst hbs
          simp [put, write_u16, IsoData.sdu_header_len]
          try omega
  | First hdr is_last =>
    obtain ⟨ts, seq, sdu, st⟩ := hdr
    cases ts with
    | none =>
      cases is_last with
      | false =>
        simp only [IsoData.to_bytes, IsoData.write, IsoData.sdu_header_len,
          IsoSduHeader.write, Option.isSome_none, Bool.false_eq_true, if_false] at h
        by_cases hh12 : handle < 2 ^ 12
        case neg => rw [if_neg hh12] at h; cases h
        case pos =>
          rw [if_pos hh12] at h
          by_cases hplen : 4 * (1 + 0) + payload.length < 2 ^ 14
          case neg => rw [if_neg hplen] at h; cases h
          case pos =>
            rw [if_pos hplen] at h
            by_cases hguard : sdu < 2 ^ 12 ∧ st < 2 ^ 2
            case neg => rw [if_neg hguard] at h; simp at h
            case pos =>
              rw [if_pos hguard] at h
              simp only [Option.some.injEq, put] at h
              rw [← h]
              simp [write_u16, IsoData.sdu_header_len]
              try omega
      | true =>
        simp only [IsoData.to_bytes, IsoData.write, IsoData.sdu_header_len,
          IsoSduHeader.write, Option.isSome_none, Bool.false_eq_true, if_false] at h
        by_cases hh12 : handle < 2 ^ 12
        case neg => rw [if_neg hh12] at h; cases h
        case pos =>
          rw [if_pos hh12] at h
          by_cases hplen : 4 * (1 + 0) + payload.length < 2 ^ 14
          case neg => rw [if_neg hplen] at h; cases h
          case pos =>
            rw [if_pos hplen] at h
            by_cases hguard : sdu < 2 ^ 12 ∧ st < 2 ^ 2
            case neg => rw [if_neg hguard] at h; simp at h
            case pos =>
              rw [if_pos hguard] at h
              simp only [Option.some.injEq, put] at h
              rw [← h]
              simp [write_u16, IsoData.sdu_header_len]
              try omega
    | some t =>
      cases is_last with
      | false =>
        simp only [IsoData.to_bytes, IsoData.write, IsoData.sdu_header_len,
          IsoSduHeader.write, Option.isSome_some, eq_self_iff_true, if_true] at h
        by_cases hh12 : handle < 2 ^ 12
        case neg => rw [if_neg hh12] at h; cases h
        case pos =>
          rw [if_pos hh12] at h
          by_cases hplen : 4 * (1 + 1) + payload.length < 2 ^ 14
          case neg => rw [if_neg hplen] at h; cases h
          case pos =>
            rw [if_pos hplen] at h
            by_cases hguard : sdu < 2 ^ 12 ∧ st < 2 ^ 2
            case neg => rw [if_neg hguard] at h; simp at h
            case pos =>
              rw [if_pos hguard] at h
              simp only [Option.some.injEq, put] at h
              rw [← h]
              simp [write_u16, IsoData.sdu_header_len]
              try omega
      | true =>
        simp only [IsoData.to_bytes, IsoData.write, IsoData.sdu_header_len,
          IsoSduHeader.write, Option.isSome_some, eq_self_iff_true, if_true] at h
        by_cases hh12 : handle < 2 ^ 12
        case neg => rw [if_neg hh12] at h; cases h
        case pos =>
          rw [if_pos hh12] at h
          by_cases hplen : 4 * (1 + 1) + payload.length < 2 ^ 14
          case neg => rw [if_neg hplen] at h; cases h
          case pos =>
            rw [if_pos hplen] at h
            by_cases hguard : sdu < 2 ^ 12 ∧ st < 2 ^ 2
            case neg => rw [if_neg hguard] at h; simp at h
            case pos =>
              rw [if_pos hguard] at h
              simp only [Option.some.injEq, put] at h
              rw [← h]
              simp [write_u16, IsoData.sdu_header_len]
              try omega

theorem ArbStep.sum_le {max_buf_len max_buf_count : Nat} {a c : ArbState}
    (hstep : ArbStep max_buf_len max_buf_count a c)
    (hmax : a.transitSum ≤ max_buf_count) : c.transitSum ≤ max_buf_count := by
  cases hstep with
  | add_connection handle s2 hadd =>
    unfold Arbiter.add_connection at hadd
    by_cases hc : mapContains a.in_transit handle = true
    · rw [if_pos hc] at hadd
      cases hadd
    · rw [if_neg hc] at hadd
      have h2 := (Option.some.injEq _ _).mp hadd
      subst h2
      unfold ArbState.transitSum at hmax ⊢
      simpa using hmax
  | remove_connection handle =>
    have hle := sum_mapRemove a.in_transit handle
    unfold ArbState.transitSum at hmax ⊢
    unfold Arbiter.remove_connection
    simp only []
    omega
  | push origin x s2 hpush =>
    have hin := push_in_transit a origin x max_buf_len c hpush
    unfold ArbState.transitSum at hmax ⊢
    rw [hin]
    exact hmax
  | set_completed handle num hpre =>
    have := set_completed_sum_le a handle num
    omega
  | pull bytes s2 hp =>
    have := pull_sum max_buf_count a bytes c hp
    omega
  | halt =>
    unfold ArbState.transitSum at hmax ⊢
    exact hmax

/-- Claim C3: under the stated discipline on `set_completed` (the
completed count never exceeds the current in-transit count of the
handle), every reachable arbiter state keeps the sum of the in-transit
counts at or below `max_buf_count`; and the sender pops and forwards a
packet only when that sum is strictly below `max_buf_count` before the
increment. -/
theorem claim_C3 :
    (∀ (max_buf_len max_buf_count : Nat) (s : ArbState),
        ArbReachable max_buf_len max_buf_count s → s.transitSum ≤ max_buf_count) ∧
    (∀ (max_buf_count : Nat) (s : ArbState) (bytes : List Nat) (s2 : ArbState),
        Arbiter.pull max_buf_count s = some (some (bytes, s2)) →
        s.transitSum < max_buf_count ∧ s2.transitSum = s.transitSum + 1) := by
  constructor
  · intro mbl mbc s hreach
    induction hreach with
    | refl => simp [ArbState.init, ArbState.transitSum]
    | tail hsteps hstep ih => exact ArbStep.sum_le hstep ih
  · exact pull_sum

/-- Claim C3, witness: the credit bound evaluated on the state reached
by registering one connection. -/
theorem claim_C3_witness :
    (⟨false, [], [], [(1, 0)]⟩ : ArbState).transitSum ≤ 1 :=
  claim_C3.1 0 1 ⟨false, [], [], [(1, 0)]⟩ (Relation.ReflTransGen.single
    (ArbStep.add_connection ArbState.init 1 ⟨false, [], [], [(1, 0)]⟩ (by rfl)))

/-- Claim C5: when the sender has credit, the packet it selects is the
head of the Audio queue, leaving the Incoming queue untouched; a packet
comes from the Incoming queue only when the Audio queue is empty. -/
theorem claim_C5 :
    (∀ (max_buf_count : Nat) (s : ArbState) (handle : Nat) (vec : List Nat)
        (rest : List (Nat × List Nat)) (bytes : List Nat) (s2 : ArbState),
        s.queueAudio = (handle, vec) :: rest →
        s.transitSum < max_buf_count →
        Arbiter.pull max_buf_count s = some (some (bytes, s2)) →
        bytes = vec ∧ s2.queueIncoming = s.queueIncoming) ∧
    (∀ (max_buf_count : Nat) (s : ArbState) (bytes : List Nat) (s2 : ArbState),
        s.queueAudio = [] →
        Arbiter.pull max_buf_count s = some (some (bytes, s2)) →
        ∃ handle rest, s.queueIncoming = (handle, bytes) :: rest ∧ s2.queueAudio = []) := by
  constructor
  · intro mbc s handle vec rest bytes s2 hq hcredit hp
    unfold Arbiter.pull at hp
    rw [if_neg (not_or.mpr ⟨by simp [hq], by omega⟩)] at hp
    rw [show Arbiter.popFront s Origin.Audio
        = (mapGet s.in_transit handle).map (fun usage =>
          (vec, { s with queueAudio := rest
                         in_transit := mapSet s.in_transit handle (usage + 1) }))
      from by simp only [Arbiter.popFront, hq]] at hp
    cases hg : mapGet s.in_transit handle with
    | none => rw [hg] at hp; cases hp
    | some usage =>
      rw [hg] at hp
      have h2 : vec = bytes ∧ ({ s with queueAudio := rest
                                        in_transit := mapSet s.in_transit handle
                                          (usage + 1) } : ArbState) = s2 := by
        simpa using hp
      refine ⟨h2.1.symm, ?_⟩
      rw [← h2.2]
  · intro mbc s bytes s2 hq hp
    unfold Arbiter.pull at hp
    rw [if_pos (Or.inl hq)] at hp
    by_cases c2 : s.queueIncoming = [] ∨ mbc ≤ s.transitSum
    · rw [if_pos c2] at hp
      simp at hp
    · rw [if_neg c2] at hp
      obtain ⟨hne, _⟩ := not_or.mp c2
      cases hqi : s.queueIncoming with
      | nil => exact absurd hqi hne
      | cons p rest =>
        obtain ⟨handle, vec⟩ := p
        rw [show Arbiter.popFront s Origin.Incoming
            = (mapGet s.in_transit handle).map (fun usage =>
              (vec, { s with queueIncoming := rest
                             in_transit := mapSet s.in_transit handle (usage + 1) }))
          from by simp only [Arbiter.popFront, hqi]] at hp
        cases hg : mapGet s.in_transit handle with
        | none => rw [hg] at hp; cases hp
        | some usage =>
          rw [hg] at hp
          have h2 : vec = bytes ∧ ({ s with queueIncoming := rest
                                            in_transit := mapSet s.in_transit handle
                                              (usage + 1) } : ArbState) = s2 := by
            simpa using hp
          refine ⟨handle, rest, ?_, ?_⟩
          · rw [h2.1]
          · rw [← h2.2]
            simpa using hq

/-- Claim C5, witness: the priority theorem evaluated on a state with
both queues non-empty and one credit available. -/
theorem claim_C5_witness :
    ([9] : List Nat) = [9] ∧
    (⟨false, [(2, [8])], [(3, [7])], [(1, 1), (3, 0)]⟩ : ArbState).queueIncoming
      = (⟨false, [(1, [9]), (2, [8])], [(3, [7])], [(1, 0), (3, 0)]⟩ : ArbState).queueIncoming :=
  claim_C5.1 1 ⟨false, [(1, [9]), (2, [8])], [(3, [7])], [(1, 0), (3, 0)]⟩ 1 [9] [(2, [8])]
    [9] ⟨false, [(2, [8])], [(3, [7])], [(1, 1), (3, 0)]⟩ (by rfl) (by decide) (by rfl)

/-- Claim C7, counterexample: a tracked packet carrying an SDU header
whose payload length satisfies the claimed bound
`payload.len ≤ max_buf_len` is still rejected by the push assertion,
because the assertion actually compares the serialized length
(4-byte ISO header plus SDU header plus payload) with
`max_buf_len + 4`. -/
theorem claim_C7_cex :
    Arbiter.push ⟨false, [], [], [(1, 0)]⟩ Origin.Audio
      (IsoData.new 1 0 [0, 0, 0, 0, 0, 0, 0, 0]) 8 = none ∧
    (IsoData.new 1 0 [0, 0, 0, 0, 0, 0, 0, 0]).payload.length ≤ 8 ∧
    mapContains ([(1, 0)] : List (Nat × Nat)) 1 = true :=
  ⟨by rfl, by decide, by rfl⟩

/-- Claim C7, amended: `push` asserts `data.len() <= max_buf_len + 4`
on the serialized packet, whose length is 4 bytes of ISO header plus
the SDU header length plus the payload length; so push succeeds if and
only if `sdu_header_len + payload.len ≤ max_buf_len`, not whenever
`payload.len ≤ max_buf_len`. -/
theorem claim_C7 :
    ∀ (s : ArbState) (origin : Origin) (x : IsoData) (max_buf_len : Nat) (bs : List Nat),
      IsoData.to_bytes x = some bs →
      (((Arbiter.push s origin x max_buf_len).isSome ↔
        IsoData.sdu_header_len x.sdu_fragment + x.payload.length ≤ max_buf_len) ∧
       bs.length = 4 + IsoData.sdu_header_len x.sdu_fragment + x.payload.length) := by
  intro s origin x mbl bs hw
  have hlen := IsoData.to_bytes_length x bs hw
  refine ⟨?_, hlen⟩
  unfold Arbiter.push
  rw [hw]
  simp only []
  by_cases hc : bs.length ≤ mbl + 4
  · rw [if_pos hc]
    simp only [Option.isSome_some, eq_self_iff_true, true_iff]
    omega
  · rw [if_neg hc]
    simp only [Option.isSome_none, Bool.false_eq_true, false_iff]
    omega

/-- Claim C7, witness: the amended criterion evaluated on a packet with
a 4-byte SDU header and empty payload against `max_buf_len = 8`. -/
theorem claim_C7_witness :
    (Arbiter.push ⟨false, [], [], [(1, 0)]⟩ Origin.Audio (IsoData.new 1 0 []) 8).isSome :=
  ((claim_C7 ⟨false, [], [], [(1, 0)]⟩ Origin.Audio (IsoData.new 1 0 []) 8
    [1, 32, 4, 0, 0, 0, 0, 0] (by rfl)).1).mpr (by decide)

/-! ## LE Audio proxy (src/offload/leaudio/hci/proxy.rs)

The proxy state behind the module mutex, with the `HashMap`s embedded
as association lists and the owned arbiter carried inline as its
configuration and mutex state. Forwarding to the next module and the
`Service` callbacks are recorded as a list of effects; paths that
panic (`unwrap`, `assert`, serialization failures) are `none`. -/

def amGet {β : Type} : List (Nat × β) → Nat → Option β
  | [], _ => none
  | (k, v) :: m, h => if k = h then some v else amGet m h

def amContains {β : Type} (m : List (Nat × β)) (k : Nat) : Bool :=
  (amGet m k).isSome

def amInsert {β : Type} : List (Nat × β) → Nat → β → List (Nat × β)
  | [], k, v => [(k, v)]
  | (k0, v0) :: m, k, v => if k0 = k then (k0, v) :: m else (k0, v0) :: amInsert m k v

def amRemove {β : Type} : List (Nat × β) → Nat → List (Nat × β)
  | [], _ => []
  | (k0, v0) :: m, k => if k0 = k then m else (k0, v0) :: amRemove m k

def DATA_PATH_ID_SOFTWARE : Nat := 0x19

structure BigParameters where
  sdu_interval : Nat
  max_sdu_size : Nat
  bis_handles : List Nat
deriving DecidableEq

structure CisParameters where
  handle : Nat
  max_sdu_size_c_to_p : Nat
  max_sdu_size_p_to_c : Nat
deriving DecidableEq

structure CigParameters where
  sdu_interval_c_to_p : Nat
  sdu_interval_p_to_c : Nat
  cis : List CisParameters
deriving DecidableEq

inductive StreamState
  | Disabled
  | Enabling
  | Enabled
deriving DecidableEq

structure IsoInDirection where
  sdu_interval_us : Nat
  max_sdu_size : Nat
  flush_timeout : Nat
deriving DecidableEq

inductive IsoType
  | Cis (c_to_p : IsoInDirection) (p_to_c : IsoInDirection)
  | Bis (c_to_p : IsoInDirection)
deriving DecidableEq

structure Stream where
  state : StreamState
  iso_type : IsoType
  iso_interval_us : Nat
deriving DecidableEq

structure ProxyState where
  big : List (Nat × BigParameters)
  cig : List (Nat × CigParameters)
  stream : List (Nat × Stream)
  arbiter : Option (Nat × Nat × ArbState)
deriving DecidableEq

/-- `State::default()`. -/
def ProxyState.init : ProxyState := ⟨[], [], [], none⟩

/-- The observable actions of the proxy: forwarding to the next
module and the `Service` callbacks. -/
inductive PEffect
  | outCmd (data : List Nat)
  | inEvt (data : List Nat)
  | outIso (data : List Nat)
  | serviceReset
  | serviceStart (handle isoIntervalUs sduIntervalUs maxSduSize flushTimeout : Nat)
  | serviceStop (handle : Nat)
deriving DecidableEq

/-- Embedding of `Stream::new_cis` (the `unwrap` and the two framing
asserts are failures). -/
def Stream.new_cis (cig : CigParameters) (e : LeCisEstablished) : Option Stream :=
  match cig.cis.find? (fun c => c.handle == e.connection_handle) with
  | none => none
  | some cis =>
    let iso_interval_us := e.iso_interval * 1250
    if (cig.sdu_interval_c_to_p = 0 ∨ iso_interval_us % cig.sdu_interval_c_to_p = 0) ∧
       (cig.sdu_interval_p_to_c = 0 ∨ iso_interval_us % cig.sdu_interval_p_to_c = 0) then
      some { state := StreamState.Disabled
             iso_type := IsoType.Cis
               ⟨cig.sdu_interval_c_to_p, cis.max_sdu_size_c_to_p, e.ft_c_to_p⟩
               ⟨cig.sdu_interval_p_to_c, cis.max_sdu_size_p_to_c, e.ft_p_to_c⟩
             iso_interval_us := iso_interval_us }
    else none

/-- Embedding of `Stream::new_bis` (`iso_interval_us % big.sdu_interval`
panics on a zero interval, and the framing assert fails on a nonzero
remainder). -/
def Stream.new_bis (big : BigParameters) (e : LeCreateBigComplete) : Option Stream :=
  let iso_interval_us := e.iso_interval * 1250
  if big.sdu_interval ≠ 0 ∧ iso_interval_us % big.sdu_interval = 0 then
    some { state := StreamState.Disabled
           iso_type := IsoType.Bis ⟨big.sdu_interval, big.max_sdu_size, e.irc⟩
           iso_interval_us := iso_interval_us }
  else none

/-- Embedding of `LeAudioModule::out_cmd`. -/
def LeAudioModule.out_cmd (s : ProxyState) (data : List Nat) :
    Option (ProxyState × List PEffect) :=
  match Command.from_bytes data with
  | .ok (Command.LeSetCigParameters c) =>
    let cig : CigParameters :=
      { sdu_interval_c_to_p := c.sdu_interval_c_to_p
        sdu_interval_p_to_c := c.sdu_interval_p_to_c
        cis := c.cis.map fun p =>
          { handle := 0
            max_sdu_size_c_to_p := p.max_sdu_c_to_p
            max_sdu_size_p_to_c := p.max_sdu_p_to_c } }
    some ({ s with cig := amInsert s.cig c.cig_id cig }, [PEffect.outCmd data])
  | .ok (Command.LeCreateBig c) =>
    let big : BigParameters :=
      { sdu_interval := c.sdu_interval
        max_sdu_size := c.max_sdu
        bis_handles := [] }
    some ({ s with big := amInsert s.big c.big_handle big }, [PEffect.outCmd data])
  | .ok (Command.LeSetupIsoDataPath c) =>
    if c.data_path_id = DATA_PATH_ID_SOFTWARE then
      if c.data_path_direction = LeDataPathDirection.Input then
        match amGet s.stream c.connection_handle with
        | none => none
        | some stream =>
          match Command.to_bytes (Command.LeSetupIsoDataPath
              { c with data_path_id := 0 }) with
          | none => none
          | some bytes =>
            let st2 := { stream with state := StreamState.Enabling }
            some ({ s with stream := amInsert s.stream c.connection_handle st2 },
              [PEffect.outCmd bytes])
      else none
    else some (s, [PEffect.outCmd data])
  | _ => some (s, [PEffect.outCmd data])

/-- `match state.stream.get(&handle) { Some(stream) => stream.state ==
Enabled, None => false }`. -/
def ProxyState.isEnabled (s : ProxyState) (handle : Nat) : Bool :=
  match amGet s.stream handle with
  | some stream => stream.state == StreamState.Enabled
  | none => false

/-- The body of the `for item in &e.handles` loop of the
NumberOfCompletedPackets arm: credit the arbiter, then route the entry
to the audio or stack event. -/
def LeAudioModule.nocp_step (s : ProxyState)
    (acc : ArbState × List NumberOfCompletedPacketsHandle
      × List NumberOfCompletedPacketsHandle)
    (item : NumberOfCompletedPacketsHandle) :
    ArbState × List NumberOfCompletedPacketsHandle
      × List NumberOfCompletedPacketsHandle :=
  let ast := Arbiter.set_completed acc.1 item.connection_handle item.num_completed_packets
  if s.isEnabled item.connection_handle then (ast, acc.2.1 ++ [item], acc.2.2)
  else (ast, acc.2.1, acc.2.2 ++ [item])

/-- The `for h in &big.bis_handles` loop of the LeCreateBigComplete
arm: insert each BIS stream and register fresh handles with the
arbiter (`none` is the `unwrap` or duplicate-connection panic). -/
def insertBisStreams (bis : Stream) : List Nat → List (Nat × Stream) →
    Option (Nat × Nat × ArbState) →
    Option (List (Nat × Stream) × Option (Nat × Nat × ArbState))
  | [], streams, arb => some (streams, arb)
  | h :: hs, streams, arb =>
    if amContains streams h then insertBisStreams bis hs (amInsert streams h bis) arb
    else
      match arb with
      | none => none
      | some (mbl, mbc, ast) =>
        match Arbiter.add_connection ast h with
        | none => none
        | some ast2 => insertBisStreams bis hs (amInsert streams h bis)
            (some (mbl, mbc, ast2))

/-- The `for h in big.bis_handles` loop of the LeTerminateBigComplete
arm (`none` is the arbiter `unwrap` panic). -/
def removeBisStreams : List Nat → List (Nat × Stream) →
    Option (Nat × Nat × ArbState) →
    Option (List (Nat × Stream) × Option (Nat × Nat × ArbState))
  | [], streams, arb => some (streams, arb)
  | h :: hs, streams, arb =>
    match arb with
    | none => none
    | some (mbl, mbc, ast) =>
      removeBisStreams hs (amRemove streams h)
        (some (mbl, mbc, Arbiter.remove_connection ast h))

/-- Embedding of `LeAudioModule::in_evt`. Every arm falls through to
forwarding the original bytes, except the NumberOfCompletedPackets arm
with an arbiter present, which returns early. -/
def LeAudioModule.in_evt (s : ProxyState) (data : List Nat) :
    Option (ProxyState × List PEffect) :=
  match Event.from_bytes data with
  | .ok (Event.CommandComplete e) =>
    match e.return_parameters with
    | .Reset ret =>
      if ret.status = Status.Success then some (ProxyState.init, [PEffect.inEvt data])
      else some (s, [PEffect.inEvt data])
    | .LeReadBufferSizeV2 ret =>
      if ret.status = Status.Success then
        some ({ s with arbiter := some (ret.iso_data_packet_length,
            ret.total_num_iso_data_packets, ArbState.init) },
          [PEffect.serviceReset, PEffect.inEvt data])
      else some (s, [PEffect.inEvt data])
    | .LeSetCigParameters ret =>
      if ret.status = Status.Success then
        match amGet s.cig ret.cig_id with
        | none => none
        | some cig =>
          if cig.cis.length = ret.connection_handles.length then
            let cis2 := (cig.cis.zip ret.connection_handles).map
              fun p => { p.1 with handle := p.2 }
            let cig2 := { cig with cis := cis2 }
            some ({ s with cig := amInsert s.cig ret.cig_id cig2 },
              [PEffect.inEvt data])
          else none
      else some (s, [PEffect.inEvt data])
    | .LeRemoveCig ret =>
      if ret.status = Status.Success then
        some ({ s with cig := amRemove s.cig ret.cig_id }, [PEffect.inEvt data])
      else some (s, [PEffect.inEvt data])
    | .LeSetupIsoDataPath ret =>
      match amGet s.stream ret.connection_handle with
      | none => none
      | some stream =>
        let newState := if stream.state = StreamState.Enabling
            ∧ ret.status = Status.Success
          then StreamState.Enabled else StreamState.Disabled
        let st2 := { stream with state := newState }
        let s2 := { s with stream := amInsert s.stream ret.connection_handle st2 }
        if newState = StreamState.Enabled then
          let c_to_p := match stream.iso_type with
            | IsoType.Cis c _ => c
            | IsoType.Bis c => c
          some (s2, [PEffect.serviceStart ret.connection_handle stream.iso_interval_us
            c_to_p.sdu_interval_us c_to_p.max_sdu_size c_to_p.flush_timeout,
            PEffect.inEvt data])
        else some (s2, [PEffect.inEvt data])
    | .LeRemoveIsoDataPath ret =>
      if ret.status = Status.Success then
        match amGet s.stream ret.connection_handle with
        | none => none
        | some stream =>
          let st2 := { stream with state := StreamState.Disabled }
          some ({ s with stream := amInsert s.stream ret.connection_handle st2 },
            if stream.state = StreamState.Enabled
              then [PEffect.serviceStop ret.connection_handle, PEffect.inEvt data]
              else [PEffect.inEvt data])
      else some (s, [PEffect.inEvt data])
    | _ => some (s, [PEffect.inEvt data])
  | .ok (Event.LeCisEstablished e) =>
    if e.status = Status.Success then
      match s.cig.find? (fun p => p.2.cis.any fun c => c.handle == e.connection_handle) with
      | none => none
      | some (_, cig) =>
        match Stream.new_cis cig e with
        | none => none
        | some cis =>
          if amContains s.stream e.connection_handle then
            some ({ s with stream := amInsert s.stream e.connection_handle cis },
              [PEffect.inEvt data])
          else
            match s.arbiter with
            | none => none
            | some (mbl, mbc, ast) =>
              match Arbiter.add_connection ast e.connection_handle with
              | none => none
              | some ast2 =>
                some ({ s with
                    stream := amInsert s.stream e.connection_handle cis
                    arbiter := some (mbl, mbc, ast2) },
                  [PEffect.inEvt data])
    else some (s, [PEffect.inEvt data])
  | .ok (Event.DisconnectionComplete e) =>
    if e.status = Status.Success then
      if amContains s.stream e.connection_handle then
        match s.arbiter with
        | none => none
        | some (mbl, mbc, ast) =>
          some ({ s with
              stream := amRemove s.stream e.connection_handle
              arbiter := some (mbl, mbc,
                Arbiter.remove_connection ast e.connection_handle) },
            [PEffect.inEvt data])
      else some (s, [PEffect.inEvt data])
    else some (s, [PEffect.inEvt data])
  | .ok (Event.LeCreateBigComplete e) =>
    if e.status = Status.Success then
      match amGet s.big e.big_handle with
      | none => none
      | some big0 =>
        let big := { big0 with bis_handles := e.bis_handles }
        match Stream.new_bis big e with
        | none => none
        | some bis =>
          match insertBisStreams bis e.bis_handles s.stream s.arbiter with
          | none => none
          | some (streams2, arb2) =>
            some ({ s with
                big := amInsert s.big e.big_handle big
                stream := streams2
                arbiter := arb2 },
              [PEffect.inEvt data])
    else some (s, [PEffect.inEvt data])
  | .ok (Event.LeTerminateBigComplete e) =>
    match amGet s.big e.big_handle with
    | none => none
    | some big =>
      match removeBisStreams big.bis_handles s.stream s.arbiter with
      | none => none
      | some (streams2, arb2) =>
        some ({ s with
            big := amRemove s.big e.big_handle
            stream := streams2
            arbiter := arb2 },
          [PEffect.inEvt data])
  | .ok (Event.NumberOfCompletedPackets e) =>
    match s.arbiter with
    | none => some (s, [PEffect.inEvt data])
    | some (mbl, mbc, ast) =>
      let r := e.handles.foldl (LeAudioModule.nocp_step s) (ast, [], [])
      let s2 := { s with arbiter := some (mbl, mbc, r.1) }
      if r.2.2 = [] then some (s2, [])
      else
        match Event.to_bytes (Event.NumberOfCompletedPackets { handles := r.2.2 }) with
        | none => none
        | some bytes => some (s2, [PEffect.inEvt bytes])
  | .ok _ => some (s, [PEffect.inEvt data])
  | .error _ => some (s, [PEffect.inEvt data])

/-- Embedding of `LeAudioModule::out_iso` (the packet is handed to the
arbiter, which forwards it from its sender thread). -/
def LeAudioModule.out_iso (s : ProxyState) (data : List Nat) :
    Option (ProxyState × List PEffect) :=
  match s.arbiter with
  | none => none
  | some (mbl, mbc, ast) =>
    match IsoData.from_bytes data with
    | none => none
    | some x =>
      match Arbiter.push ast Origin.Incoming x mbl with
      | none => none
      | some ast2 => some ({ s with arbiter := some (mbl, mbc, ast2) }, [])

/-- Crediting the arbiter with every (handle, count) entry in order. -/
def creditAll (ast : ArbState) (items : List NumberOfCompletedPacketsHandle) : ArbState :=
  items.foldl (fun a item =>
    Arbiter.set_completed a item.connection_handle item.num_completed_packets) ast

theorem nocp_fold (s : ProxyState) (items : List NumberOfCompletedPacketsHandle) :
    ∀ (ast : ArbState) (audio stack : List NumberOfCompletedPacketsHandle),
    items.foldl (LeAudioModule.nocp_step s) (ast, audio, stack)
      = (creditAll ast items,
         audio ++ items.filter (fun i => s.isEnabled i.connection_handle),
         stack ++ items.filter (fun i => ! s.isEnabled i.connection_handle)) := by
  induction items with
  | nil =>
    intro ast audio stack
    simp [creditAll]
  | cons i items ih =>
    intro ast audio stack
    rw [List.foldl_cons]
    by_cases hb : s.isEnabled i.connection_handle
    · rw [show LeAudioModule.nocp_step s (ast, audio, stack) i
          = (Arbiter.set_completed ast i.connection_handle i.num_completed_packets,
             audio ++ [i], stack) from by simp [LeAudioModule.nocp_step, hb]]
      rw [ih]
      simp [creditAll, List.filter_cons, hb]
    · rw [show LeAudioModule.nocp_step s (ast, audio, stack) i
          = (Arbiter.set_completed ast i.connection_handle i.num_completed_packets,
             audio, stack ++ [i]) from by simp [LeAudioModule.nocp_step, hb]]
      rw [ih]
      simp [creditAll, List.filter_cons, hb]

/-- Claim C2: on a NumberOfCompletedPackets event with an arbiter
present, the proxy credits the arbiter with every entry in order,
consumes the entries whose handle maps to an Enabled stream, retains
all other entries in their original order, and forwards a rewritten
event holding exactly the retained entries when there are any, or
nothing at all when there are none. -/
theorem claim_C2 :
    ∀ (s : ProxyState) (data : List Nat) (e : NumberOfCompletedPackets)
      (mbl mbc : Nat) (ast : ArbState) (s2 : ProxyState) (effs : List PEffect),
      Event.from_bytes data = .ok (Event.NumberOfCompletedPackets e) →
      s.arbiter = some (mbl, mbc, ast) →
      LeAudioModule.in_evt s data = some (s2, effs) →
      s2 = { s with arbiter := some (mbl, mbc, creditAll ast e.handles) } ∧
      ((e.handles.filter fun i => ! s.isEnabled i.connection_handle) = [] → effs = []) ∧
      ((e.handles.filter fun i => ! s.isEnabled i.connection_handle) ≠ [] →
        ∃ bytes2, Event.to_bytes (Event.NumberOfCompletedPackets
            { handles := e.handles.filter fun i => ! s.isEnabled i.connection_handle })
          = some bytes2 ∧ effs = [PEffect.inEvt bytes2]) := by
  intro s data e mbl mbc ast s2 effs hev harb h
  simp only [LeAudioModule.in_evt, hev, harb, nocp_fold, List.nil_append] at h
  by_cases hret : (e.handles.filter fun i => ! s.isEnabled i.connection_handle) = []
  · rw [if_pos hret] at h
    have h2 : ({ s with arbiter := some (mbl, mbc, creditAll ast e.handles) } : ProxyState)
        = s2 ∧ ([] : List PEffect) = effs := by simpa using h
    exact ⟨h2.1.symm, fun _ => h2.2.symm, fun hcon => absurd hret hcon⟩
  · rw [if_neg hret] at h
    cases hw : Event.to_bytes (Event.NumberOfCompletedPackets
        { handles := e.handles.filter fun i => ! s.isEnabled i.connection_handle }) with
    | none =>
      rw [hw] at h
      cases h
    | some bytes =>
      rw [hw] at h
      have h2 : ({ s with arbiter := some (mbl, mbc, creditAll ast e.handles) } : ProxyState)
          = s2 ∧ [PEffect.inEvt bytes] = effs := by simpa using h
      exact ⟨h2.1.symm, fun hcon => absurd hcon hret,
        fun _ => ⟨bytes, rfl, h2.2.symm⟩⟩

/-- Claim C2, witness: the rewriting evaluated on a two-entry event
where the first handle is an Enabled stream and the second is not. -/
theorem claim_C2_witness :
    ∃ bytes2,
      Event.to_bytes (Event.NumberOfCompletedPackets
        { handles := [⟨1, 1⟩, ⟨2, 1⟩].filter fun i =>
          ! ProxyState.isEnabled ⟨[], [],
            [(1, ⟨StreamState.Enabled, IsoType.Bis ⟨0, 0, 0⟩, 0⟩)],
            some (0, 1, ⟨false, [], [], [(1, 2)]⟩)⟩ i.connection_handle })
        = some bytes2 ∧
      ([PEffect.inEvt [19, 5, 1, 2, 0, 1, 0]] : List PEffect) = [PEffect.inEvt bytes2] :=
  (claim_C2 ⟨[], [], [(1, ⟨StreamState.Enabled, IsoType.Bis ⟨0, 0, 0⟩, 0⟩)],
      some (0, 1, ⟨false, [], [], [(1, 2)]⟩)⟩
    [19, 9, 2, 1, 0, 1, 0, 2, 0, 1, 0] ⟨[⟨1, 1⟩, ⟨2, 1⟩]⟩ 0 1 ⟨false, [], [], [(1, 2)]⟩
    ⟨[], [], [(1, ⟨StreamState.Enabled, IsoType.Bis ⟨0, 0, 0⟩, 0⟩)],
      some (0, 1, ⟨false, [], [], [(1, 1)]⟩)⟩
    [PEffect.inEvt [19, 5, 1, 2, 0, 1, 0]]
    (by rfl) (by rfl) (by decide)).2.2 (by decide)

/-- Claim C4: an outgoing LeSetupIsoDataPath command with the software
offload data-path id (0x19) requires direction Input, marks the stream
Enabling, and forwards the command rewritten to data-path id 0; every
other outgoing command that is not LeSetCigParameters or LeCreateBig
is forwarded with its bytes unchanged. -/
theorem claim_C4 :
    (∀ (s : ProxyState) (data : List Nat) (c : LeSetupIsoDataPath)
        (s2 : ProxyState) (effs : List PEffect),
        Command.from_bytes data = .ok (Command.LeSetupIsoDataPath c) →
        c.data_path_id = DATA_PATH_ID_SOFTWARE →
        LeAudioModule.out_cmd s data = some (s2, effs) →
        c.data_path_direction = LeDataPathDirection.Input ∧
        ∃ (st : Stream) (bytes2 : List Nat),
          amGet s.stream c.connection_handle = some st ∧
          s2 = { s with stream := amInsert s.stream c.connection_handle { st with state := StreamState.Enabling } } ∧
          Command.to_bytes (Command.LeSetupIsoDataPath { c with data_path_id := 0 })
            = some bytes2 ∧
          effs = [PEffect.outCmd bytes2]) ∧
    (∀ (s : ProxyState) (data : List Nat),
        (∀ c, Command.from_bytes data ≠ .ok (Command.LeSetCigParameters c)) →
        (∀ c, Command.from_bytes data ≠ .ok (Command.LeCreateBig c)) →
        (∀ c, Command.from_bytes data = .ok (Command.LeSetupIsoDataPath c) →
          c.data_path_id ≠ DATA_PATH_ID_SOFTWARE) →
        LeAudioModule.out_cmd s data = some (s, [PEffect.outCmd data])) := by
  constructor
  · intro s data c s2 effs hcb hid h
    simp only [LeAudioModule.out_cmd, hcb] at h
    rw [if_pos hid] at h
    by_cases hdir : c.data_path_direction = LeDataPathDirection.Input
    case neg =>
      rw [if_neg hdir] at h
      cases h
    case pos =>
      rw [if_pos hdir] at h
      refine ⟨hdir, ?_⟩
      cases hg : amGet s.stream c.connection_handle with
      | none =>
        rw [hg] at h
        cases h
      | some st =>
        rw [hg] at h
        cases hw : Command.to_bytes (Command.LeSetupIsoDataPath
            { c with data_path_id := 0 }) with
        | none =>
          rw [hw] at h
          cases h
        | some bytes =>
          rw [hw] at h
          have h2 : ({ s with stream := amInsert s.stream c.connection_handle { st with state := StreamState.Enabling } } : ProxyState) = s2
              ∧ [PEffect.outCmd bytes] = effs := by simpa using h
          exact ⟨st, bytes, rfl, h2.1.symm, rfl, h2.2.symm⟩
  · intro s data h1 h2 h3
    cases hcb : Command.from_bytes data with
    | error err => simp only [LeAudioModule.out_cmd, hcb]
    | ok cmd =>
      cases cmd with
      | Reset c => simp only [LeAudioModule.out_cmd, hcb]
      | LeSetCigParameters c => exact absurd hcb (h1 c)
      | LeCreateCis c => simp only [LeAudioModule.out_cmd, hcb]
      | LeRemoveCig c => simp only [LeAudioModule.out_cmd, hcb]
      | LeCreateBig c => exact absurd hcb (h2 c)
      | LeSetupIsoDataPath c =>
        simp only [LeAudioModule.out_cmd, hcb]
        rw [if_neg (h3 c hcb)]
      | LeRemoveIsoDataPath c => simp only [LeAudioModule.out_cmd, hcb]
      | Unknown op => simp only [LeAudioModule.out_cmd, hcb]

/-- Claim C4, witness: the passthrough conjunct evaluated on a Reset
command. -/
theorem claim_C4_witness :
    LeAudioModule.out_cmd ProxyState.init [3, 12, 0]
      = some (ProxyState.init, [PEffect.outCmd [3, 12, 0]]) :=
  claim_C4.2 ProxyState.init [3, 12, 0]
    (fun c h => by
      rw [show Command.from_bytes [3, 12, 0] = Except.ok (Command.Reset {}) from rfl] at h
      exact absurd h (by simp))
    (fun c h => by
      rw [show Command.from_bytes [3, 12, 0] = Except.ok (Command.Reset {}) from rfl] at h
      exact absurd h (by simp))
    (fun c h => by
      rw [show Command.from_bytes [3, 12, 0] = Except.ok (Command.Reset {}) from rfl] at h
      exact absurd h (by simp))

/-- Claim C9: a NumberOfCompletedPackets event arriving while no
arbiter exists is forwarded unchanged with the proxy state intact. -/
theorem claim_C9 :
    ∀ (s : ProxyState) (data : List Nat) (e : NumberOfCompletedPackets),
      Event.from_bytes data = .ok (Event.NumberOfCompletedPackets e) →
      s.arbiter = none →
      LeAudioModule.in_evt s data = some (s, [PEffect.inEvt data]) := by
  intro s data e hev harb
  simp only [LeAudioModule.in_evt, hev, harb]

/-- Claim C9, witness: the forwarding evaluated on a concrete event
against the default state. -/
theorem claim_C9_witness :
    LeAudioModule.in_evt ProxyState.init [19, 5, 1, 2, 0, 1, 0]
      = some (ProxyState.init, [PEffect.inEvt [19, 5, 1, 2, 0, 1, 0]]) :=
  claim_C9 ProxyState.init [19, 5, 1, 2, 0, 1, 0] ⟨[⟨2, 1⟩]⟩ (by rfl) (by rfl)

/-- Claim C10: an incoming LeCisEstablished, LeCreateBigComplete or
DisconnectionComplete event whose status is not Success leaves the
proxy state unchanged and is forwarded with its original bytes. -/
theorem claim_C10 :
    (∀ (s : ProxyState) (data : List Nat) (e : LeCisEstablished),
        Event.from_bytes data = .ok (Event.LeCisEstablished e) →
        e.status ≠ Status.Success →
        LeAudioModule.in_evt s data = some (s, [PEffect.inEvt data])) ∧
    (∀ (s : ProxyState) (data : List Nat) (e : LeCreateBigComplete),
        Event.from_bytes data = .ok (Event.LeCreateBigComplete e) →
        e.status ≠ Status.Success →
        LeAudioModule.in_evt s data = some (s, [PEffect.inEvt data])) ∧
    (∀ (s : ProxyState) (data : List Nat) (e : DisconnectionComplete),
        Event.from_bytes data = .ok (Event.DisconnectionComplete e) →
        e.status ≠ Status.Success →
        LeAudioModule.in_evt s data = some (s, [PEffect.inEvt data])) := by
  refine ⟨?_, ?_, ?_⟩ <;>
    (intro s data e hev hst
     simp only [LeAudioModule.in_evt, hev]
     rw [if_neg hst])

/-- Claim C10, witness: the frame condition evaluated on a
DisconnectionComplete event with a non-Success status. -/
theorem claim_C10_witness :
    LeAudioModule.in_evt ProxyState.init [5, 4, 2, 1, 0, 19]
      = some (ProxyState.init, [PEffect.inEvt [5, 4, 2, 1, 0, 19]]) :=
  claim_C10.2.2 ProxyState.init [5, 4, 2, 1, 0, 19]
    ⟨Status.UnknownConnectionIdentifier, 1, 19⟩ (by rfl) (by decide)

end Hci
